import Mathlib

/-!
# Slot exporter (`exporter/slot_exporter.go`)

A shallow embedding of `RunSlotExporter` and `ExportSlot`.

* Go `uint64` values are natural numbers; arithmetic that can wrap is written
  with an explicit reduction modulo `2 ^ 64`.
* The node client, the relational store and the wide-column store are not part
  of the embedded file.  They are taken as parameters (`Deps`): every operation
  is a transition on an arbitrary collaborator state `σ` that yields the Go
  result `(value, err)` as an `Except String`.
* A computation returns its result, the collaborator state it leaves behind and
  the list of calls it issued, in program order.
* Loops over `uint64` counters take fuel; running out of fuel is the fault
  `Fault.outOfFuel` and stands for a loop that does not terminate.
-/

namespace SlotExporter

/-! ## Machine integers -/

/-- The modulus of Go `uint64` arithmetic, `2 ^ 64`. -/
def twoPow64 : Nat := 18446744073709551616

/-- The `uint64` addition `a + b`. -/
def addU64 (a b : Nat) : Nat := (a + b) % twoPow64

/-- The `uint64` subtraction `a - b`, for operands below `2 ^ 64`. -/
def subU64 (a b : Nat) : Nat := (a + (twoPow64 - b % twoPow64)) % twoPow64

/-- The `uint64` multiplication `a * b`. -/
def mulU64 (a b : Nat) : Nat := (a * b) % twoPow64

/-! ## Data model -/

/-- A Go byte slice. -/
abbrev Bytes := List Nat

/-- A Go map, kept as the list of its entries.  For a map that the program
ranges over, the list is in the order in which the range loop visits it. -/
abbrev GoMap (κ : Type) (ν : Type) := List (κ × ν)

namespace GoMap

/-- The map read `m[k]`, `none` when the key is absent. -/
def get {κ ν : Type} [DecidableEq κ] (m : GoMap κ ν) (k : κ) : Option ν :=
  match m with
  | [] => none
  | (k1, v1) :: rest => if k1 = k then some v1 else get rest k

/-- The map write `m[k] = v`. -/
def set {κ ν : Type} [DecidableEq κ] (m : GoMap κ ν) (k : κ) (v : ν) : GoMap κ ν :=
  match m with
  | [] => [(k, v)]
  | (k1, v1) :: rest => if k1 = k then (k, v) :: rest else (k1, v1) :: set rest k v

end GoMap

/-- The chain head returned by `client.GetChainHead`. -/
structure ChainHead where
  HeadSlot : Nat
  HeadEpoch : Nat
  FinalizedSlot : Nat
deriving DecidableEq, Repr

/-- A row of the `blocks` table as read by `db.GetAllSlots` and
`db.GetAllNonFinalizedSlots`. -/
structure DbSlot where
  Slot : Nat
  BlockRoot : Bytes
  Status : String
  Finalized : Bool
deriving DecidableEq, Repr

/-- A block header returned by `client.GetBlockHeader`; `Root` is
`header.Data.Root`, a hex string. -/
structure Header where
  Root : String
deriving DecidableEq, Repr

/-- The participation statistics returned by `client.GetValidatorParticipation`. -/
structure Participation where
  Epoch : Nat
  GlobalParticipationRate : Nat
deriving DecidableEq, Repr

/-- The value of `block.EpochAssignments`. -/
structure EpochAssignments where
  ProposerAssignments : GoMap Nat Nat
  AttestorAssignments : GoMap String Nat
  SyncAssignments : List Nat
deriving DecidableEq, Repr

/-- The block returned by `client.GetBlockBySlot`. -/
structure Block where
  Slot : Nat
  BlockRoot : Bytes
  EpochAssignments : Option EpochAssignments
  Validators : List Nat
  SyncDuties : GoMap Nat Bool
  AttestationDuties : GoMap Nat (List Nat)
deriving DecidableEq, Repr

/-- The calls a tick can issue, with their arguments. -/
inductive Call where
  | GetAllSlots
  | GetChainHead
  | GetLastSlot
  | GetAllNonFinalizedSlots
  | GetBlockHeader (slot : Nat)
  | SetSlotFinalizationAndStatus (slot : Nat) (finalized : Bool) (status : String)
  | GetValidatorParticipation (epoch : Nat)
  | UpdateEpochStatus (stats : Participation)
  | ExportSlot (slot : Nat) (isHeadEpoch : Bool)
  | GetBlockBySlot (slot : Nat)
  | SaveAttestationDuties (duties : GoMap Nat (GoMap Nat (List Nat)))
  | SaveSyncComitteeDuties (duties : GoMap Nat (GoMap Nat Bool))
  | SaveProposalAssignments (epoch : Nat) (assignments : GoMap Nat Nat)
  | SaveValidatorBalances (epoch : Nat) (validators : List Nat)
  | SaveValidators (epoch : Nat) (validators : List Nat)
  | UpdateQueueDeposits
  | SaveEpoch (epoch : Nat) (validators : List Nat)
  | SaveProposal (block : Block)
  | SaveBlock (block : Block)
deriving DecidableEq, Repr

/-- The outcome of `db.WriterDb.Get(&lastDbSlot, "SELECT slot FROM blocks ORDER BY slot DESC limit 1")`. -/
inductive LastSlot where
  | found (slot : Nat)
  | noRows
  | failed (err : String)
deriving DecidableEq, Repr

/-- The collaborators of the exporter, over a collaborator state `σ`. -/
structure Deps (σ : Type) where
  /-- The value of `utils.Config.Chain.ClConfig.SlotsPerEpoch`. -/
  SlotsPerEpoch : Nat
  /-- The function `utils.EpochOfSlot`. -/
  EpochOfSlot : Nat → Nat
  /-- The function `utils.MustParseHex`; `none` when it does not return. -/
  MustParseHex : String → Option Bytes
  GetAllSlots : σ → Except String (List DbSlot) × σ
  GetLastSlot : σ → LastSlot × σ
  GetAllNonFinalizedSlots : σ → Except String (List DbSlot) × σ
  SetSlotFinalizationAndStatus : Nat → Bool → String → σ → Except String Unit × σ
  UpdateEpochStatus : Participation → σ → Except String Unit × σ
  SaveValidators : Nat → List Nat → σ → Except String Unit × σ
  UpdateQueueDeposits : σ → Except String Unit × σ
  SaveEpoch : Nat → List Nat → σ → Except String Unit × σ
  SaveBlock : Block → σ → Except String Unit × σ
  GetChainHead : σ → Except String ChainHead × σ
  GetBlockHeader : Nat → σ → Except String (Option Header) × σ
  GetBlockBySlot : Nat → σ → Except String Block × σ
  GetValidatorParticipation : Nat → σ → Except String Participation × σ
  SaveAttestationDuties : GoMap Nat (GoMap Nat (List Nat)) → σ → Except String Unit × σ
  SaveSyncComitteeDuties : GoMap Nat (GoMap Nat Bool) → σ → Except String Unit × σ
  SaveProposalAssignments : Nat → GoMap Nat Nat → σ → Except String Unit × σ
  SaveValidatorBalances : Nat → List Nat → σ → Except String Unit × σ
  SaveProposal : Block → σ → Except String Unit × σ

/-! ## Computations -/

/-- The ways a computation ends without a value: a returned Go `error`, a
run-time abort (integer division by zero, `MustParseHex` on a malformed string),
or a loop that ran out of fuel. -/
inductive Fault where
  | error (msg : String)
  | abort
  | outOfFuel
deriving DecidableEq, Repr

/-- What a computation leaves behind. -/
structure Run (σ : Type) (α : Type) where
  result : Except Fault α
  state : σ
  calls : List Call

/-- A computation over the collaborator state `σ`. -/
def Exec (σ : Type) (α : Type) : Type := σ → Run σ α

namespace Exec

/-- The computation that returns `a` and calls nothing. -/
def ret {σ α : Type} (a : α) : Exec σ α := fun s => ⟨.ok a, s, []⟩

/-- Sequencing: a fault of the first computation ends the whole. -/
def andThen {σ α β : Type} (m : Exec σ α) (f : α → Exec σ β) : Exec σ β := fun s =>
  match (m s).result with
  | .ok a => ⟨(f a (m s).state).result, (f a (m s).state).state, (m s).calls ++ (f a (m s).state).calls⟩
  | .error e => ⟨.error e, (m s).state, (m s).calls⟩

instance {σ : Type} : Monad (Exec σ) where
  pure := ret
  bind := andThen

/-- The computation that ends with the fault `f`. -/
def raise {σ α : Type} (f : Fault) : Exec σ α := fun s => ⟨.error f, s, []⟩

/-- The Go statement `return fmt.Errorf(...)`. -/
def fail {σ α : Type} (msg : String) : Exec σ α := raise (.error msg)

/-- One call of a collaborator: it is recorded and its Go result is returned. -/
def call {σ α : Type} (c : Call) (f : σ → α × σ) : Exec σ α := fun s =>
  ⟨.ok (f s).1, (f s).2, [c]⟩

/-- The entry of a function of the embedded file: only recorded. -/
def enter {σ : Type} (c : Call) : Exec σ Unit := fun s => ⟨.ok (), s, [c]⟩

end Exec

open Exec

/-- The loop `for slot := lo; slot <= hi; slot++ { body }` over `uint64`. -/
def forSlots {σ : Type} (fuel : Nat) (lo hi : Nat) (body : Nat → Exec σ Unit) : Exec σ Unit :=
  match fuel with
  | 0 => raise .outOfFuel
  | fuel + 1 =>
    if lo ≤ hi then do
      body lo
      forSlots fuel (addU64 lo 1) hi body
    else pure ()

/-- The loop `for _, x := range xs { body }`. -/
def forRange {σ α : Type} (xs : List α) (body : α → Exec σ Unit) : Exec σ Unit :=
  match xs with
  | [] => pure ()
  | x :: rest => do
    body x
    forRange rest body

/-- An integer division or remainder by `divisor`: a run-time abort when it is zero. -/
def checkDivisor {σ : Type} (divisor : Nat) : Exec σ Unit :=
  if divisor = 0 then raise .abort else pure ()

/-- The Go idiom `if err != nil { return fmt.Errorf(ctx + "%w", err) }` after a
call of a function of the embedded file: a returned error is wrapped. -/
def wrapError {σ α : Type} (ctx : String) (m : Exec σ α) : Exec σ α := fun s =>
  match (m s).result with
  | .error (.error e) => ⟨.error (.error (ctx ++ e)), (m s).state, (m s).calls⟩
  | _ => m s

/-! ## `ExportSlot` -/

/-- The first element of `strings.Split(key, "-")`. -/
def firstField (key : String) : List Char :=
  key.toList.takeWhile (fun c => c != '-')

/-- A decimal digit. -/
def isDecimalDigit (c : Char) : Bool := decide (48 ≤ c.toNat) && decide (c.toNat ≤ 57)

/-- The value of a string of decimal digits. -/
def decimalValue (s : List Char) : Nat :=
  s.foldl (fun acc c => acc * 10 + (c.toNat - 48)) 0

/-- The Go library call `strconv.ParseUint(s, 10, 64)`; `none` when it returns
an error (empty input, a character that is not a decimal digit, or a value
that does not fit 64 bits). -/
def ParseUint (s : List Char) : Option Nat :=
  if s = [] then none
  else if s.all isDecimalDigit then
    (if decimalValue s < twoPow64 then some (decimalValue s) else none)
  else none

/-- The loop of lines 181-188, which fills `syncDutiesEpoch`; `none` when the
fuel runs out. -/
def syncDutiesEpochLoop (fuel : Nat) (slot hi : Nat) (syncAssignments : List Nat)
    (syncDutiesEpoch : GoMap Nat (GoMap Nat Bool)) : Option (GoMap Nat (GoMap Nat Bool)) :=
  match fuel with
  | 0 => none
  | fuel + 1 =>
    if slot ≤ hi then
      let m1 := if (GoMap.get syncDutiesEpoch slot).isNone then GoMap.set syncDutiesEpoch slot [] else syncDutiesEpoch
      let m2 := syncAssignments.foldl
        (fun m validatorIndex => GoMap.set m slot (GoMap.set ((GoMap.get m slot).getD []) validatorIndex false)) m1
      syncDutiesEpochLoop fuel (addU64 slot 1) hi syncAssignments m2
    else some syncDutiesEpoch

/-- The loop of lines 190-203, which fills `attDutiesEpoch`; an error when a key
does not parse. -/
def attDutiesEpochLoop (attestorAssignments : GoMap String Nat)
    (attDutiesEpoch : GoMap Nat (GoMap Nat (List Nat))) :
    Except String (GoMap Nat (GoMap Nat (List Nat))) :=
  match attestorAssignments with
  | [] => .ok attDutiesEpoch
  | (key, validatorIndex) :: rest =>
    match ParseUint (firstField key) with
    | none => .error "error parsing attested slot from attestation key"
    | some attestedSlot =>
      let m1 := if (GoMap.get attDutiesEpoch attestedSlot).isNone then GoMap.set attDutiesEpoch attestedSlot []
        else attDutiesEpoch
      attDutiesEpochLoop rest
        (GoMap.set m1 attestedSlot (GoMap.set ((GoMap.get m1 attestedSlot).getD []) validatorIndex []))

/-- The result of `g.Wait()`: the first error among the tasks. -/
def firstError (results : List (Except String Unit)) : Option String :=
  match results with
  | [] => none
  | .error e :: _ => some e
  | .ok _ :: rest => firstError rest

/-- The task of lines 240-252: `db.SaveValidators`, then `db.UpdateQueueDeposits`. -/
def saveValidatorsTask {σ : Type} (d : Deps σ) (epoch : Nat) (validators : List Nat) :
    Exec σ (Except String Unit) := do
  match ← call (.SaveValidators epoch validators) (d.SaveValidators epoch validators) with
  | .error e => pure (.error ("error saving validators for epoch: " ++ e))
  | .ok _ =>
    match ← call .UpdateQueueDeposits d.UpdateQueueDeposits with
    | .error e => pure (.error ("error updating queue deposits cache: " ++ e))
    | .ok _ => pure (.ok ())

/-- Lines 266-279 and 135-146: fetch the participation of `epoch - 1` and store
it; a failed fetch is logged only, a failed store is returned. -/
def updateEpochParticipation {σ : Type} (d : Deps σ) (epoch : Nat) : Exec σ Unit := do
  match ← call (.GetValidatorParticipation (subU64 epoch 1)) (d.GetValidatorParticipation (subU64 epoch 1)) with
  | .error _ => pure ()
  | .ok epochParticipationStats =>
    match ← call (.UpdateEpochStatus epochParticipationStats) (d.UpdateEpochStatus epochParticipationStats) with
    | .error e => fail e
    | .ok _ => pure ()

/-- Lines 174-281 of `ExportSlot`: the export of the epoch assignments.  The
code runs the tasks of the `errgroup` concurrently and `g.Wait()` returns the
error that happened first.  Here the tasks are run one after the other, in the
order in which they are started; all of them run, and the error of the first
started task that failed stands for the error of `g.Wait()`.  The statements
below use neither the order of the calls of these tasks nor which of their
errors is returned. -/
def exportEpochAssignments {σ : Type} (d : Deps σ) (fuel : Nat) (slot : Nat) (isHeadEpoch : Bool)
    (block : Block) (assignments : EpochAssignments) : Exec σ Unit := do
  checkDivisor d.SlotsPerEpoch
  let epoch := slot / d.SlotsPerEpoch
  match syncDutiesEpochLoop fuel (mulU64 epoch d.SlotsPerEpoch)
      (subU64 (mulU64 (addU64 epoch 1) d.SlotsPerEpoch) 1) assignments.SyncAssignments [] with
  | none => raise .outOfFuel
  | some syncDutiesEpoch =>
    match attDutiesEpochLoop assignments.AttestorAssignments [] with
    | .error e => fail e
    | .ok attDutiesEpoch =>
      let r1 ← call (.SaveAttestationDuties attDutiesEpoch) (d.SaveAttestationDuties attDutiesEpoch)
      let r2 ← call (.SaveSyncComitteeDuties syncDutiesEpoch) (d.SaveSyncComitteeDuties syncDutiesEpoch)
      let r3 ← call (.SaveProposalAssignments epoch assignments.ProposerAssignments)
        (d.SaveProposalAssignments epoch assignments.ProposerAssignments)
      let r4 ← call (.SaveValidatorBalances epoch block.Validators) (d.SaveValidatorBalances epoch block.Validators)
      let r5 ← (if isHeadEpoch then saveValidatorsTask d epoch block.Validators else pure (.ok ()))
      match firstError [r1, r2, r3, r4, r5] with
      | some e => fail e
      | none =>
        match ← call (.SaveEpoch epoch block.Validators) (d.SaveEpoch epoch block.Validators) with
        | .error e => fail ("error saving epoch data: " ++ e)
        | .ok _ =>
          if epoch > 0 then updateEpochParticipation d epoch else pure ()

/-- Lines 284-289: the sync duties of the slot. -/
def slotSyncDuties (block : Block) : GoMap Nat (GoMap Nat Bool) :=
  block.SyncDuties.foldl
    (fun m entry => GoMap.set m block.Slot (GoMap.set ((GoMap.get m block.Slot).getD []) entry.1 entry.2))
    [(block.Slot, [])]

/-- Lines 294-302: the inner loop over the attested slots of one validator. -/
def slotAttDutiesOf (blockSlot : Nat) (validator : Nat) (attestedSlots : List Nat)
    (attDuties : GoMap Nat (GoMap Nat (List Nat))) : GoMap Nat (GoMap Nat (List Nat)) :=
  attestedSlots.foldl
    (fun m attestedSlot =>
      let m1 := if (GoMap.get m attestedSlot).isNone then GoMap.set m attestedSlot [] else m
      let inner := (GoMap.get m1 attestedSlot).getD []
      let inner1 := if (GoMap.get inner validator).isNone then GoMap.set inner validator [] else inner
      GoMap.set m1 attestedSlot
        (GoMap.set inner1 validator (((GoMap.get inner1 validator).getD []) ++ [blockSlot])))
    attDuties

/-- Lines 291-303: the attestation duties of the slot. -/
def slotAttDuties (block : Block) : GoMap Nat (GoMap Nat (List Nat)) :=
  block.AttestationDuties.foldl
    (fun m entry => slotAttDutiesOf block.Slot entry.1 entry.2 m) []

/-- Lines 283-335 of `ExportSlot`: the export of the slot itself. -/
def exportSlotData {σ : Type} (d : Deps σ) (block : Block) : Exec σ Unit := do
  let syncDuties := slotSyncDuties block
  let attDuties := slotAttDuties block
  match ← call (.SaveAttestationDuties attDuties) (d.SaveAttestationDuties attDuties) with
  | .error e => fail ("error exporting attestations to bigtable for slot: " ++ e)
  | .ok _ =>
    match ← call (.SaveSyncComitteeDuties syncDuties) (d.SaveSyncComitteeDuties syncDuties) with
    | .error e => fail ("error exporting sync committee duties to bigtable for slot: " ++ e)
    | .ok _ =>
      match ← call (.SaveProposal block) (d.SaveProposal block) with
      | .error e => fail ("error exporting proposal to bigtable for slot: " ++ e)
      | .ok _ =>
        let _ ← call (.SaveBlock block) (d.SaveBlock block)
        pure ()

/-- The function `ExportSlot(client, slot, isHeadEpoch)`. -/
def ExportSlot {σ : Type} (d : Deps σ) (fuel : Nat) (slot : Nat) (isHeadEpoch : Bool) : Exec σ Unit := do
  enter (.ExportSlot slot isHeadEpoch)
  match ← call (.GetBlockBySlot slot) (d.GetBlockBySlot slot) with
  | .error e => fail ("error retrieving data for slot: " ++ e)
  | .ok block =>
    (match block.EpochAssignments with
      | some assignments => exportEpochAssignments d fuel slot isHeadEpoch block assignments
      | none => pure ())
    exportSlotData d block

/-! ## `RunSlotExporter` -/

/-- Lines 28-43: the loop over the adjacent pairs of `dbSlots`. -/
def exportGaps {σ : Type} (d : Deps σ) (fuel : Nat) (dbSlots : List DbSlot) : Exec σ Unit :=
  match dbSlots with
  | [] => pure ()
  | previousSlot :: rest =>
    match rest with
    | [] => pure ()
    | currentSlot :: _ => do
      (if previousSlot.Slot ≠ subU64 currentSlot.Slot 1 then
        forSlots fuel (addU64 previousSlot.Slot 1) (subU64 currentSlot.Slot 1) (fun slot =>
          wrapError "error exporting slot: " (ExportSlot d fuel slot false))
      else pure ())
      exportGaps d fuel rest

/-- Lines 21-44: the gap back-fill of the first run. -/
def backfillGaps {σ : Type} (d : Deps σ) (fuel : Nat) (firstRun : Bool) : Exec σ Unit := do
  if firstRun then
    match ← call .GetAllSlots d.GetAllSlots with
    | .error e => fail ("error retrieving all db slots: " ++ e)
    | .ok dbSlots => exportGaps d fuel dbSlots
  else pure ()

/-- Lines 55-79: the export of the slots between the last slot of the
database and the head of the chain. -/
def catchUpHead {σ : Type} (d : Deps σ) (fuel : Nat) (head : ChainHead) : Exec σ Unit := do
  let lastDbSlot ← (do
    match ← call .GetLastSlot d.GetLastSlot with
    | .found slot => pure slot
    | .noRows =>
      wrapError "error exporting slot: " (ExportSlot d fuel 0 (d.EpochOfSlot 0 == head.HeadEpoch))
      pure 0
    | .failed e => fail ("error retrieving last slot from the db: " ++ e))
  if lastDbSlot ≠ head.HeadSlot then
    forSlots fuel (addU64 lastDbSlot 1) head.HeadSlot (fun slot =>
      wrapError "error exporting slot: " (ExportSlot d fuel slot (d.EpochOfSlot slot == head.HeadEpoch)))
  else pure ()

/-- The condition `header != nil && bytes.Equal(dbSlot.BlockRoot, utils.MustParseHex(header.Data.Root))`;
the right operand is evaluated only when the header is present. -/
def headerRootEquals {σ : Type} (d : Deps σ) (header : Option Header) (blockRoot : Bytes) : Exec σ Bool :=
  match header with
  | none => pure false
  | some h =>
    match d.MustParseHex h.Root with
    | none => raise .abort
    | some root => pure (decide (blockRoot = root))

/-- Lines 97-131: the cases of a slot whose finalisation differs between the
node and the database. -/
def markFinalized {σ : Type} (d : Deps σ) (fuel : Nat) (head : ChainHead) (dbSlot : DbSlot)
    (header : Option Header) (nodeSlotFinalized : Bool) : Exec σ Unit := do
  if ← headerRootEquals d header dbSlot.BlockRoot then
    match ← call (.SetSlotFinalizationAndStatus dbSlot.Slot nodeSlotFinalized dbSlot.Status)
        (d.SetSlotFinalizationAndStatus dbSlot.Slot nodeSlotFinalized dbSlot.Status) with
    | .error e => fail ("error setting slot as finalized (proposed): " ++ e)
    | .ok _ => pure ()
  else if header.isNone && decide (dbSlot.BlockRoot.length < 32) then
    match ← call (.SetSlotFinalizationAndStatus dbSlot.Slot nodeSlotFinalized "2")
        (d.SetSlotFinalizationAndStatus dbSlot.Slot nodeSlotFinalized "2") with
    | .error e => fail ("error setting slot as finalized (missed): " ++ e)
    | .ok _ => pure ()
  else if header.isNone && decide (dbSlot.BlockRoot.length = 32) then
    match ← call (.SetSlotFinalizationAndStatus dbSlot.Slot nodeSlotFinalized "3")
        (d.SetSlotFinalizationAndStatus dbSlot.Slot nodeSlotFinalized "3") with
    | .error e => fail ("error setting block as finalized (orphaned): " ++ e)
    | .ok _ => pure ()
  else if header.isSome && !(← headerRootEquals d header dbSlot.BlockRoot) then
    match ← call (.SetSlotFinalizationAndStatus dbSlot.Slot nodeSlotFinalized "3")
        (d.SetSlotFinalizationAndStatus dbSlot.Slot nodeSlotFinalized "3") with
    | .error e => fail ("error setting block as finalized (orphaned): " ++ e)
    | .ok _ =>
      wrapError "error exporting slot: "
        (ExportSlot d fuel dbSlot.Slot (d.EpochOfSlot dbSlot.Slot == head.HeadEpoch))
  else pure ()

/-- Lines 133-147: after a finalisation transition of the first slot of an
epoch, update the participation of the previous epoch. -/
def updateEpochOnTransition {σ : Type} (d : Deps σ) (dbSlot : DbSlot) : Exec σ Unit := do
  checkDivisor d.SlotsPerEpoch
  if dbSlot.Slot % d.SlotsPerEpoch = 0 ∧ dbSlot.Slot > subU64 d.SlotsPerEpoch 1 then
    updateEpochParticipation d (d.EpochOfSlot dbSlot.Slot)
  else pure ()

/-- Lines 89-155: the body of the loop over the non-finalised slots. -/
def reconcileSlot {σ : Type} (d : Deps σ) (fuel : Nat) (head : ChainHead) (dbSlot : DbSlot) : Exec σ Unit := do
  match ← call (.GetBlockHeader dbSlot.Slot) (d.GetBlockHeader dbSlot.Slot) with
  | .error e => fail ("error retrieving block root for slot: " ++ e)
  | .ok header =>
    let nodeSlotFinalized := decide (dbSlot.Slot ≤ head.FinalizedSlot)
    if nodeSlotFinalized != dbSlot.Finalized then
      markFinalized d fuel head dbSlot header nodeSlotFinalized
      updateEpochOnTransition d dbSlot
    else
      if dbSlot.BlockRoot.length < 32 ∧ header.isSome then
        wrapError "error exporting slot: "
          (ExportSlot d fuel dbSlot.Slot (d.EpochOfSlot dbSlot.Slot == head.HeadEpoch))
      else pure ()

/-- Lines 84-156: the reconciliation of the non-finalised slots. -/
def reconcileNonFinalized {σ : Type} (d : Deps σ) (fuel : Nat) (head : ChainHead) : Exec σ Unit := do
  match ← call .GetAllNonFinalizedSlots d.GetAllNonFinalizedSlots with
  | .error e => fail ("error retrieving all non finalized slots from the db: " ++ e)
  | .ok dbNonFinalSlots => forRange dbNonFinalSlots (reconcileSlot d fuel head)

/-- The function `RunSlotExporter(client, firstRun)`. -/
def RunSlotExporter {σ : Type} (d : Deps σ) (fuel : Nat) (firstRun : Bool) : Exec σ Unit := do
  backfillGaps d fuel firstRun
  match ← call .GetChainHead d.GetChainHead with
  | .error e => fail ("error retrieving chain head: " ++ e)
  | .ok head =>
    catchUpHead d fuel head
    reconcileNonFinalized d fuel head

/-! ## Scripted collaborators -/

/-- A node and a store that answer from a fixed script; every write succeeds,
except the status update when `statusUpdateFails` is set. -/
structure Script where
  slotsPerEpoch : Nat
  hex : String → Option Bytes
  allSlots : List DbSlot
  lastSlot : LastSlot
  nonFinalized : List DbSlot
  head : ChainHead
  header : Nat → Option Header
  block : Nat → Block
  statusUpdateFails : Bool

/-- The collaborators that follow a script. -/
def Script.deps (sc : Script) : Deps Unit where
  SlotsPerEpoch := sc.slotsPerEpoch
  EpochOfSlot := fun slot => slot / sc.slotsPerEpoch
  MustParseHex := sc.hex
  GetAllSlots := fun s => (.ok sc.allSlots, s)
  GetLastSlot := fun s => (sc.lastSlot, s)
  GetAllNonFinalizedSlots := fun s => (.ok sc.nonFinalized, s)
  SetSlotFinalizationAndStatus := fun _ _ _ s =>
    (if sc.statusUpdateFails then .error "status update failed" else .ok (), s)
  UpdateEpochStatus := fun _ s => (.ok (), s)
  SaveValidators := fun _ _ s => (.ok (), s)
  UpdateQueueDeposits := fun s => (.ok (), s)
  SaveEpoch := fun _ _ s => (.ok (), s)
  SaveBlock := fun _ s => (.ok (), s)
  GetChainHead := fun s => (.ok sc.head, s)
  GetBlockHeader := fun slot s => (.ok (sc.header slot), s)
  GetBlockBySlot := fun slot s => (.ok (sc.block slot), s)
  GetValidatorParticipation := fun epoch s => (.ok ⟨epoch, 0⟩, s)
  SaveAttestationDuties := fun _ s => (.ok (), s)
  SaveSyncComitteeDuties := fun _ s => (.ok (), s)
  SaveProposalAssignments := fun _ _ s => (.ok (), s)
  SaveValidatorBalances := fun _ _ s => (.ok (), s)
  SaveProposal := fun _ s => (.ok (), s)

/-- A block without epoch assignments and without duties. -/
def plainBlock (slot : Nat) (root : Bytes) : Block :=
  ⟨slot, root, none, [], [], []⟩

/-- The 32-byte root `R1` of the scenarios. -/
def rootR1 : Bytes := List.replicate 32 1

/-- The 32-byte root `R2` of the scenarios. -/
def rootR2 : Bytes := List.replicate 32 2

/-- The hex strings of the scenarios: `"R1"` and `"R2"` stand for the hex
encodings of the two roots, every other string is malformed. -/
def scenarioHex (str : String) : Option Bytes :=
  if str = "R1" then some rootR1 else if str = "R2" then some rootR2 else none

/-- The head of scenarios S3 to S5: slot 64 of epoch 2, finalised up to slot 20. -/
def headS3 : ChainHead := ⟨64, 2, 20⟩

/-- Scenario S3: the node has no header at the slot and the row has a sentinel root. -/
def scriptS3 : Script :=
  ⟨32, scenarioHex, [], .found 64, [⟨10, [0], "1", false⟩], headS3, fun _ => none,
    fun slot => plainBlock slot rootR2, false⟩

/-- Scenario S4: the node has no header at the slot and the row has the root `R1`. -/
def scriptS4 : Script :=
  ⟨32, scenarioHex, [], .found 64, [⟨10, rootR1, "1", false⟩], headS3, fun _ => none,
    fun slot => plainBlock slot rootR2, false⟩

/-- Scenario S5: the node has a header with root `R2` at the slot and the row has the root `R1`. -/
def scriptS5 : Script :=
  ⟨32, scenarioHex, [], .found 64, [⟨10, rootR1, "1", false⟩], headS3, fun _ => some ⟨"R2"⟩,
    fun slot => plainBlock slot rootR2, false⟩

/-- A finalised slot whose row has a root of 33 bytes, with no header at the node. -/
def scriptLongRoot : Script :=
  ⟨32, scenarioHex, [], .found 64, [⟨10, List.replicate 33 1, "1", false⟩], headS3, fun _ => none,
    fun slot => plainBlock slot rootR2, false⟩

/-- A finalised slot whose row has a sentinel root, with a header of root `R2` at the node. -/
def scriptLateBlock : Script :=
  ⟨32, scenarioHex, [], .found 64, [⟨10, [0], "2", false⟩], headS3, fun _ => some ⟨"R2"⟩,
    fun slot => plainBlock slot rootR2, false⟩

/-- A finalised slot whose row has status `"3"` and a sentinel root, with no header at the node. -/
def scriptOrphanSentinel : Script :=
  ⟨32, scenarioHex, [], .found 64, [⟨10, [0], "3", false⟩], headS3, fun _ => none,
    fun slot => plainBlock slot rootR2, false⟩

/-- The head of scenario S6: slot 64 of epoch 2, finalised up to slot 30. -/
def headS6 : ChainHead := ⟨64, 2, 30⟩

/-- Scenario S6: a non-final row with a sentinel root and a header at the node. -/
def scriptS6 : Script :=
  ⟨32, scenarioHex, [], .found 64, [⟨40, [0], "2", false⟩], headS6, fun _ => some ⟨"R2"⟩,
    fun slot => plainBlock slot rootR2, false⟩

/-- A row of the scenarios with the root `R1`, status `"1"`, not finalised. -/
def rowAt (slot : Nat) : DbSlot := ⟨slot, rootR1, "1", false⟩

/-- Scenario S2: the database has the slots 0, 1, 2, 4, 5 and the head is at slot 5. -/
def scriptS2 : Script :=
  ⟨32, scenarioHex, [rowAt 0, rowAt 1, rowAt 2, rowAt 4, rowAt 5], .found 5, [], ⟨5, 0, 0⟩,
    fun _ => some ⟨"R1"⟩, fun slot => plainBlock slot rootR1, false⟩

/-- The last slot of the database is `2 ^ 64 - 1` and the head of the chain is at slot 0. -/
def scriptWrap : Script :=
  ⟨32, scenarioHex, [], .found 18446744073709551615, [], ⟨0, 0, 0⟩, fun _ => none,
    fun slot => plainBlock slot rootR1, false⟩

/-- The last slot of the database is 2 and the head of the chain is at slot 5. -/
def scriptCatchUp : Script :=
  ⟨32, scenarioHex, [], .found 2, [], ⟨5, 0, 0⟩, fun _ => none,
    fun slot => plainBlock slot rootR1, false⟩

/-- The database has no row and the head of the chain is at slot 2. -/
def scriptEmptyTable : Script :=
  ⟨32, scenarioHex, [], .noRows, [], ⟨2, 0, 0⟩, fun _ => none, fun slot => plainBlock slot rootR1, false⟩

/-- A block with epoch assignments whose attestor-assignment keys are `keys`. -/
def assignmentBlock (slot : Nat) (keys : List String) : Block :=
  ⟨slot, rootR1, some ⟨[], keys.map (fun key => (key, 7)), [1, 2]⟩, [], [], []⟩

/-- Every slot has a block with the attestor-assignment keys `"0-1"` and `"abc-2"`. -/
def scriptBadKey : Script :=
  ⟨32, scenarioHex, [], .found 0, [], ⟨0, 0, 0⟩, fun _ => none,
    fun slot => assignmentBlock slot ["0-1", "abc-2"], false⟩

/-! ## A store with a blocks table -/

/-- Modelled from the spec: the state of the relational store C2, of which the
file only has the calls.  `blocks` is the blocks table, one row per slot in
ascending order of the slots; `clock` counts the operations made so far. -/
structure Store where
  blocks : List DbSlot
  clock : Nat

/-- The answers of the node and the failures of the operations, as functions of
the number of operations made before. -/
structure Outcomes where
  slotsPerEpoch : Nat
  epochOfSlot : Nat → Nat
  hex : String → Option Bytes
  /-- The status of a row on insert. -/
  defaultStatus : String
  head : Nat → Except String ChainHead
  header : Nat → Nat → Except String (Option Header)
  block : Nat → Nat → Except String Block
  participation : Nat → Nat → Except String Participation
  /-- The failure of a read of C2. -/
  readError : Nat → Option String
  /-- The failure of a write to C2 or C3 other than `SaveBlock`. -/
  writeError : Nat → Option String
  /-- The failure of `SaveBlock`. -/
  saveBlockError : Nat → Option String

/-- The slots that have a row. -/
def Store.slots (st : Store) : List Nat := st.blocks.map (fun row => row.Slot)

/-- One more operation was made. -/
def Store.next (st : Store) : Store := ⟨st.blocks, st.clock + 1⟩

/-- Modelled from the spec: the upsert of `SaveBlock` (§4.2), which inserts the
row of a slot, replaces a non-final row of the slot and preserves a final one. -/
def upsertRow (row : DbSlot) (rows : List DbSlot) : List DbSlot :=
  match rows with
  | [] => [row]
  | first :: rest =>
    if row.Slot < first.Slot then row :: first :: rest
    else if row.Slot = first.Slot then (if first.Finalized then first :: rest else row :: rest)
    else first :: upsertRow row rest

/-- Modelled from the spec: the update of `SetSlotFinalizationAndStatus` (§4.2). -/
def setRowStatus (slot : Nat) (finalized : Bool) (status : String) (rows : List DbSlot) : List DbSlot :=
  rows.map (fun row => if row.Slot = slot then ⟨row.Slot, row.BlockRoot, status, finalized⟩ else row)

/-- The query `SELECT slot FROM blocks ORDER BY slot DESC limit 1` of line 56, on
a table in ascending order. -/
def lastSlotOf (rows : List DbSlot) : LastSlot :=
  match rows with
  | [] => .noRows
  | first :: rest =>
    match rest with
    | [] => .found first.Slot
    | _ :: _ => lastSlotOf rest

/-- A read of C2. -/
def Store.read {α : Type} (o : Outcomes) (value : List DbSlot → α) (st : Store) : Except String α × Store :=
  (match o.readError st.clock with
    | some e => .error e
    | none => .ok (value st.blocks), st.next)

/-- A write that leaves the blocks table as it is. -/
def Store.write (o : Outcomes) (st : Store) : Except String Unit × Store :=
  (match o.writeError st.clock with
    | some e => .error e
    | none => .ok (), st.next)

/-- Modelled from the spec: the collaborators over a store with a blocks table
(§4.1 to §4.3).  The reads of C2 return the rows of the table, `SaveBlock` and
`SetSlotFinalizationAndStatus` change it, the other writes leave it as it is;
the node answers and an operation fails as `o` says. -/
def storeDeps (o : Outcomes) : Deps Store where
  SlotsPerEpoch := o.slotsPerEpoch
  EpochOfSlot := o.epochOfSlot
  MustParseHex := o.hex
  GetAllSlots := Store.read o (fun rows => rows)
  GetLastSlot := fun st =>
    (match o.readError st.clock with
      | some e => .failed e
      | none => lastSlotOf st.blocks, st.next)
  GetAllNonFinalizedSlots := Store.read o (fun rows => rows.filter (fun row => !row.Finalized))
  SetSlotFinalizationAndStatus := fun slot finalized status st =>
    match o.writeError st.clock with
    | some e => (.error e, st.next)
    | none => (.ok (), ⟨setRowStatus slot finalized status st.blocks, st.clock + 1⟩)
  UpdateEpochStatus := fun _ => Store.write o
  SaveValidators := fun _ _ => Store.write o
  UpdateQueueDeposits := Store.write o
  SaveEpoch := fun _ _ => Store.write o
  SaveBlock := fun block st =>
    match o.saveBlockError st.clock with
    | some e => (.error e, st.next)
    | none => (.ok (), ⟨upsertRow ⟨block.Slot, block.BlockRoot, o.defaultStatus, false⟩ st.blocks, st.clock + 1⟩)
  GetChainHead := fun st => (o.head st.clock, st.next)
  GetBlockHeader := fun slot st => (o.header st.clock slot, st.next)
  GetBlockBySlot := fun slot st => (o.block st.clock slot, st.next)
  GetValidatorParticipation := fun epoch st => (o.participation st.clock epoch, st.next)
  SaveAttestationDuties := fun _ => Store.write o
  SaveSyncComitteeDuties := fun _ => Store.write o
  SaveProposalAssignments := fun _ _ => Store.write o
  SaveValidatorBalances := fun _ _ => Store.write o
  SaveProposal := fun _ => Store.write o

/-- The node of the scenarios: the head is `head`, every slot has a block with
root `R1` and a header with that root, and no operation fails. -/
def calmOutcomes (head : ChainHead) : Outcomes where
  slotsPerEpoch := 32
  epochOfSlot := fun slot => slot / 32
  hex := scenarioHex
  defaultStatus := "0"
  head := fun _ => .ok head
  header := fun _ _ => .ok (some ⟨"R1"⟩)
  block := fun _ slot => .ok (plainBlock slot rootR1)
  participation := fun _ epoch => .ok ⟨epoch, 0⟩
  readError := fun _ => none
  writeError := fun _ => none
  saveBlockError := fun _ => none

/-- The table of scenario S2: rows for the slots 0, 1, 2, 4, 5. -/
def tableS2 : Store := ⟨[rowAt 0, rowAt 1, rowAt 2, rowAt 4, rowAt 5], 0⟩

/-! ## Reading the calls of a run -/

/-- The `db.SetSlotFinalizationAndStatus` calls among `calls`, in order. -/
def statusUpdates (calls : List Call) : List Call :=
  calls.filter (fun c => match c with
    | .SetSlotFinalizationAndStatus _ _ _ => true
    | _ => false)

/-- The arguments of the `ExportSlot` calls among `calls`, in order. -/
def exportCalls (calls : List Call) : List (Nat × Bool) :=
  calls.filterMap (fun c => match c with
    | .ExportSlot slot isHeadEpoch => some (slot, isHeadEpoch)
    | _ => none)

/-- The slots that the loops of lines 29-43 visit: for every adjacent pair of
the list, the slots strictly between its two entries. -/
def gapSlots (slots : List Nat) : List Nat :=
  match slots with
  | [] => []
  | previous :: rest =>
    match rest with
    | [] => []
    | current :: _ => List.range' (previous + 1) (current - (previous + 1)) ++ gapSlots rest

/-- The last entry of `first :: rest`. -/
def lastOf (rest : List Nat) (first : Nat) : Nat :=
  match rest with
  | [] => first
  | next :: more => lastOf more next

/-- The ascending list of the slots strictly between the first and the last
entry of `slots` that are absent from `slots`. -/
def missingSlots (slots : List Nat) : List Nat :=
  match slots with
  | [] => []
  | first :: rest =>
    (List.range (lastOf rest first)).filter
      (fun slot => decide (first < slot) && !((first :: rest).contains slot))

/-- The run returned `nil`. -/
def Run.returnsNil {σ : Type} (r : Run σ Unit) : Bool :=
  match r.result with
  | .ok _ => true
  | .error _ => false

/-- The run returned a Go `error`. -/
def Run.returnsError {σ α : Type} (r : Run σ α) : Bool :=
  match r.result with
  | .error (.error _) => true
  | _ => false

/-- The last slot of a list of slots, 0 for the empty list. -/
def lastSlotOrZero (slots : List Nat) : Nat :=
  match slots with
  | [] => 0
  | first :: rest => lastOf rest first

/-- The table has one row per slot, in ascending order. -/
def Store.WellFormed (st : Store) : Prop := st.slots.Pairwise (fun a b => a < b)

/-- When `m` returns a value from a well-formed table, the table stays
well-formed, keeps its slots, has gained every slot of `sure` and has gained
no slot outside `may`. -/
def Grows {α : Type} (m : Exec Store α) (sure may : List Nat) : Prop :=
  ∀ st, st.WellFormed → ∀ a, (m st).result = .ok a →
    (m st).state.WellFormed ∧
    (∀ x, x ∈ st.slots ∨ x ∈ sure → x ∈ (m st).state.slots) ∧
    (∀ x, x ∈ (m st).state.slots → x ∈ st.slots ∨ x ∈ may)

/-- The Go result `(value, err)` has `err == nil`. -/
def succeeded {α : Type} (r : Except String α) : Bool :=
  match r with
  | .ok _ => true
  | .error _ => false

/-- The node of the scenarios with a blocks table that rejects every `SaveBlock`. -/
def saveBlockDown : Outcomes :=
  { calmOutcomes ⟨5, 0, 0⟩ with saveBlockError := fun _ => some "blocks table unavailable" }

/-- The entry `m[attestedSlot][validator]` of a map of attestation duties, `none` when it is absent. -/
def dutyEntry (m : GoMap Nat (GoMap Nat (List Nat))) (attestedSlot validator : Nat) : Option (List Nat) :=
  match GoMap.get m attestedSlot with
  | none => none
  | some inner => GoMap.get inner validator

/-- The slice `block.AttestationDuties[validator]`, empty when the validator has no entry. -/
def attestedSlotsOf (block : Block) (validator : Nat) : List Nat :=
  (GoMap.get block.AttestationDuties validator).getD []

/-- A block of slot 7 in which validator 1 attested the slots 5, 6, 5 and validator 2 the slot 6. -/
def dutyBlock : Block := ⟨7, rootR1, none, [], [], [(1, [5, 6, 5]), (2, [6])]⟩

/-! ## The exports of a phase -/

/-- The state after the exports of `slots`, one after the other from the state
`s`, the slot `x` with the flag `flag x`. -/
def stateAfterExports {σ : Type} (d : Deps σ) (fuel : Nat) (flag : Nat → Bool) (slots : List Nat)
    (s : σ) : σ :=
  match slots with
  | [] => s
  | slot :: rest => stateAfterExports d fuel flag rest (ExportSlot d fuel slot (flag slot) s).state

/-- Every export succeeds: `ExportSlot` returns `nil` on each slot of `slots`
in turn, the first from the state `s` and each later one from the state that
the export before it left. -/
def exportsSucceed {σ : Type} (d : Deps σ) (fuel : Nat) (flag : Nat → Bool) (slots : List Nat)
    (s : σ) : Bool :=
  match slots with
  | [] => true
  | slot :: rest =>
    (ExportSlot d fuel slot (flag slot) s).returnsNil &&
      exportsSucceed d fuel flag rest (ExportSlot d fuel slot (flag slot) s).state

/-! ## The rows of the reconciliation loop -/

/-- The state in which the tick reads the non-finalised rows (line 84): the
state that the head catch-up left. -/
def stateAtReconcile {σ : Type} (d : Deps σ) (fuel : Nat) (firstRun : Bool) (head : ChainHead) (s : σ) : σ :=
  (catchUpHead d fuel head (d.GetChainHead (backfillGaps d fuel firstRun s).state).2).state

/-- The state in which the loop of line 88 starts on a row, after it went
through the rows `earlier`. -/
def stateAtRow {σ : Type} (d : Deps σ) (fuel : Nat) (firstRun : Bool) (head : ChainHead)
    (earlier : List DbSlot) (s : σ) : σ :=
  (forRange earlier (reconcileSlot d fuel head)
    (d.GetAllNonFinalizedSlots (stateAtReconcile d fuel firstRun head s)).2).state

/-- The calls of the tick before the loop of line 88 starts on a row: the gap
back-fill, the fetch of the chain head, the head catch-up, the read of the
non-finalised rows and the loop over the rows `earlier`. -/
def callsBeforeRow {σ : Type} (d : Deps σ) (fuel : Nat) (firstRun : Bool) (head : ChainHead)
    (earlier : List DbSlot) (s : σ) : List Call :=
  (backfillGaps d fuel firstRun s).calls ++ .GetChainHead ::
    ((catchUpHead d fuel head (d.GetChainHead (backfillGaps d fuel firstRun s).state).2).calls ++
      .GetAllNonFinalizedSlots ::
        (forRange earlier (reconcileSlot d fuel head)
          (d.GetAllNonFinalizedSlots (stateAtReconcile d fuel firstRun head s)).2).calls)

/-- The calls of the tick after the loop body ran on `row` from the state
`s`: the loop over the rows `later` when the body returned `nil`, nothing when
it returned an error. -/
def callsAfterRow {σ : Type} (d : Deps σ) (fuel : Nat) (head : ChainHead) (row : DbSlot)
    (later : List DbSlot) (s : σ) : List Call :=
  match (reconcileSlot d fuel head row s).result with
  | .ok _ => (forRange later (reconcileSlot d fuel head) (reconcileSlot d fuel head row s).state).calls
  | .error _ => []

/-- The tick from the state `s` reaches `row` in the loop of line 88: the gap
back-fill returned `nil`, the node returned the chain head `head`, the head
catch-up returned `nil`, `GetAllNonFinalizedSlots` returned the rows
`earlier ++ row :: later`, and the loop body returned `nil` on every row of
`earlier`. -/
structure ReachesRow {σ : Type} (d : Deps σ) (fuel : Nat) (firstRun : Bool) (head : ChainHead)
    (earlier : List DbSlot) (row : DbSlot) (later : List DbSlot) (s : σ) : Prop where
  backfill : (backfillGaps d fuel firstRun s).result = .ok ()
  chainHead : (d.GetChainHead (backfillGaps d fuel firstRun s).state).1 = .ok head
  catchUp :
    (catchUpHead d fuel head (d.GetChainHead (backfillGaps d fuel firstRun s).state).2).result = .ok ()
  rows :
    (d.GetAllNonFinalizedSlots (stateAtReconcile d fuel firstRun head s)).1 = .ok (earlier ++ row :: later)
  earlierRows :
    (forRange earlier (reconcileSlot d fuel head)
      (d.GetAllNonFinalizedSlots (stateAtReconcile d fuel firstRun head s)).2).result = .ok ()

/-- The collaborators of a script, with a node that fails to return the header
of the slot `bad`. -/
def Script.depsHeaderFails (sc : Script) (bad : Nat) : Deps Unit :=
  { sc.deps with
    GetBlockHeader := fun slot s =>
      (if slot = bad then .error "header unavailable" else .ok (sc.header slot), s) }

/-- Two non-final rows below the finalised slot 20: slot 5 with a sentinel
root and slot 10 with the root `R1`; the node has no header at either slot. -/
def scriptTwoRows : Script :=
  ⟨32, scenarioHex, [], .found 64, [⟨5, [0], "1", false⟩, ⟨10, rootR1, "1", false⟩], headS3,
    fun _ => none, fun slot => plainBlock slot rootR2, false⟩

/-- Two non-final rows below the finalised slot 20: slot 5 with a sentinel
root and no header at the node, slot 10 with the root `R1` and a header with
root `R2` at the node. -/
def scriptTwoRowsReorg : Script :=
  ⟨32, scenarioHex, [], .found 64, [⟨5, [0], "1", false⟩, ⟨10, rootR1, "1", false⟩], headS3,
    fun slot => if slot = 10 then some ⟨"R2"⟩ else none, fun slot => plainBlock slot rootR2, false⟩

/-- Two non-final rows below the finalised slot 20, slot 10 and slot 12, both
with the root `R1` and a header with root `R2` at the node, over a store that
rejects the status updates. -/
def scriptReorgUpdateFails : Script :=
  ⟨32, scenarioHex, [], .found 64, [⟨10, rootR1, "1", false⟩, ⟨12, rootR1, "1", false⟩], headS3,
    fun _ => some ⟨"R2"⟩, fun slot => plainBlock slot rootR2, true⟩

/-- Two non-final rows above the finalised slot 30: slot 35 with the root `R1`
and no header at the node, slot 40 with a sentinel root and a header at the node. -/
def scriptTwoRowsLate : Script :=
  ⟨32, scenarioHex, [], .found 64, [⟨35, rootR1, "1", false⟩, ⟨40, [0], "2", false⟩], headS6,
    fun slot => if slot = 40 then some ⟨"R2"⟩ else none, fun slot => plainBlock slot rootR2, false⟩

/-- The table with rows for the slots 0, 1, 2. -/
def tableThreeRows : Store := ⟨[rowAt 0, rowAt 1, rowAt 2], 0⟩

/-- The node of the scenarios with the head at slot 5 and a blocks table that
rejects the operation number 11 when it is a `SaveBlock`: in a tick from
`tableThreeRows` that is not the first run this is the `SaveBlock` of slot 4. -/
def saveBlockFailsOnce : Outcomes :=
  { calmOutcomes ⟨5, 0, 0⟩ with
    saveBlockError := fun t => if t = 11 then some "blocks table unavailable" else none }

/-! ## Laws of computations -/

section Laws

variable {σ α β : Type}

@[simp] theorem pure_run (a : α) (s : σ) : (pure a : Exec σ α) s = ⟨.ok a, s, []⟩ := rfl

@[simp] theorem raise_run (f : Fault) (s : σ) : (raise f : Exec σ α) s = ⟨.error f, s, []⟩ := rfl

@[simp] theorem fail_run (msg : String) (s : σ) :
    (fail msg : Exec σ α) s = ⟨.error (.error msg), s, []⟩ := rfl

@[simp] theorem call_run (c : Call) (f : σ → α × σ) (s : σ) :
    call c f s = ⟨.ok (f s).1, (f s).2, [c]⟩ := rfl

@[simp] theorem enter_run (c : Call) (s : σ) : (enter c : Exec σ Unit) s = ⟨.ok (), s, [c]⟩ := rfl

theorem bind_run (m : Exec σ α) (f : α → Exec σ β) (s : σ) :
    (m >>= f) s = match (m s).result with
      | .ok a => ⟨(f a (m s).state).result, (f a (m s).state).state, (m s).calls ++ (f a (m s).state).calls⟩
      | .error e => ⟨.error e, (m s).state, (m s).calls⟩ := rfl

theorem bind_run_ok (m : Exec σ α) (f : α → Exec σ β) (s : σ) (a : α) (h : (m s).result = .ok a) :
    (m >>= f) s =
      ⟨(f a (m s).state).result, (f a (m s).state).state, (m s).calls ++ (f a (m s).state).calls⟩ := by
  rw [bind_run, h]

theorem bind_run_error (m : Exec σ α) (f : α → Exec σ β) (s : σ) (e : Fault)
    (h : (m s).result = .error e) :
    (m >>= f) s = ⟨.error e, (m s).state, (m s).calls⟩ := by
  rw [bind_run, h]

end Laws

/-! ## The calls a computation can issue -/

/-- Every call that `m` issues, from every state, satisfies `P`. -/
def Issues {σ α : Type} (P : Call → Prop) (m : Exec σ α) : Prop :=
  ∀ s, ∀ c ∈ (m s).calls, P c

section IssuesLaws

variable {σ α β : Type} {P : Call → Prop}

theorem Issues.pure (a : α) : Issues P (pure a : Exec σ α) := by
  intro s c hc
  simp at hc

theorem Issues.raise (f : Fault) : Issues P (raise f : Exec σ α) := by
  intro s c hc
  simp at hc

theorem Issues.fail (msg : String) : Issues P (fail msg : Exec σ α) := by
  intro s c hc
  simp at hc

theorem Issues.call (c : Call) (f : σ → α × σ) (h : P c) : Issues P (call c f) := by
  intro s c1 hc
  simp at hc
  rw [hc]
  exact h

theorem Issues.enter (c : Call) (h : P c) : Issues P (enter c : Exec σ Unit) := by
  intro s c1 hc
  simp at hc
  rw [hc]
  exact h

theorem Issues.bind {m : Exec σ α} {f : α → Exec σ β} (hm : Issues P m) (hf : ∀ a, Issues P (f a)) :
    Issues P (m >>= f) := by
  intro s c hc
  rw [bind_run] at hc
  cases h : (m s).result with
  | ok a =>
    rw [h] at hc
    simp only [List.mem_append] at hc
    rcases hc with hc | hc
    · exact hm s c hc
    · exact hf a _ c hc
  | error e =>
    rw [h] at hc
    exact hm s c hc

theorem Issues.wrapError (ctx : String) {m : Exec σ α} (hm : Issues P m) : Issues P (wrapError ctx m) := by
  intro s c hc
  unfold SlotExporter.wrapError at hc
  split at hc
  · exact hm s c hc
  · exact hm s c hc

theorem Issues.forSlots (fuel lo hi : Nat) {body : Nat → Exec σ Unit} (hb : ∀ slot, Issues P (body slot)) :
    Issues P (forSlots fuel lo hi body) := by
  induction fuel generalizing lo with
  | zero => exact Issues.raise _
  | succ n ih =>
    unfold SlotExporter.forSlots
    split
    · exact Issues.bind (hb lo) (fun _ => ih _)
    · exact Issues.pure _

theorem Issues.forRange (xs : List α) {body : α → Exec σ Unit} (hb : ∀ x, Issues P (body x)) :
    Issues P (forRange xs body) := by
  induction xs with
  | nil => exact Issues.pure _
  | cons x rest ih =>
    unfold SlotExporter.forRange
    exact Issues.bind (hb x) (fun _ => ih)

theorem checkDivisor_issues (divisor : Nat) : Issues P (checkDivisor divisor : Exec σ Unit) := by
  unfold checkDivisor
  split
  · exact Issues.raise _
  · exact Issues.pure _

theorem Issues.mono {Q : Call → Prop} {m : Exec σ α} (hm : Issues P m) (h : ∀ c, P c → Q c) :
    Issues Q m :=
  fun s c hc => h c (hm s c hc)

end IssuesLaws

/-- The calls issued inside `ExportSlot`, after its entry. -/
def Call.isExportStep (c : Call) : Bool :=
  match c with
  | .GetBlockBySlot _ => true
  | .SaveAttestationDuties _ => true
  | .SaveSyncComitteeDuties _ => true
  | .SaveProposalAssignments _ _ => true
  | .SaveValidatorBalances _ _ => true
  | .SaveValidators _ _ => true
  | .UpdateQueueDeposits => true
  | .SaveEpoch _ _ => true
  | .GetValidatorParticipation _ => true
  | .UpdateEpochStatus _ => true
  | .SaveProposal _ => true
  | .SaveBlock _ => true
  | _ => false

theorem updateEpochParticipation_issues {σ : Type} (d : Deps σ) (epoch : Nat) :
    Issues (fun c => c.isExportStep = true) (updateEpochParticipation d epoch) := by
  unfold updateEpochParticipation
  refine Issues.bind (Issues.call _ _ rfl) (fun r => ?_)
  cases r with
  | error e => exact Issues.pure _
  | ok stats =>
    refine Issues.bind (Issues.call _ _ rfl) (fun r => ?_)
    cases r with
    | error e => exact Issues.fail _
    | ok u => exact Issues.pure _

theorem saveValidatorsTask_issues {σ : Type} (d : Deps σ) (epoch : Nat) (validators : List Nat) :
    Issues (fun c => c.isExportStep = true) (saveValidatorsTask d epoch validators) := by
  unfold saveValidatorsTask
  refine Issues.bind (Issues.call _ _ rfl) (fun r => ?_)
  cases r with
  | error e => exact Issues.pure _
  | ok u =>
    refine Issues.bind (Issues.call _ _ rfl) (fun r => ?_)
    cases r with
    | error e => exact Issues.pure _
    | ok u => exact Issues.pure _

theorem exportEpochAssignments_issues {σ : Type} (d : Deps σ) (fuel slot : Nat) (isHeadEpoch : Bool)
    (block : Block) (assignments : EpochAssignments) :
    Issues (fun c => c.isExportStep = true)
      (exportEpochAssignments d fuel slot isHeadEpoch block assignments) := by
  unfold exportEpochAssignments
  refine Issues.bind (checkDivisor_issues _) (fun _ => ?_)
  · dsimp only
    split
    · exact Issues.raise _
    · split
      · exact Issues.fail _
      · refine Issues.bind (Issues.call _ _ rfl) (fun r1 => ?_)
        refine Issues.bind (Issues.call _ _ rfl) (fun r2 => ?_)
        refine Issues.bind (Issues.call _ _ rfl) (fun r3 => ?_)
        refine Issues.bind (Issues.call _ _ rfl) (fun r4 => ?_)
        refine Issues.bind ?_ (fun r5 => ?_)
        · split
          · exact saveValidatorsTask_issues d _ _
          · exact Issues.pure _
        · split
          · exact Issues.fail _
          · refine Issues.bind (Issues.call _ _ rfl) (fun r => ?_)
            cases r with
            | error e => exact Issues.fail _
            | ok u =>
              dsimp only
              split
              · exact updateEpochParticipation_issues d _
              · exact Issues.pure _

theorem exportSlotData_issues {σ : Type} (d : Deps σ) (block : Block) :
    Issues (fun c => c.isExportStep = true) (exportSlotData d block) := by
  unfold exportSlotData
  refine Issues.bind (Issues.call _ _ rfl) (fun r => ?_)
  cases r with
  | error e => exact Issues.fail _
  | ok u =>
    refine Issues.bind (Issues.call _ _ rfl) (fun r => ?_)
    cases r with
    | error e => exact Issues.fail _
    | ok u =>
      refine Issues.bind (Issues.call _ _ rfl) (fun r => ?_)
      cases r with
      | error e => exact Issues.fail _
      | ok u => exact Issues.bind (Issues.call _ _ rfl) (fun _ => Issues.pure _)

/-- The part of `ExportSlot` after its entry. -/
theorem exportSlot_body_issues {σ : Type} (d : Deps σ) (fuel slot : Nat) (isHeadEpoch : Bool) :
    Issues (fun c => c = .ExportSlot slot isHeadEpoch ∨ c.isExportStep = true)
      (ExportSlot d fuel slot isHeadEpoch) := by
  unfold ExportSlot
  refine Issues.bind (Issues.enter _ (Or.inl rfl)) (fun _ => ?_)
  refine Issues.bind (Issues.call _ _ (Or.inr rfl)) (fun r => ?_)
  cases r with
  | error e => exact Issues.fail _
  | ok block =>
    refine Issues.bind ?_ (fun _ => ?_)
    · split
      · exact (exportEpochAssignments_issues d fuel slot isHeadEpoch block _).mono (fun c h => Or.inr h)
      · exact Issues.pure _
    · exact (exportSlotData_issues d block).mono (fun c h => Or.inr h)

/-! ## The shape of the calls of `ExportSlot` -/

@[simp] theorem wrapError_calls {σ α : Type} (ctx : String) (m : Exec σ α) (s : σ) :
    (wrapError ctx m s).calls = (m s).calls := by
  unfold wrapError
  split <;> rfl

@[simp] theorem wrapError_state {σ α : Type} (ctx : String) (m : Exec σ α) (s : σ) :
    (wrapError ctx m s).state = (m s).state := by
  unfold wrapError
  split <;> rfl

theorem wrapError_result_ok {σ α : Type} (ctx : String) (m : Exec σ α) (s : σ) (a : α) :
    (wrapError ctx m s).result = .ok a ↔ (m s).result = .ok a := by
  unfold wrapError
  split
  · rename_i e h
    simp [h]
  · rfl

theorem statusUpdates_append (a b : List Call) :
    statusUpdates (a ++ b) = statusUpdates a ++ statusUpdates b := by
  simp [statusUpdates]

theorem exportCalls_append (a b : List Call) :
    exportCalls (a ++ b) = exportCalls a ++ exportCalls b := by
  simp [exportCalls]

theorem statusUpdates_cons_step (c : Call) (calls : List Call) (h : c.isExportStep = true) :
    statusUpdates (c :: calls) = statusUpdates calls := by
  cases c <;> first | rfl | (exact absurd h (by simp [Call.isExportStep]))

theorem exportCalls_cons_step (c : Call) (calls : List Call) (h : c.isExportStep = true) :
    exportCalls (c :: calls) = exportCalls calls := by
  cases c <;> first | rfl | (exact absurd h (by simp [Call.isExportStep]))

theorem statusUpdates_of_steps (calls : List Call) (h : ∀ c ∈ calls, c.isExportStep = true) :
    statusUpdates calls = [] := by
  induction calls with
  | nil => rfl
  | cons c rest ih =>
    rw [statusUpdates_cons_step c rest (h c (List.mem_cons_self _ _))]
    exact ih (fun x hx => h x (List.mem_cons_of_mem _ hx))

theorem exportCalls_of_steps (calls : List Call) (h : ∀ c ∈ calls, c.isExportStep = true) :
    exportCalls calls = [] := by
  induction calls with
  | nil => rfl
  | cons c rest ih =>
    rw [exportCalls_cons_step c rest (h c (List.mem_cons_self _ _))]
    exact ih (fun x hx => h x (List.mem_cons_of_mem _ hx))

/-- The calls of `ExportSlot` are its entry followed by steps of the export. -/
theorem exportSlot_calls_shape {σ : Type} (d : Deps σ) (fuel slot : Nat) (isHeadEpoch : Bool) (s : σ) :
    ∃ rest, (ExportSlot d fuel slot isHeadEpoch s).calls = .ExportSlot slot isHeadEpoch :: rest ∧
      ∀ c ∈ rest, c.isExportStep = true := by
  unfold ExportSlot
  rw [bind_run]
  simp only [enter_run, List.singleton_append]
  refine ⟨_, rfl, ?_⟩
  intro c hc
  refine Issues.bind (P := fun c => c.isExportStep = true) (Issues.call _ _ (by rfl)) (fun r => ?_) s c hc
  cases r with
  | error e => exact Issues.fail _
  | ok block =>
    refine Issues.bind ?_ (fun _ => exportSlotData_issues d block)
    split
    · exact exportEpochAssignments_issues d fuel slot isHeadEpoch block _
    · exact Issues.pure _

theorem exportSlot_statusUpdates {σ : Type} (d : Deps σ) (fuel slot : Nat) (isHeadEpoch : Bool) (s : σ) :
    statusUpdates (ExportSlot d fuel slot isHeadEpoch s).calls = [] := by
  obtain ⟨rest, h, hr⟩ := exportSlot_calls_shape d fuel slot isHeadEpoch s
  rw [h]
  exact statusUpdates_of_steps rest hr

theorem exportSlot_exportCalls {σ : Type} (d : Deps σ) (fuel slot : Nat) (isHeadEpoch : Bool) (s : σ) :
    exportCalls (ExportSlot d fuel slot isHeadEpoch s).calls = [(slot, isHeadEpoch)] := by
  obtain ⟨rest, h, hr⟩ := exportSlot_calls_shape d fuel slot isHeadEpoch s
  rw [h]
  show (slot, isHeadEpoch) :: exportCalls rest = _
  rw [exportCalls_of_steps rest hr]

/-! ## The cases of `markFinalized` -/

section MarkFinalized

variable {σ : Type} (d : Deps σ) (fuel : Nat) (head : ChainHead) (row : DbSlot) (nf : Bool) (s : σ)

/-- The header is present and its root is the root of the row. -/
theorem markFinalized_proposed (h : Header) (hroot : d.MustParseHex h.Root = some row.BlockRoot) :
    (markFinalized d fuel head row (some h) nf s).calls =
      [.SetSlotFinalizationAndStatus row.Slot nf row.Status] := by
  unfold markFinalized
  simp only [bind_run, headerRootEquals, hroot, pure_run, decide_True, if_true, call_run]
  cases (d.SetSlotFinalizationAndStatus row.Slot nf row.Status s).1 <;> simp

/-- The header is absent and the row has no block. -/
theorem markFinalized_missed (hlen : row.BlockRoot.length < 32) :
    (markFinalized d fuel head row none nf s).calls =
      [.SetSlotFinalizationAndStatus row.Slot nf "2"] := by
  unfold markFinalized
  simp only [bind_run, headerRootEquals, pure_run, Bool.false_eq_true, if_false, Option.isNone_none,
    hlen, decide_True, Bool.and_self, if_true, call_run]
  cases (d.SetSlotFinalizationAndStatus row.Slot nf "2" s).1 <;> simp

/-- The header is absent and the row has a block of 32 bytes. -/
theorem markFinalized_orphaned (hlen : row.BlockRoot.length = 32) :
    (markFinalized d fuel head row none nf s).calls =
      [.SetSlotFinalizationAndStatus row.Slot nf "3"] := by
  unfold markFinalized
  simp only [bind_run, headerRootEquals, pure_run, Bool.false_eq_true, if_false, Option.isNone_none,
    hlen, decide_True, Bool.and_self, if_true, call_run, Nat.lt_irrefl, decide_False, Bool.and_false]
  cases (d.SetSlotFinalizationAndStatus row.Slot nf "3" s).1 <;> simp

/-- The header is absent and the root of the row is longer than 32 bytes: no
branch is taken. -/
theorem markFinalized_long_root (hlen : 32 < row.BlockRoot.length) :
    markFinalized d fuel head row none nf s = ⟨.ok (), s, []⟩ := by
  have h1 : ¬ row.BlockRoot.length < 32 := by omega
  have h2 : ¬ row.BlockRoot.length = 32 := by omega
  unfold markFinalized
  simp [bind_run, headerRootEquals, h1, h2]

/-- The header is present and `MustParseHex` does not return. -/
theorem markFinalized_abort (h : Header) (hroot : d.MustParseHex h.Root = none) :
    markFinalized d fuel head row (some h) nf s = ⟨.error .abort, s, []⟩ := by
  unfold markFinalized
  simp [bind_run, headerRootEquals, hroot]

/-- The header is present with another root and the status update fails. -/
theorem markFinalized_reorg_update_fails (h : Header) (root : Bytes)
    (hroot : d.MustParseHex h.Root = some root) (hne : row.BlockRoot ≠ root) (e : String)
    (hset : (d.SetSlotFinalizationAndStatus row.Slot nf "3" s).1 = .error e) :
    (markFinalized d fuel head row (some h) nf s).calls =
        [.SetSlotFinalizationAndStatus row.Slot nf "3"] ∧
      (markFinalized d fuel head row (some h) nf s).returnsError = true := by
  unfold markFinalized
  simp [bind_run, headerRootEquals, hroot, hne, hset, Run.returnsError]

/-- The header is present with another root and the status update succeeds. -/
theorem markFinalized_reorg_update_ok (h : Header) (root : Bytes)
    (hroot : d.MustParseHex h.Root = some root) (hne : row.BlockRoot ≠ root) (u : Unit)
    (hset : (d.SetSlotFinalizationAndStatus row.Slot nf "3" s).1 = .ok u) :
    (markFinalized d fuel head row (some h) nf s).calls =
        .SetSlotFinalizationAndStatus row.Slot nf "3" ::
          (ExportSlot d fuel row.Slot (d.EpochOfSlot row.Slot == head.HeadEpoch)
            (d.SetSlotFinalizationAndStatus row.Slot nf "3" s).2).calls ∧
      ((markFinalized d fuel head row (some h) nf s).result = .ok () ↔
        (ExportSlot d fuel row.Slot (d.EpochOfSlot row.Slot == head.HeadEpoch)
            (d.SetSlotFinalizationAndStatus row.Slot nf "3" s).2).result = .ok ()) := by
  unfold markFinalized
  simp [bind_run, headerRootEquals, hroot, hne, hset, wrapError_result_ok]

end MarkFinalized

/-! ## The body of the reconciliation loop -/

theorem updateEpochOnTransition_issues {σ : Type} (d : Deps σ) (row : DbSlot) :
    Issues (fun c => c.isExportStep = true) (updateEpochOnTransition d row) := by
  unfold updateEpochOnTransition
  refine Issues.bind (checkDivisor_issues _) (fun _ => ?_)
  split
  · exact updateEpochParticipation_issues d _
  · exact Issues.pure _

section ReconcileSlot

variable {σ : Type} (d : Deps σ) (fuel : Nat) (head : ChainHead) (row : DbSlot) (s : σ)

/-- The run of the loop body on a slot whose finalisation differs between the
node and the database, in terms of the run of `markFinalized`. -/
theorem reconcileSlot_transition (header : Option Header)
    (hhdr : (d.GetBlockHeader row.Slot s).1 = .ok header)
    (hdiff : (decide (row.Slot ≤ head.FinalizedSlot) != row.Finalized) = true) :
    statusUpdates (reconcileSlot d fuel head row s).calls =
        statusUpdates (markFinalized d fuel head row header (decide (row.Slot ≤ head.FinalizedSlot))
          (d.GetBlockHeader row.Slot s).2).calls ∧
      exportCalls (reconcileSlot d fuel head row s).calls =
        exportCalls (markFinalized d fuel head row header (decide (row.Slot ≤ head.FinalizedSlot))
          (d.GetBlockHeader row.Slot s).2).calls ∧
      ((reconcileSlot d fuel head row s).result = .ok () →
        (markFinalized d fuel head row header (decide (row.Slot ≤ head.FinalizedSlot))
          (d.GetBlockHeader row.Slot s).2).result = .ok ()) ∧
      ((markFinalized d fuel head row header (decide (row.Slot ≤ head.FinalizedSlot))
          (d.GetBlockHeader row.Slot s).2).returnsError = true →
        (reconcileSlot d fuel head row s).returnsError = true) := by
  unfold reconcileSlot
  simp only [bind_run, call_run, hhdr, hdiff, if_true]
  cases hm : (markFinalized d fuel head row header (decide (row.Slot ≤ head.FinalizedSlot))
      (d.GetBlockHeader row.Slot s).2).result with
  | error e =>
    simp only [List.singleton_append]
    refine ⟨rfl, rfl, ?_, ?_⟩
    · intro h
      cases h
    · intro h
      simpa [Run.returnsError, hm] using h
  | ok u =>
    simp only [List.singleton_append]
    have hs := statusUpdates_of_steps _ (updateEpochOnTransition_issues d row
      (markFinalized d fuel head row header (decide (row.Slot ≤ head.FinalizedSlot))
        (d.GetBlockHeader row.Slot s).2).state)
    have he := exportCalls_of_steps _ (updateEpochOnTransition_issues d row
      (markFinalized d fuel head row header (decide (row.Slot ≤ head.FinalizedSlot))
        (d.GetBlockHeader row.Slot s).2).state)
    refine ⟨?_, ?_, ?_, ?_⟩
    · show statusUpdates (_ ++ _) = _
      rw [statusUpdates_append, hs, List.append_nil]
    · show exportCalls (_ ++ _) = _
      rw [exportCalls_append, he, List.append_nil]
    · intro _
      trivial
    · intro h
      simp [Run.returnsError, hm] at h

/-- The calls of the loop body on such a slot: the header fetch, the calls of
`markFinalized`, and steps of the participation update. -/
theorem reconcileSlot_transition_calls (header : Option Header)
    (hhdr : (d.GetBlockHeader row.Slot s).1 = .ok header)
    (hdiff : (decide (row.Slot ≤ head.FinalizedSlot) != row.Finalized) = true) :
    ∃ tail, (reconcileSlot d fuel head row s).calls =
        .GetBlockHeader row.Slot ::
          ((markFinalized d fuel head row header (decide (row.Slot ≤ head.FinalizedSlot))
            (d.GetBlockHeader row.Slot s).2).calls ++ tail) ∧
      (∀ c ∈ tail, c.isExportStep = true) ∧
      ((markFinalized d fuel head row header (decide (row.Slot ≤ head.FinalizedSlot))
          (d.GetBlockHeader row.Slot s).2).returnsError = true → tail = []) := by
  unfold reconcileSlot
  simp only [bind_run, call_run, hhdr, hdiff, if_true]
  cases hm : (markFinalized d fuel head row header (decide (row.Slot ≤ head.FinalizedSlot))
      (d.GetBlockHeader row.Slot s).2).result with
  | error e =>
    refine ⟨[], ?_, ?_, ?_⟩
    · simp
    · intro c hc
      cases hc
    · intro _
      rfl
  | ok u =>
    refine ⟨(updateEpochOnTransition d row
      (markFinalized d fuel head row header (decide (row.Slot ≤ head.FinalizedSlot))
        (d.GetBlockHeader row.Slot s).2).state).calls, ?_, updateEpochOnTransition_issues d row _, ?_⟩
    · simp
    · intro h
      simp [Run.returnsError, hm] at h

/-- The run of the loop body on a slot that is non-final for the node and the database. -/
theorem reconcileSlot_steady_calls (header : Option Header)
    (hhdr : (d.GetBlockHeader row.Slot s).1 = .ok header)
    (hsame : (decide (row.Slot ≤ head.FinalizedSlot) != row.Finalized) = false) :
    (reconcileSlot d fuel head row s).calls =
      .GetBlockHeader row.Slot ::
        (if row.BlockRoot.length < 32 ∧ header.isSome = true then
          (ExportSlot d fuel row.Slot (d.EpochOfSlot row.Slot == head.HeadEpoch)
            (d.GetBlockHeader row.Slot s).2).calls
        else []) := by
  unfold reconcileSlot
  simp only [bind_run, call_run, hhdr, hsame, Bool.false_eq_true, if_false]
  split <;> simp

end ReconcileSlot

/-- A fault of the body on the first element ends the loop. -/
theorem forRange_cons_error {σ α : Type} (x : α) (rest : List α) (body : α → Exec σ Unit) (s : σ)
    (e : Fault) (h : (body x s).result = .error e) :
    forRange (x :: rest) body s = ⟨.error e, (body x s).state, (body x s).calls⟩ := by
  unfold forRange
  rw [bind_run_error _ _ _ e h]

theorem forRange_cons_ok {σ α : Type} (x : α) (rest : List α) (body : α → Exec σ Unit) (s : σ)
    (h : (body x s).result = .ok ()) :
    forRange (x :: rest) body s =
      ⟨(forRange rest body (body x s).state).result, (forRange rest body (body x s).state).state,
        (body x s).calls ++ (forRange rest body (body x s).state).calls⟩ := by
  conv => lhs; unfold forRange
  rw [bind_run_ok _ _ _ () h]

/-! ## The rows that the tick reaches -/

/-- A loop over `xs ++ ys` whose part over `xs` returns `nil` goes on with `ys`. -/
theorem forRange_append_ok {σ α : Type} (body : α → Exec σ Unit) (xs ys : List α) (s : σ)
    (h : (forRange xs body s).result = .ok ()) :
    forRange (xs ++ ys) body s =
      ⟨(forRange ys body (forRange xs body s).state).result,
        (forRange ys body (forRange xs body s).state).state,
        (forRange xs body s).calls ++ (forRange ys body (forRange xs body s).state).calls⟩ := by
  induction xs generalizing s with
  | nil => rfl
  | cons x rest ih =>
    cases hx : (body x s).result with
    | error e =>
      rw [forRange_cons_error x rest body s e hx] at h
      cases h
    | ok u =>
      rw [forRange_cons_ok x rest body s hx] at h
      rw [List.cons_append, forRange_cons_ok x (rest ++ ys) body s hx, ih _ h,
        forRange_cons_ok x rest body s hx]
      simp only [List.append_assoc]

/-- The tick after a gap back-fill and a head catch-up that returned `nil`. -/
theorem runSlotExporter_phases {σ : Type} (d : Deps σ) (fuel : Nat) (firstRun : Bool) (head : ChainHead)
    (s : σ) (hback : (backfillGaps d fuel firstRun s).result = .ok ())
    (hhead : (d.GetChainHead (backfillGaps d fuel firstRun s).state).1 = .ok head)
    (hcatch : (catchUpHead d fuel head
      (d.GetChainHead (backfillGaps d fuel firstRun s).state).2).result = .ok ()) :
    RunSlotExporter d fuel firstRun s =
      ⟨(reconcileNonFinalized d fuel head (stateAtReconcile d fuel firstRun head s)).result,
        (reconcileNonFinalized d fuel head (stateAtReconcile d fuel firstRun head s)).state,
        (backfillGaps d fuel firstRun s).calls ++ .GetChainHead ::
          ((catchUpHead d fuel head (d.GetChainHead (backfillGaps d fuel firstRun s).state).2).calls ++
            (reconcileNonFinalized d fuel head (stateAtReconcile d fuel firstRun head s)).calls)⟩ := by
  unfold RunSlotExporter stateAtReconcile
  rw [bind_run_ok _ _ _ () hback, bind_run]
  simp only [call_run, hhead]
  rw [bind_run_ok _ _ _ () hcatch]
  rfl

/-- The reconciliation after a successful read of the non-finalised rows. -/
theorem reconcileNonFinalized_rows {σ : Type} (d : Deps σ) (fuel : Nat) (head : ChainHead) (s : σ)
    (rows : List DbSlot) (hrows : (d.GetAllNonFinalizedSlots s).1 = .ok rows) :
    reconcileNonFinalized d fuel head s =
      ⟨(forRange rows (reconcileSlot d fuel head) (d.GetAllNonFinalizedSlots s).2).result,
        (forRange rows (reconcileSlot d fuel head) (d.GetAllNonFinalizedSlots s).2).state,
        .GetAllNonFinalizedSlots ::
          (forRange rows (reconcileSlot d fuel head) (d.GetAllNonFinalizedSlots s).2).calls⟩ := by
  unfold reconcileNonFinalized
  rw [bind_run]
  simp only [call_run, hrows]
  rfl

/-- The tick around a row that the reconciliation loop reaches: its calls are
the calls before the row, the calls of the loop body on the row and the calls
after the row, and a fault of the loop body on the row is the result of the tick. -/
theorem runSlotExporter_at_row {σ : Type} (d : Deps σ) (fuel : Nat) (firstRun : Bool) (head : ChainHead)
    (earlier : List DbSlot) (row : DbSlot) (later : List DbSlot) (s : σ)
    (h : ReachesRow d fuel firstRun head earlier row later s) :
    (RunSlotExporter d fuel firstRun s).calls =
        callsBeforeRow d fuel firstRun head earlier s ++
          ((reconcileSlot d fuel head row (stateAtRow d fuel firstRun head earlier s)).calls ++
            callsAfterRow d fuel head row later (stateAtRow d fuel firstRun head earlier s)) ∧
      ∀ e, (reconcileSlot d fuel head row (stateAtRow d fuel firstRun head earlier s)).result = .error e →
        (RunSlotExporter d fuel firstRun s).result = .error e := by
  rw [runSlotExporter_phases d fuel firstRun head s h.backfill h.chainHead h.catchUp,
    reconcileNonFinalized_rows d fuel head _ _ h.rows,
    forRange_append_ok _ earlier (row :: later) _ h.earlierRows]
  unfold callsBeforeRow callsAfterRow stateAtRow
  cases hbody : (reconcileSlot d fuel head row
      (forRange earlier (reconcileSlot d fuel head)
        (d.GetAllNonFinalizedSlots (stateAtReconcile d fuel firstRun head s)).2).state).result with
  | error e =>
    rw [forRange_cons_error row later _ _ e hbody]
    refine ⟨by simp, ?_⟩
    intro e1 he1
    cases he1
    rfl
  | ok u =>
    rw [forRange_cons_ok row later _ _ hbody]
    refine ⟨by simp, ?_⟩
    intro e1 he1
    cases he1

/-! ## The claims -/

/-- The loop body on a row with `finalized = false` and
`slot ≤ head.finalized_slot`, in the three cases of lines 99-119: exactly one
status update and no `ExportSlot` call. -/
theorem reconcileSlot_nonreorg {σ : Type} (d : Deps σ) (fuel : Nat) (head : ChainHead)
    (row : DbSlot) (s : σ) (header : Option Header) (st : String)
    (hfin : row.Finalized = false) (hslot : row.Slot ≤ head.FinalizedSlot)
    (hhdr : (d.GetBlockHeader row.Slot s).1 = .ok header)
    (hst : (∃ h, header = some h ∧ d.MustParseHex h.Root = some row.BlockRoot ∧ st = row.Status) ∨
      (header = none ∧ row.BlockRoot.length < 32 ∧ st = "2") ∨
      (header = none ∧ row.BlockRoot.length = 32 ∧ st = "3")) :
    statusUpdates (reconcileSlot d fuel head row s).calls =
        [.SetSlotFinalizationAndStatus row.Slot true st] ∧
      exportCalls (reconcileSlot d fuel head row s).calls = [] := by
  have hdiff : (decide (row.Slot ≤ head.FinalizedSlot) != row.Finalized) = true := by
    simp [hfin, hslot]
  obtain ⟨h1, h2, -, -⟩ := reconcileSlot_transition d fuel head row s header hhdr hdiff
  rw [h1, h2]
  have hnf : decide (row.Slot ≤ head.FinalizedSlot) = true := by simp [hslot]
  rw [hnf]
  rcases hst with ⟨h, hh, hroot, rfl⟩ | ⟨hh, hlen, rfl⟩ | ⟨hh, hlen, rfl⟩
  · subst hh
    rw [markFinalized_proposed d fuel head row true _ h hroot]
    exact ⟨rfl, rfl⟩
  · subst hh
    rw [markFinalized_missed d fuel head row true _ hlen]
    exact ⟨rfl, rfl⟩
  · subst hh
    rw [markFinalized_orphaned d fuel head row true _ hlen]
    exact ⟨rfl, rfl⟩

/-- C1, refuted as stated: the node fails to return the header of slot 5, the
first of the two rows that `GetAllNonFinalizedSlots` returns.  The tick returns
an error after that fetch; the row of slot 10, not finalised, below the
finalised slot 20, with a 32-byte root and no header at the node, gets no call
at all. -/
theorem nonreorg_finalisation_counterexample :
    ((scriptTwoRows.depsHeaderFails 5).GetAllNonFinalizedSlots ()).1 =
        .ok [⟨5, [0], "1", false⟩, ⟨10, rootR1, "1", false⟩] ∧
      (10 ≤ headS3.FinalizedSlot ∧ rootR1.length = 32 ∧
        ((scriptTwoRows.depsHeaderFails 5).GetBlockHeader 10 ()).1 = .ok none) ∧
      (RunSlotExporter (scriptTwoRows.depsHeaderFails 5) 0 false ()).calls =
        [.GetChainHead, .GetLastSlot, .GetAllNonFinalizedSlots, .GetBlockHeader 5] ∧
      Call.SetSlotFinalizationAndStatus 10 true "3" ∉
        (RunSlotExporter (scriptTwoRows.depsHeaderFails 5) 0 false ()).calls := by
  have hcalls : (RunSlotExporter (scriptTwoRows.depsHeaderFails 5) 0 false ()).calls =
      [.GetChainHead, .GetLastSlot, .GetAllNonFinalizedSlots, .GetBlockHeader 5] := by rfl
  refine ⟨rfl, ⟨by decide, by decide, rfl⟩, hcalls, ?_⟩
  rw [hcalls]
  simp

/-- C1, amended: for every row returned by `GetAllNonFinalizedSlots` that
the reconciliation loop of the tick reaches, with `finalized = false` and
`slot ≤ head.finalized_slot`, the calls of `RunSlotExporter` are the calls
before the row, the calls for the row and the calls after the row, and the
calls for the row have exactly one status update,
`SetSlotFinalizationAndStatus(slot, true, st)`, and no `ExportSlot` call, where
`st` is the status of the row when the header is present with the root of the
row, `"2"` when the header is nil and the root is shorter than 32 bytes, and
`"3"` when the header is nil and the root has 32 bytes. -/
theorem nonreorg_finalisation {σ : Type} (d : Deps σ) (fuel : Nat) (firstRun : Bool) (head : ChainHead)
    (earlier : List DbSlot) (row : DbSlot) (later : List DbSlot) (s : σ)
    (header : Option Header) (st : String)
    (hreach : ReachesRow d fuel firstRun head earlier row later s)
    (hfin : row.Finalized = false) (hslot : row.Slot ≤ head.FinalizedSlot)
    (hhdr : (d.GetBlockHeader row.Slot (stateAtRow d fuel firstRun head earlier s)).1 = .ok header)
    (hst : (∃ h, header = some h ∧ d.MustParseHex h.Root = some row.BlockRoot ∧ st = row.Status) ∨
      (header = none ∧ row.BlockRoot.length < 32 ∧ st = "2") ∨
      (header = none ∧ row.BlockRoot.length = 32 ∧ st = "3")) :
    (RunSlotExporter d fuel firstRun s).calls =
        callsBeforeRow d fuel firstRun head earlier s ++
          ((reconcileSlot d fuel head row (stateAtRow d fuel firstRun head earlier s)).calls ++
            callsAfterRow d fuel head row later (stateAtRow d fuel firstRun head earlier s)) ∧
      statusUpdates (reconcileSlot d fuel head row (stateAtRow d fuel firstRun head earlier s)).calls =
        [.SetSlotFinalizationAndStatus row.Slot true st] ∧
      exportCalls (reconcileSlot d fuel head row (stateAtRow d fuel firstRun head earlier s)).calls = [] :=
  ⟨(runSlotExporter_at_row d fuel firstRun head earlier row later s hreach).1,
    reconcileSlot_nonreorg d fuel head row _ header st hfin hslot hhdr hst⟩

/-- Scenario S4 for C1, after a row of scenario S3: the tick reaches the row of
slot 10 with root `R1` and no header at the node; the row gets the single
status update `(10, true, "3")` and no export. -/
theorem nonreorg_finalisation_witness :
    (RunSlotExporter scriptTwoRows.deps 0 false ()).calls =
        callsBeforeRow scriptTwoRows.deps 0 false headS3 [⟨5, [0], "1", false⟩] () ++
          ((reconcileSlot scriptTwoRows.deps 0 headS3 ⟨10, rootR1, "1", false⟩
              (stateAtRow scriptTwoRows.deps 0 false headS3 [⟨5, [0], "1", false⟩] ())).calls ++
            callsAfterRow scriptTwoRows.deps 0 headS3 ⟨10, rootR1, "1", false⟩ []
              (stateAtRow scriptTwoRows.deps 0 false headS3 [⟨5, [0], "1", false⟩] ())) ∧
      statusUpdates (reconcileSlot scriptTwoRows.deps 0 headS3 ⟨10, rootR1, "1", false⟩
          (stateAtRow scriptTwoRows.deps 0 false headS3 [⟨5, [0], "1", false⟩] ())).calls =
        [.SetSlotFinalizationAndStatus 10 true "3"] ∧
      exportCalls (reconcileSlot scriptTwoRows.deps 0 headS3 ⟨10, rootR1, "1", false⟩
          (stateAtRow scriptTwoRows.deps 0 false headS3 [⟨5, [0], "1", false⟩] ())).calls = [] :=
  nonreorg_finalisation scriptTwoRows.deps 0 false headS3 [⟨5, [0], "1", false⟩]
    ⟨10, rootR1, "1", false⟩ [] () none "3" ⟨rfl, rfl, rfl, rfl, rfl⟩ rfl (by decide) rfl
    (Or.inr (Or.inr ⟨rfl, by decide, rfl⟩))

/-- The loop body on a non-finalised row with `slot ≤ head.finalized_slot`
whose header is present with another root (lines 120-131): the status update
`"3"` comes first and `ExportSlot` follows when the update succeeded; when it
failed the body returns an error right after it. -/
theorem reconcileSlot_reorg {σ : Type} (d : Deps σ) (fuel : Nat) (head : ChainHead)
    (row : DbSlot) (s : σ) (h : Header) (root : Bytes)
    (hfin : row.Finalized = false) (hslot : row.Slot ≤ head.FinalizedSlot)
    (_hlen : row.BlockRoot.length = 32)
    (hhdr : (d.GetBlockHeader row.Slot s).1 = .ok (some h))
    (hroot : d.MustParseHex h.Root = some root) (hne : root ≠ row.BlockRoot) :
    ((∃ u, (d.SetSlotFinalizationAndStatus row.Slot true "3" (d.GetBlockHeader row.Slot s).2).1 = .ok u) →
      ∃ rest, (reconcileSlot d fuel head row s).calls =
          [.GetBlockHeader row.Slot, .SetSlotFinalizationAndStatus row.Slot true "3",
            .ExportSlot row.Slot (d.EpochOfSlot row.Slot == head.HeadEpoch)] ++ rest ∧
        ∀ c ∈ rest, c.isExportStep = true) ∧
    ((∃ e, (d.SetSlotFinalizationAndStatus row.Slot true "3" (d.GetBlockHeader row.Slot s).2).1 = .error e) →
      (reconcileSlot d fuel head row s).calls =
          [.GetBlockHeader row.Slot, .SetSlotFinalizationAndStatus row.Slot true "3"] ∧
        (reconcileSlot d fuel head row s).returnsError = true) := by
  have hdiff : (decide (row.Slot ≤ head.FinalizedSlot) != row.Finalized) = true := by
    simp [hfin, hslot]
  have hnf : decide (row.Slot ≤ head.FinalizedSlot) = true := by simp [hslot]
  obtain ⟨tail, hcalls, htail, hnil⟩ := reconcileSlot_transition_calls d fuel head row s (some h) hhdr hdiff
  obtain ⟨-, -, -, herr⟩ := reconcileSlot_transition d fuel head row s (some h) hhdr hdiff
  rw [hnf] at hcalls hnil herr
  constructor
  · rintro ⟨u, hu⟩
    obtain ⟨hm, -⟩ := markFinalized_reorg_update_ok d fuel head row true _ h root hroot (Ne.symm hne) u hu
    obtain ⟨rest, hrest, hsteps⟩ := exportSlot_calls_shape d fuel row.Slot
      (d.EpochOfSlot row.Slot == head.HeadEpoch)
      (d.SetSlotFinalizationAndStatus row.Slot true "3" (d.GetBlockHeader row.Slot s).2).2
    refine ⟨rest ++ tail, ?_, ?_⟩
    · rw [hcalls, hm, hrest]
      simp
    · intro c hc
      rcases List.mem_append.mp hc with hc | hc
      · exact hsteps c hc
      · exact htail c hc
  · rintro ⟨e, he⟩
    obtain ⟨hm, hfail⟩ := markFinalized_reorg_update_fails d fuel head row true _ h root hroot
      (Ne.symm hne) e he
    have hbody : (reconcileSlot d fuel head row s).returnsError = true := herr hfail
    have hcalls2 : (reconcileSlot d fuel head row s).calls =
        [.GetBlockHeader row.Slot, .SetSlotFinalizationAndStatus row.Slot true "3"] := by
      rw [hcalls, hm, hnil hfail]
      rfl
    exact ⟨hcalls2, hbody⟩

/-- C2, refuted as stated: the node fails to return the header of slot 5, the
first of the two rows that `GetAllNonFinalizedSlots` returns.  The tick returns
an error after that fetch; the row of slot 10, not finalised, below the
finalised slot 20, with the 32-byte root `R1` and a header with root `R2` at
the node, gets neither the status update nor the export. -/
theorem reorg_at_finalisation_counterexample :
    ((scriptTwoRowsReorg.depsHeaderFails 5).GetAllNonFinalizedSlots ()).1 =
        .ok [⟨5, [0], "1", false⟩, ⟨10, rootR1, "1", false⟩] ∧
      (10 ≤ headS3.FinalizedSlot ∧ rootR1.length = 32 ∧
        ((scriptTwoRowsReorg.depsHeaderFails 5).GetBlockHeader 10 ()).1 = .ok (some ⟨"R2"⟩) ∧
        (scriptTwoRowsReorg.depsHeaderFails 5).MustParseHex "R2" = some rootR2 ∧ rootR2 ≠ rootR1) ∧
      (RunSlotExporter (scriptTwoRowsReorg.depsHeaderFails 5) 0 false ()).calls =
        [.GetChainHead, .GetLastSlot, .GetAllNonFinalizedSlots, .GetBlockHeader 5] ∧
      Call.SetSlotFinalizationAndStatus 10 true "3" ∉
        (RunSlotExporter (scriptTwoRowsReorg.depsHeaderFails 5) 0 false ()).calls ∧
      exportCalls (RunSlotExporter (scriptTwoRowsReorg.depsHeaderFails 5) 0 false ()).calls = [] := by
  have hcalls : (RunSlotExporter (scriptTwoRowsReorg.depsHeaderFails 5) 0 false ()).calls =
      [.GetChainHead, .GetLastSlot, .GetAllNonFinalizedSlots, .GetBlockHeader 5] := by rfl
  refine ⟨rfl, ⟨by decide, by decide, rfl, rfl, by decide⟩, hcalls, ?_, ?_⟩
  · rw [hcalls]
    simp
  · rw [hcalls]
    rfl

/-- C2, amended: for every non-finalised row that the reconciliation loop of
the tick reaches, with `slot ≤ head.finalized_slot` and a 32-byte root, whose
header is present with another root, the calls of `RunSlotExporter` are the
calls before the row, the calls for the row and the calls after the row.  When
the status update succeeds, the calls for the row are the header fetch,
`SetSlotFinalizationAndStatus(slot, true, "3")` and then
`ExportSlot(slot, epoch_of(slot) == head.head_epoch)` with its steps; when the
status update fails, the calls of the tick end with the header fetch and the
status update, `ExportSlot` is not called for the row and the tick returns an
error. -/
theorem reorg_at_finalisation {σ : Type} (d : Deps σ) (fuel : Nat) (firstRun : Bool) (head : ChainHead)
    (earlier : List DbSlot) (row : DbSlot) (later : List DbSlot) (s : σ) (h : Header) (root : Bytes)
    (hreach : ReachesRow d fuel firstRun head earlier row later s)
    (hfin : row.Finalized = false) (hslot : row.Slot ≤ head.FinalizedSlot)
    (hlen : row.BlockRoot.length = 32)
    (hhdr : (d.GetBlockHeader row.Slot (stateAtRow d fuel firstRun head earlier s)).1 = .ok (some h))
    (hroot : d.MustParseHex h.Root = some root) (hne : root ≠ row.BlockRoot) :
    ((∃ u, (d.SetSlotFinalizationAndStatus row.Slot true "3"
        (d.GetBlockHeader row.Slot (stateAtRow d fuel firstRun head earlier s)).2).1 = .ok u) →
      (RunSlotExporter d fuel firstRun s).calls =
        callsBeforeRow d fuel firstRun head earlier s ++
          ((reconcileSlot d fuel head row (stateAtRow d fuel firstRun head earlier s)).calls ++
            callsAfterRow d fuel head row later (stateAtRow d fuel firstRun head earlier s)) ∧
      ∃ steps, (reconcileSlot d fuel head row (stateAtRow d fuel firstRun head earlier s)).calls =
          [.GetBlockHeader row.Slot, .SetSlotFinalizationAndStatus row.Slot true "3",
            .ExportSlot row.Slot (d.EpochOfSlot row.Slot == head.HeadEpoch)] ++ steps ∧
        ∀ c ∈ steps, c.isExportStep = true) ∧
    ((∃ e, (d.SetSlotFinalizationAndStatus row.Slot true "3"
        (d.GetBlockHeader row.Slot (stateAtRow d fuel firstRun head earlier s)).2).1 = .error e) →
      (RunSlotExporter d fuel firstRun s).calls =
        callsBeforeRow d fuel firstRun head earlier s ++
          [.GetBlockHeader row.Slot, .SetSlotFinalizationAndStatus row.Slot true "3"] ∧
      (RunSlotExporter d fuel firstRun s).returnsError = true) := by
  obtain ⟨hcalls, hfault⟩ := runSlotExporter_at_row d fuel firstRun head earlier row later s hreach
  obtain ⟨hok, hfail⟩ := reconcileSlot_reorg d fuel head row
    (stateAtRow d fuel firstRun head earlier s) h root hfin hslot hlen hhdr hroot hne
  constructor
  · intro hu
    exact ⟨hcalls, hok hu⟩
  · intro he
    obtain ⟨hbody, herr⟩ := hfail he
    cases hres : (reconcileSlot d fuel head row (stateAtRow d fuel firstRun head earlier s)).result with
    | ok u => simp [Run.returnsError, hres] at herr
    | error f =>
      have hafter : callsAfterRow d fuel head row later (stateAtRow d fuel firstRun head earlier s) = [] := by
        unfold callsAfterRow
        rw [hres]
      refine ⟨?_, ?_⟩
      · rw [hcalls, hbody, hafter, List.append_nil]
      · have htick := hfault f hres
        simpa [Run.returnsError, hres, htick] using herr

/-- Scenario S5 for C2, after a row of scenario S3: the tick reaches the row of
slot 10 with root `R1`, whose header at the node has the root `R2`.  Over a
store that accepts the status update the row is marked and exported.  Over a
store that rejects the status updates, the tick that reaches such a row of slot
10 ends with its status update and returns an error; the row of slot 12 after
it is not looked at. -/
theorem reorg_at_finalisation_witness :
    ((RunSlotExporter scriptTwoRowsReorg.deps 0 false ()).calls =
        callsBeforeRow scriptTwoRowsReorg.deps 0 false headS3 [⟨5, [0], "1", false⟩] () ++
          ((reconcileSlot scriptTwoRowsReorg.deps 0 headS3 ⟨10, rootR1, "1", false⟩
              (stateAtRow scriptTwoRowsReorg.deps 0 false headS3 [⟨5, [0], "1", false⟩] ())).calls ++
            callsAfterRow scriptTwoRowsReorg.deps 0 headS3 ⟨10, rootR1, "1", false⟩ []
              (stateAtRow scriptTwoRowsReorg.deps 0 false headS3 [⟨5, [0], "1", false⟩] ())) ∧
      ∃ steps, (reconcileSlot scriptTwoRowsReorg.deps 0 headS3 ⟨10, rootR1, "1", false⟩
            (stateAtRow scriptTwoRowsReorg.deps 0 false headS3 [⟨5, [0], "1", false⟩] ())).calls =
          [.GetBlockHeader 10, .SetSlotFinalizationAndStatus 10 true "3", .ExportSlot 10 false] ++ steps ∧
        ∀ c ∈ steps, c.isExportStep = true) ∧
    ((RunSlotExporter scriptReorgUpdateFails.deps 0 false ()).calls =
        callsBeforeRow scriptReorgUpdateFails.deps 0 false headS3 [] () ++
          [.GetBlockHeader 10, .SetSlotFinalizationAndStatus 10 true "3"] ∧
      (RunSlotExporter scriptReorgUpdateFails.deps 0 false ()).returnsError = true) :=
  ⟨(reorg_at_finalisation scriptTwoRowsReorg.deps 0 false headS3 [⟨5, [0], "1", false⟩]
      ⟨10, rootR1, "1", false⟩ [] () ⟨"R2"⟩ rootR2 ⟨rfl, rfl, rfl, rfl, rfl⟩ rfl (by decide) (by decide)
      rfl (by decide) (by decide)).1 ⟨(), rfl⟩,
    (reorg_at_finalisation scriptReorgUpdateFails.deps 0 false headS3 [] ⟨10, rootR1, "1", false⟩
      [⟨12, rootR1, "1", false⟩] () ⟨"R2"⟩ rootR2 ⟨rfl, rfl, rfl, rfl, rfl⟩ rfl (by decide) (by decide)
      rfl (by decide) (by decide)).2 ⟨"status update failed", rfl⟩⟩


/-! ### The phases of a tick that returns `nil` -/

/-- A tick that returns `nil`: every phase returned `nil`, and the calls of
the tick are the calls of its phases. -/
theorem runSlotExporter_ok {σ : Type} (d : Deps σ) (fuel : Nat) (firstRun : Bool) (s : σ)
    (hok : (RunSlotExporter d fuel firstRun s).result = .ok ()) :
    (backfillGaps d fuel firstRun s).result = .ok () ∧
    ∃ head, (d.GetChainHead (backfillGaps d fuel firstRun s).state).1 = .ok head ∧
      (catchUpHead d fuel head (d.GetChainHead (backfillGaps d fuel firstRun s).state).2).result = .ok () ∧
      (reconcileNonFinalized d fuel head
        (catchUpHead d fuel head (d.GetChainHead (backfillGaps d fuel firstRun s).state).2).state).result
          = .ok () ∧
      (RunSlotExporter d fuel firstRun s).calls =
        (backfillGaps d fuel firstRun s).calls ++ (.GetChainHead ::
          ((catchUpHead d fuel head (d.GetChainHead (backfillGaps d fuel firstRun s).state).2).calls ++
            (reconcileNonFinalized d fuel head
              (catchUpHead d fuel head
                (d.GetChainHead (backfillGaps d fuel firstRun s).state).2).state).calls)) ∧
      (RunSlotExporter d fuel firstRun s).state =
        (reconcileNonFinalized d fuel head
          (catchUpHead d fuel head (d.GetChainHead (backfillGaps d fuel firstRun s).state).2).state).state := by
  unfold RunSlotExporter at hok ⊢
  rw [bind_run] at hok ⊢
  cases h0 : (backfillGaps d fuel firstRun s).result with
  | error e => simp [h0] at hok
  | ok u0 =>
    simp only [h0] at hok ⊢
    rw [bind_run] at hok ⊢
    simp only [call_run] at hok ⊢
    cases h1 : (d.GetChainHead (backfillGaps d fuel firstRun s).state).1 with
    | error e => simp [h1] at hok
    | ok head =>
      simp only [h1] at hok ⊢
      rw [bind_run] at hok ⊢
      cases h2 : (catchUpHead d fuel head (d.GetChainHead (backfillGaps d fuel firstRun s).state).2).result with
      | error e => simp [h2] at hok
      | ok u2 =>
        simp only [h2] at hok ⊢
        exact ⟨trivial, head, rfl, h2, hok, by simp, rfl⟩

/-- A loop over `xs ++ ys` that returns `nil` returned `nil` on `xs`. -/
theorem forRange_append_left_ok {σ α : Type} (body : α → Exec σ Unit) (xs ys : List α) (s : σ)
    (h : (forRange (xs ++ ys) body s).result = .ok ()) : (forRange xs body s).result = .ok () := by
  induction xs generalizing s with
  | nil => rfl
  | cons x rest ih =>
    cases hx : (body x s).result with
    | error e =>
      rw [List.cons_append, forRange_cons_error x (rest ++ ys) body s e hx] at h
      cases h
    | ok u =>
      rw [List.cons_append, forRange_cons_ok x (rest ++ ys) body s hx] at h
      rw [forRange_cons_ok x rest body s hx]
      exact ih _ h

/-- A tick that returns `nil` reaches every row that `GetAllNonFinalizedSlots`
returned, and the loop body returns `nil` on it. -/
theorem runSlotExporter_ok_reaches {σ : Type} (d : Deps σ) (fuel : Nat) (firstRun : Bool) (s : σ)
    (head : ChainHead) (earlier : List DbSlot) (row : DbSlot) (later : List DbSlot)
    (hok : (RunSlotExporter d fuel firstRun s).result = .ok ())
    (hhead : (d.GetChainHead (backfillGaps d fuel firstRun s).state).1 = .ok head)
    (hrows : (d.GetAllNonFinalizedSlots (stateAtReconcile d fuel firstRun head s)).1 =
      .ok (earlier ++ row :: later)) :
    ReachesRow d fuel firstRun head earlier row later s ∧
      (reconcileSlot d fuel head row (stateAtRow d fuel firstRun head earlier s)).result = .ok () := by
  obtain ⟨hback, head1, hh, hcatch, hrec, -, -⟩ := runSlotExporter_ok d fuel firstRun s hok
  rw [hhead] at hh
  cases hh
  have hloop : (forRange (earlier ++ row :: later) (reconcileSlot d fuel head)
      (d.GetAllNonFinalizedSlots (stateAtReconcile d fuel firstRun head s)).2).result = .ok () := by
    have h : (reconcileNonFinalized d fuel head (stateAtReconcile d fuel firstRun head s)).result =
        .ok () := hrec
    rw [reconcileNonFinalized_rows d fuel head _ _ hrows] at h
    exact h
  have hearlier := forRange_append_left_ok _ earlier (row :: later) _ hloop
  refine ⟨⟨hback, hhead, hcatch, hrows, hearlier⟩, ?_⟩
  rw [forRange_append_ok _ earlier (row :: later) _ hearlier] at hloop
  unfold stateAtRow
  cases hbody : (reconcileSlot d fuel head row
      (forRange earlier (reconcileSlot d fuel head)
        (d.GetAllNonFinalizedSlots (stateAtReconcile d fuel firstRun head s)).2).state).result with
  | error e =>
    rw [forRange_cons_error row later _ _ e hbody] at hloop
    cases hloop
  | ok u => rfl

theorem mem_of_mem_statusUpdates (c : Call) (calls : List Call) (h : c ∈ statusUpdates calls) :
    c ∈ calls :=
  (List.mem_filter.mp h).1

theorem mem_statusUpdates (slot : Nat) (finalized : Bool) (status : String) (calls : List Call)
    (h : Call.SetSlotFinalizationAndStatus slot finalized status ∈ calls) :
    Call.SetSlotFinalizationAndStatus slot finalized status ∈ statusUpdates calls :=
  List.mem_filter.mpr ⟨h, rfl⟩

/-- The loop body marks a newly finalised row when it returns `nil`, unless the
root of the row is longer than 32 bytes and the node answers with a nil header. -/
theorem reconcileSlot_marks {σ : Type} (d : Deps σ) (fuel : Nat) (head : ChainHead) (row : DbSlot) (s : σ)
    (hok : (reconcileSlot d fuel head row s).result = .ok ())
    (hfin : row.Finalized = false) (hslot : row.Slot ≤ head.FinalizedSlot)
    (hcase : row.BlockRoot.length ≤ 32 ∨ (d.GetBlockHeader row.Slot s).1 ≠ .ok none) :
    ∃ st, Call.SetSlotFinalizationAndStatus row.Slot true st ∈ (reconcileSlot d fuel head row s).calls := by
  have hdiff : (decide (row.Slot ≤ head.FinalizedSlot) != row.Finalized) = true := by
    simp [hfin, hslot]
  have hnf : decide (row.Slot ≤ head.FinalizedSlot) = true := by simp [hslot]
  cases hhdr : (d.GetBlockHeader row.Slot s).1 with
  | error e =>
    unfold reconcileSlot at hok
    simp [bind_run, hhdr] at hok
  | ok header =>
    obtain ⟨h1, -, h3, -⟩ := reconcileSlot_transition d fuel head row s header hhdr hdiff
    have hm := h3 hok
    rw [hnf] at h1 hm
    suffices h : ∃ st, Call.SetSlotFinalizationAndStatus row.Slot true st ∈
        statusUpdates (markFinalized d fuel head row header true (d.GetBlockHeader row.Slot s).2).calls by
      obtain ⟨st, hst⟩ := h
      rw [← h1] at hst
      exact ⟨st, mem_of_mem_statusUpdates _ _ hst⟩
    cases header with
    | none =>
      have hlen : row.BlockRoot.length ≤ 32 := by
        rcases hcase with hlen | hne
        · exact hlen
        · exact absurd hhdr hne
      rcases Nat.lt_or_eq_of_le hlen with hlt | heq
      · rw [markFinalized_missed d fuel head row true _ hlt]
        exact ⟨"2", List.mem_singleton.mpr rfl⟩
      · rw [markFinalized_orphaned d fuel head row true _ heq]
        exact ⟨"3", List.mem_singleton.mpr rfl⟩
    | some h =>
      cases hroot : d.MustParseHex h.Root with
      | none =>
        rw [markFinalized_abort d fuel head row true _ h hroot] at hm
        cases hm
      | some root =>
        by_cases hne : row.BlockRoot = root
        · rw [markFinalized_proposed d fuel head row true _ h (hne ▸ hroot)]
          exact ⟨row.Status, List.mem_singleton.mpr rfl⟩
        · cases hset : (d.SetSlotFinalizationAndStatus row.Slot true "3" (d.GetBlockHeader row.Slot s).2).1 with
          | error e =>
            rw [(markFinalized_reorg_update_fails d fuel head row true _ h root hroot hne e hset).1]
            exact ⟨"3", List.mem_singleton.mpr rfl⟩
          | ok u =>
            rw [(markFinalized_reorg_update_ok d fuel head row true _ h root hroot hne u hset).1]
            exact ⟨"3", mem_statusUpdates _ _ _ _ (List.mem_cons_self _ _)⟩

/-- C3, the case that the code misses: `GetAllNonFinalizedSlots` returns the
non-final row of slot 10 with a root of 33 bytes, the head is finalised up to
slot 20 and the node has no header at slot 10.  The chain of lines 99-131 has
no branch for this row: the tick returns `nil` and issues no
`SetSlotFinalizationAndStatus` call at all, where the comment of line 98 says
that the slot is marked in the database. -/
theorem finalisation_completeness_missed_case :
    (scriptLongRoot.deps.GetAllNonFinalizedSlots ()).1 = .ok [⟨10, List.replicate 33 1, "1", false⟩] ∧
      (scriptLongRoot.deps.GetChainHead ()).1 = .ok headS3 ∧ 10 ≤ headS3.FinalizedSlot ∧
      (scriptLongRoot.deps.GetBlockHeader 10 ()).1 = .ok none ∧
      (RunSlotExporter scriptLongRoot.deps 0 false ()).result = .ok () ∧
      (RunSlotExporter scriptLongRoot.deps 0 false ()).calls =
        [.GetChainHead, .GetLastSlot, .GetAllNonFinalizedSlots, .GetBlockHeader 10] ∧
      ¬ ∃ st, Call.SetSlotFinalizationAndStatus 10 true st ∈
        (RunSlotExporter scriptLongRoot.deps 0 false ()).calls := by
  have hcalls : (RunSlotExporter scriptLongRoot.deps 0 false ()).calls =
      [.GetChainHead, .GetLastSlot, .GetAllNonFinalizedSlots, .GetBlockHeader 10] := by rfl
  refine ⟨rfl, rfl, by decide, rfl, by rfl, hcalls, ?_⟩
  rintro ⟨st, hst⟩
  rw [hcalls] at hst
  simp at hst

/-- Outside the missed case the tick marks every finalised row: in a tick that
returns `nil`, a row returned by `GetAllNonFinalizedSlots` with
`finalized = false` and `slot ≤ head.finalized_slot` gets a call
`SetSlotFinalizationAndStatus(slot, true, _)`, unless its root is longer than
32 bytes and the node answers with a nil header. -/
theorem finalisation_of_handled_rows {σ : Type} (d : Deps σ) (fuel : Nat) (firstRun : Bool) (s : σ)
    (head : ChainHead) (earlier : List DbSlot) (row : DbSlot) (later : List DbSlot)
    (hok : (RunSlotExporter d fuel firstRun s).result = .ok ())
    (hhead : (d.GetChainHead (backfillGaps d fuel firstRun s).state).1 = .ok head)
    (hrows : (d.GetAllNonFinalizedSlots (stateAtReconcile d fuel firstRun head s)).1 =
      .ok (earlier ++ row :: later))
    (hfin : row.Finalized = false) (hslot : row.Slot ≤ head.FinalizedSlot)
    (hcase : row.BlockRoot.length ≤ 32 ∨
      (d.GetBlockHeader row.Slot (stateAtRow d fuel firstRun head earlier s)).1 ≠ .ok none) :
    ∃ st, Call.SetSlotFinalizationAndStatus row.Slot true st ∈ (RunSlotExporter d fuel firstRun s).calls := by
  obtain ⟨hreach, hbody⟩ := runSlotExporter_ok_reaches d fuel firstRun s head earlier row later hok hhead hrows
  obtain ⟨st, hst⟩ := reconcileSlot_marks d fuel head row _ hbody hfin hslot hcase
  refine ⟨st, ?_⟩
  rw [(runSlotExporter_at_row d fuel firstRun head earlier row later s hreach).1]
  exact List.mem_append_right _ (List.mem_append_left _ hst)

/-- Scenario S3: the tick marks the row of slot 10, which has a sentinel root. -/
theorem finalisation_of_handled_rows_S3 :
    ∃ st, Call.SetSlotFinalizationAndStatus 10 true st ∈ (RunSlotExporter scriptS3.deps 0 false ()).calls :=
  finalisation_of_handled_rows scriptS3.deps 0 false () headS3 [] ⟨10, [0], "1", false⟩ []
    rfl rfl rfl rfl (by decide) (Or.inl (by decide))

/-- The loop body when the header fetch fails. -/
theorem reconcileSlot_header_error {σ : Type} (d : Deps σ) (fuel : Nat) (head : ChainHead) (row : DbSlot)
    (s : σ) (e : String) (hhdr : (d.GetBlockHeader row.Slot s).1 = .error e) :
    (reconcileSlot d fuel head row s).calls = [.GetBlockHeader row.Slot] := by
  unfold reconcileSlot
  simp [bind_run, hhdr]

/-- Every status update of the loop body comes from one of the four branches of
lines 99-131. -/
theorem reconcileSlot_statusUpdates_cases {σ : Type} (d : Deps σ) (fuel : Nat) (head : ChainHead)
    (row : DbSlot) (s : σ) (c : Call) (hc : c ∈ statusUpdates (reconcileSlot d fuel head row s).calls) :
    ∃ st, c = .SetSlotFinalizationAndStatus row.Slot (decide (row.Slot ≤ head.FinalizedSlot)) st ∧
      ((∃ h, (d.GetBlockHeader row.Slot s).1 = .ok (some h) ∧
          d.MustParseHex h.Root = some row.BlockRoot ∧ st = row.Status) ∨
        ((d.GetBlockHeader row.Slot s).1 = .ok none ∧ row.BlockRoot.length < 32 ∧ st = "2") ∨
        ((d.GetBlockHeader row.Slot s).1 = .ok none ∧ row.BlockRoot.length = 32 ∧ st = "3") ∨
        (∃ h root, (d.GetBlockHeader row.Slot s).1 = .ok (some h) ∧
          d.MustParseHex h.Root = some root ∧ row.BlockRoot ≠ root ∧ st = "3")) := by
  cases hhdr : (d.GetBlockHeader row.Slot s).1 with
  | error e =>
    rw [reconcileSlot_header_error d fuel head row s e hhdr] at hc
    simp [statusUpdates] at hc
  | ok header =>
    cases hdiff : (decide (row.Slot ≤ head.FinalizedSlot) != row.Finalized) with
    | false =>
      rw [reconcileSlot_steady_calls d fuel head row s header hhdr hdiff] at hc
      exfalso
      split at hc
      · have h0 := exportSlot_statusUpdates d fuel row.Slot (d.EpochOfSlot row.Slot == head.HeadEpoch)
          (d.GetBlockHeader row.Slot s).2
        have h1 : statusUpdates (Call.GetBlockHeader row.Slot ::
            (ExportSlot d fuel row.Slot (d.EpochOfSlot row.Slot == head.HeadEpoch)
              (d.GetBlockHeader row.Slot s).2).calls) = [] := h0
        rw [h1] at hc
        cases hc
      · simp [statusUpdates] at hc
    | true =>
      rw [(reconcileSlot_transition d fuel head row s header hhdr hdiff).1] at hc
      generalize decide (row.Slot ≤ head.FinalizedSlot) = nf at hc ⊢
      cases header with
      | none =>
        rcases Nat.lt_trichotomy row.BlockRoot.length 32 with hlt | heq | hgt
        · rw [markFinalized_missed d fuel head row nf _ hlt] at hc
          exact ⟨"2", List.mem_singleton.mp hc, Or.inr (Or.inl ⟨rfl, hlt, rfl⟩)⟩
        · rw [markFinalized_orphaned d fuel head row nf _ heq] at hc
          exact ⟨"3", List.mem_singleton.mp hc, Or.inr (Or.inr (Or.inl ⟨rfl, heq, rfl⟩))⟩
        · rw [markFinalized_long_root d fuel head row nf _ hgt] at hc
          cases hc
      | some h =>
        cases hroot : d.MustParseHex h.Root with
        | none =>
          rw [markFinalized_abort d fuel head row nf _ h hroot] at hc
          cases hc
        | some root =>
          by_cases hne : row.BlockRoot = root
          · rw [markFinalized_proposed d fuel head row nf _ h (hne ▸ hroot)] at hc
            exact ⟨row.Status, List.mem_singleton.mp hc, Or.inl ⟨h, rfl, hne ▸ hroot, rfl⟩⟩
          · refine ⟨"3", ?_, Or.inr (Or.inr (Or.inr ⟨h, root, rfl, hroot, hne, rfl⟩))⟩
            cases hset : (d.SetSlotFinalizationAndStatus row.Slot nf "3" (d.GetBlockHeader row.Slot s).2).1 with
            | error e =>
              rw [(markFinalized_reorg_update_fails d fuel head row nf _ h root hroot hne e hset).1] at hc
              exact List.mem_singleton.mp hc
            | ok u =>
              rw [(markFinalized_reorg_update_ok d fuel head row nf _ h root hroot hne u hset).1] at hc
              have h0 := exportSlot_statusUpdates d fuel row.Slot (d.EpochOfSlot row.Slot == head.HeadEpoch)
                (d.SetSlotFinalizationAndStatus row.Slot nf "3" (d.GetBlockHeader row.Slot s).2).2
              have h1 : statusUpdates (Call.SetSlotFinalizationAndStatus row.Slot nf "3" ::
                  (ExportSlot d fuel row.Slot (d.EpochOfSlot row.Slot == head.HeadEpoch)
                    (d.SetSlotFinalizationAndStatus row.Slot nf "3"
                      (d.GetBlockHeader row.Slot s).2).2).calls) =
                  Call.SetSlotFinalizationAndStatus row.Slot nf "3" ::
                    statusUpdates (ExportSlot d fuel row.Slot (d.EpochOfSlot row.Slot == head.HeadEpoch)
                      (d.SetSlotFinalizationAndStatus row.Slot nf "3"
                        (d.GetBlockHeader row.Slot s).2).2).calls := rfl
              rw [h1, h0] at hc
              exact List.mem_singleton.mp hc

/-- C4, refuted as stated: the tick over a finalised row with the sentinel root
`[0]` and a header with root `R2` at the node issues
`SetSlotFinalizationAndStatus(10, true, "3")`, although the root of the row
does not have 32 bytes. -/
theorem orphaned_only_with_block_counterexample :
    ∃ row ∈ scriptLateBlock.nonFinalized,
      Call.SetSlotFinalizationAndStatus row.Slot true "3" ∈
        (RunSlotExporter scriptLateBlock.deps 0 false ()).calls ∧
      row.BlockRoot.length ≠ 32 := by
  refine ⟨⟨10, [0], "2", false⟩, List.mem_singleton.mpr rfl, ?_, by decide⟩
  have hcalls : (RunSlotExporter scriptLateBlock.deps 0 false ()).calls =
      [.GetChainHead, .GetLastSlot, .GetAllNonFinalizedSlots, .GetBlockHeader 10,
        .SetSlotFinalizationAndStatus 10 true "3", .ExportSlot 10 false, .GetBlockBySlot 10,
        .SaveAttestationDuties [], .SaveSyncComitteeDuties [(10, [])],
        .SaveProposal (plainBlock 10 rootR2), .SaveBlock (plainBlock 10 rootR2)] := by rfl
  rw [hcalls]
  simp

/-- C4, amended: whenever the loop body issues
`SetSlotFinalizationAndStatus(_, _, "3")` for a row, either the root of the row
has 32 bytes, or the node header is present and its root differs from the root
of the row (the branch of lines 120-131, which does not test the length), or
the header is present with the root of the row and the stored status is
already `"3"`. -/
theorem orphaned_only_with_block {σ : Type} (d : Deps σ) (fuel : Nat) (head : ChainHead)
    (row : DbSlot) (s : σ) (slot : Nat) (finalized : Bool)
    (hc : Call.SetSlotFinalizationAndStatus slot finalized "3" ∈ (reconcileSlot d fuel head row s).calls) :
    row.BlockRoot.length = 32 ∨
      ∃ h root, (d.GetBlockHeader row.Slot s).1 = .ok (some h) ∧ d.MustParseHex h.Root = some root ∧
        (row.BlockRoot ≠ root ∨ row.Status = "3") := by
  obtain ⟨st, hst, hcases⟩ := reconcileSlot_statusUpdates_cases d fuel head row s _
    (mem_statusUpdates _ _ _ _ hc)
  have h3 : st = "3" := by
    cases hst
    rfl
  subst h3
  rcases hcases with ⟨h, hh, hroot, hs⟩ | ⟨-, -, hs⟩ | ⟨-, hlen, -⟩ | ⟨h, root, hh, hroot, hne, -⟩
  · exact Or.inr ⟨h, row.BlockRoot, hh, hroot, Or.inr hs.symm⟩
  · exact absurd hs (by decide)
  · exact Or.inl hlen
  · exact Or.inr ⟨h, root, hh, hroot, Or.inl hne⟩

/-- Scenario S4 for C4: the status update `"3"` of the row with root `R1`. -/
theorem orphaned_only_with_block_witness :
    rootR1.length = 32 ∨
      ∃ h root, (scriptS4.deps.GetBlockHeader 10 ()).1 = .ok (some h) ∧
        scriptS4.deps.MustParseHex h.Root = some root ∧ (rootR1 ≠ root ∨ "1" = "3") :=
  orphaned_only_with_block scriptS4.deps 0 headS3 ⟨10, rootR1, "1", false⟩ () 10 true (by decide)

/-- The loop body on a row with `finalized = false` and
`slot > head.finalized_slot` (lines 148-155): no status update, and one call
`ExportSlot(slot, epoch_of(slot) == head.head_epoch)` if and only if the root of
the row is shorter than 32 bytes and the node header is present. -/
theorem reconcileSlot_still_nonfinal {σ : Type} (d : Deps σ) (fuel : Nat) (head : ChainHead)
    (row : DbSlot) (s : σ)
    (hfin : row.Finalized = false) (hslot : head.FinalizedSlot < row.Slot) :
    statusUpdates (reconcileSlot d fuel head row s).calls = [] ∧
      ((row.BlockRoot.length < 32 ∧ ∃ h, (d.GetBlockHeader row.Slot s).1 = .ok (some h)) →
        exportCalls (reconcileSlot d fuel head row s).calls =
          [(row.Slot, d.EpochOfSlot row.Slot == head.HeadEpoch)]) ∧
      (¬ (row.BlockRoot.length < 32 ∧ ∃ h, (d.GetBlockHeader row.Slot s).1 = .ok (some h)) →
        exportCalls (reconcileSlot d fuel head row s).calls = []) := by
  have hsame : (decide (row.Slot ≤ head.FinalizedSlot) != row.Finalized) = false := by
    have : ¬ row.Slot ≤ head.FinalizedSlot := by omega
    simp [hfin, this]
  cases hhdr : (d.GetBlockHeader row.Slot s).1 with
  | error e =>
    rw [reconcileSlot_header_error d fuel head row s e hhdr]
    refine ⟨rfl, ?_, fun _ => rfl⟩
    rintro ⟨-, h, hh⟩
    cases hh
  | ok header =>
    rw [reconcileSlot_steady_calls d fuel head row s header hhdr hsame]
    have hs := exportSlot_statusUpdates d fuel row.Slot (d.EpochOfSlot row.Slot == head.HeadEpoch)
      (d.GetBlockHeader row.Slot s).2
    have he := exportSlot_exportCalls d fuel row.Slot (d.EpochOfSlot row.Slot == head.HeadEpoch)
      (d.GetBlockHeader row.Slot s).2
    cases header with
    | none =>
      refine ⟨by simp [statusUpdates], ?_, fun _ => by simp [exportCalls]⟩
      rintro ⟨-, h, hh⟩
      cases hh
    | some h =>
      by_cases hlen : row.BlockRoot.length < 32
      · simp only [hlen, Option.isSome_some, and_self, if_true]
        refine ⟨hs, fun _ => he, ?_⟩
        intro hn
        exact absurd ⟨trivial, h, rfl⟩ hn
      · simp only [hlen, false_and, if_false]
        exact ⟨rfl, fun hn => absurd hn (fun x => x), fun _ => rfl⟩

/-- C5, refuted as stated: the node fails to return the header of slot 35, the
first of the two rows that `GetAllNonFinalizedSlots` returns.  The tick returns
an error after that fetch; the row of slot 40, not finalised, above the
finalised slot 30, with a sentinel root and a header at the node, is not
exported. -/
theorem late_proposal_counterexample :
    ((scriptTwoRowsLate.depsHeaderFails 35).GetAllNonFinalizedSlots ()).1 =
        .ok [⟨35, rootR1, "1", false⟩, ⟨40, [0], "2", false⟩] ∧
      (headS6.FinalizedSlot < 40 ∧ ([0] : Bytes).length < 32 ∧
        ((scriptTwoRowsLate.depsHeaderFails 35).GetBlockHeader 40 ()).1 = .ok (some ⟨"R2"⟩)) ∧
      (RunSlotExporter (scriptTwoRowsLate.depsHeaderFails 35) 0 false ()).calls =
        [.GetChainHead, .GetLastSlot, .GetAllNonFinalizedSlots, .GetBlockHeader 35] ∧
      exportCalls (RunSlotExporter (scriptTwoRowsLate.depsHeaderFails 35) 0 false ()).calls = [] := by
  have hcalls : (RunSlotExporter (scriptTwoRowsLate.depsHeaderFails 35) 0 false ()).calls =
      [.GetChainHead, .GetLastSlot, .GetAllNonFinalizedSlots, .GetBlockHeader 35] := by rfl
  refine ⟨rfl, ⟨by decide, by decide, rfl⟩, hcalls, ?_⟩
  rw [hcalls]
  rfl

/-- C5, amended: for every row that the reconciliation loop of the tick
reaches, with `finalized = false` and `slot > head.finalized_slot`, the calls
of `RunSlotExporter` are the calls before the row, the calls for the row and
the calls after the row; the calls for the row have no status update, and they
have one call `ExportSlot(slot, epoch_of(slot) == head.head_epoch)` if and only
if the root of the row is shorter than 32 bytes and the node header is present,
and no `ExportSlot` call otherwise. -/
theorem late_proposal {σ : Type} (d : Deps σ) (fuel : Nat) (firstRun : Bool) (head : ChainHead)
    (earlier : List DbSlot) (row : DbSlot) (later : List DbSlot) (s : σ)
    (hreach : ReachesRow d fuel firstRun head earlier row later s)
    (hfin : row.Finalized = false) (hslot : head.FinalizedSlot < row.Slot) :
    (RunSlotExporter d fuel firstRun s).calls =
        callsBeforeRow d fuel firstRun head earlier s ++
          ((reconcileSlot d fuel head row (stateAtRow d fuel firstRun head earlier s)).calls ++
            callsAfterRow d fuel head row later (stateAtRow d fuel firstRun head earlier s)) ∧
      statusUpdates (reconcileSlot d fuel head row (stateAtRow d fuel firstRun head earlier s)).calls = [] ∧
      ((row.BlockRoot.length < 32 ∧
          ∃ h, (d.GetBlockHeader row.Slot (stateAtRow d fuel firstRun head earlier s)).1 = .ok (some h)) →
        exportCalls (reconcileSlot d fuel head row (stateAtRow d fuel firstRun head earlier s)).calls =
          [(row.Slot, d.EpochOfSlot row.Slot == head.HeadEpoch)]) ∧
      (¬ (row.BlockRoot.length < 32 ∧
          ∃ h, (d.GetBlockHeader row.Slot (stateAtRow d fuel firstRun head earlier s)).1 = .ok (some h)) →
        exportCalls (reconcileSlot d fuel head row (stateAtRow d fuel firstRun head earlier s)).calls = []) :=
  ⟨(runSlotExporter_at_row d fuel firstRun head earlier row later s hreach).1,
    reconcileSlot_still_nonfinal d fuel head row (stateAtRow d fuel firstRun head earlier s) hfin hslot⟩

/-- Scenario S6 for C5, after a row with a block that the node no longer
reports: the tick reaches the row of slot 40 with a sentinel root and a header
at the node; the row is exported and not marked, and the row of slot 35 before
it is left untouched. -/
theorem late_proposal_witness :
    (RunSlotExporter scriptTwoRowsLate.deps 0 false ()).calls =
        [.GetChainHead, .GetLastSlot, .GetAllNonFinalizedSlots, .GetBlockHeader 35] ++
          ((reconcileSlot scriptTwoRowsLate.deps 0 headS6 ⟨40, [0], "2", false⟩
              (stateAtRow scriptTwoRowsLate.deps 0 false headS6 [⟨35, rootR1, "1", false⟩] ())).calls ++
            []) ∧
      statusUpdates (reconcileSlot scriptTwoRowsLate.deps 0 headS6 ⟨40, [0], "2", false⟩
          (stateAtRow scriptTwoRowsLate.deps 0 false headS6 [⟨35, rootR1, "1", false⟩] ())).calls = [] ∧
      ((([0] : Bytes).length < 32 ∧
          ∃ h, (scriptTwoRowsLate.deps.GetBlockHeader 40
            (stateAtRow scriptTwoRowsLate.deps 0 false headS6 [⟨35, rootR1, "1", false⟩] ())).1 =
              .ok (some h)) →
        exportCalls (reconcileSlot scriptTwoRowsLate.deps 0 headS6 ⟨40, [0], "2", false⟩
            (stateAtRow scriptTwoRowsLate.deps 0 false headS6 [⟨35, rootR1, "1", false⟩] ())).calls =
          [(40, false)]) ∧
      (¬ (([0] : Bytes).length < 32 ∧
          ∃ h, (scriptTwoRowsLate.deps.GetBlockHeader 40
            (stateAtRow scriptTwoRowsLate.deps 0 false headS6 [⟨35, rootR1, "1", false⟩] ())).1 =
              .ok (some h)) →
        exportCalls (reconcileSlot scriptTwoRowsLate.deps 0 headS6 ⟨40, [0], "2", false⟩
            (stateAtRow scriptTwoRowsLate.deps 0 false headS6 [⟨35, rootR1, "1", false⟩] ())).calls = []) :=
  late_proposal scriptTwoRowsLate.deps 0 false headS6 [⟨35, rootR1, "1", false⟩] ⟨40, [0], "2", false⟩ []
    () ⟨rfl, rfl, rfl, rfl, rfl⟩ rfl (by decide)

/-- C9, refuted as stated: the tick over a finalised row with stored status
`"3"`, the sentinel root `[0]` and no header at the node issues
`SetSlotFinalizationAndStatus(10, true, "2")`. -/
theorem orphaned_never_regresses_counterexample :
    ∃ row ∈ scriptOrphanSentinel.nonFinalized, row.Status = "3" ∧
      Call.SetSlotFinalizationAndStatus row.Slot true "2" ∈
        (RunSlotExporter scriptOrphanSentinel.deps 0 false ()).calls := by
  refine ⟨⟨10, [0], "3", false⟩, List.mem_singleton.mpr rfl, rfl, ?_⟩
  have hcalls : (RunSlotExporter scriptOrphanSentinel.deps 0 false ()).calls =
      [.GetChainHead, .GetLastSlot, .GetAllNonFinalizedSlots, .GetBlockHeader 10,
        .SetSlotFinalizationAndStatus 10 true "2"] := by rfl
  rw [hcalls]
  simp

/-- C9, amended: for a row whose stored status is `"3"`, when the root of the
row has at least 32 bytes or the node does not answer with a nil header, every
`SetSlotFinalizationAndStatus` call that the loop body issues carries status
`"3"`. -/
theorem orphaned_never_regresses {σ : Type} (d : Deps σ) (fuel : Nat) (head : ChainHead)
    (row : DbSlot) (s : σ)
    (hstatus : row.Status = "3")
    (hcase : 32 ≤ row.BlockRoot.length ∨ (d.GetBlockHeader row.Slot s).1 ≠ .ok none) :
    ∀ slot finalized status,
      Call.SetSlotFinalizationAndStatus slot finalized status ∈ (reconcileSlot d fuel head row s).calls →
      slot = row.Slot ∧ status = "3" := by
  intro slot finalized status hc
  obtain ⟨st, hst, hcases⟩ := reconcileSlot_statusUpdates_cases d fuel head row s _
    (mem_statusUpdates _ _ _ _ hc)
  have h3 : slot = row.Slot ∧ status = st := by
    cases hst
    exact ⟨rfl, rfl⟩
  refine ⟨h3.1, ?_⟩
  rw [h3.2]
  rcases hcases with ⟨h, -, -, hs⟩ | ⟨hh, hlen, -⟩ | ⟨-, -, hs⟩ | ⟨h, root, -, -, -, hs⟩
  · rw [hs, hstatus]
  · rcases hcase with h32 | hnone
    · omega
    · exact absurd hh hnone
  · exact hs
  · exact hs

/-- A row with status `"3"` and the root `R1`, no header at the node: the
status update that the loop body issues for slot 10 carries `"3"`. -/
theorem orphaned_never_regresses_witness :
    Call.SetSlotFinalizationAndStatus 10 true "3" ∈
        (reconcileSlot scriptS4.deps 0 headS3 ⟨10, rootR1, "3", false⟩ ()).calls ∧
      (10 = 10 ∧ "3" = "3") :=
  ⟨by decide,
    orphaned_never_regresses scriptS4.deps 0 headS3 ⟨10, rootR1, "3", false⟩ () rfl (Or.inl (by decide))
      10 true "3" (by decide)⟩

/-! ### Gap back-fill -/

theorem subU64_one (b : Nat) (h1 : 0 < b) (h2 : b < twoPow64) : subU64 b 1 = b - 1 := by
  unfold subU64 twoPow64 at *
  omega

theorem addU64_one (a : Nat) (h : a + 1 < twoPow64) : addU64 a 1 = a + 1 := by
  unfold addU64 twoPow64 at *
  omega

/-- The run returned `nil`, as a proposition. -/
theorem returnsNil_iff {σ : Type} (r : Run σ Unit) : r.returnsNil = true ↔ r.result = .ok () := by
  unfold Run.returnsNil
  cases r.result with
  | ok u => simp
  | error e => simp

/-- The exports of `xs ++ ys` succeed when those of `xs` succeed and then those of `ys`. -/
theorem exportsSucceed_append {σ : Type} (d : Deps σ) (fuel : Nat) (flag : Nat → Bool)
    (xs ys : List Nat) (s : σ) :
    exportsSucceed d fuel flag (xs ++ ys) s =
      (exportsSucceed d fuel flag xs s &&
        exportsSucceed d fuel flag ys (stateAfterExports d fuel flag xs s)) := by
  induction xs generalizing s with
  | nil => simp [exportsSucceed, stateAfterExports]
  | cons x rest ih => simp [exportsSucceed, stateAfterExports, ih, Bool.and_assoc]

theorem exportSlot_wrapped_ok {σ : Type} (d : Deps σ) (fuel slot : Nat) (isHeadEpoch : Bool) (s : σ)
    (h : (ExportSlot d fuel slot isHeadEpoch s).result = .ok ()) :
    (wrapError "error exporting slot: " (ExportSlot d fuel slot isHeadEpoch) s).result = .ok () :=
  (wrapError_result_ok _ _ _ _).mpr h

theorem exportSlot_wrapped_exportCalls {σ : Type} (d : Deps σ) (fuel slot : Nat) (isHeadEpoch : Bool) (s : σ) :
    exportCalls (wrapError "error exporting slot: " (ExportSlot d fuel slot isHeadEpoch) s).calls =
      [(slot, isHeadEpoch)] := by
  rw [wrapError_calls]
  exact exportSlot_exportCalls d fuel slot isHeadEpoch s

/-- A loop of exports over `lo, ..., hi` in which every export succeeds: it
returns `nil` after exporting the slots in order. -/
theorem forSlots_exports {σ : Type} (d : Deps σ) (fuel : Nat) (flag : Nat → Bool) (n : Nat) :
    ∀ (loopFuel lo hi : Nat) (s : σ), hi + 1 = lo + n → hi + 1 < twoPow64 → n < loopFuel →
      exportsSucceed d fuel flag (List.range' lo n) s = true →
      (forSlots loopFuel lo hi (fun slot =>
        wrapError "error exporting slot: " (ExportSlot d fuel slot (flag slot))) s).result = .ok () ∧
      (forSlots loopFuel lo hi (fun slot =>
        wrapError "error exporting slot: " (ExportSlot d fuel slot (flag slot))) s).state =
          stateAfterExports d fuel flag (List.range' lo n) s ∧
      exportCalls (forSlots loopFuel lo hi (fun slot =>
        wrapError "error exporting slot: " (ExportSlot d fuel slot (flag slot))) s).calls =
          (List.range' lo n).map (fun x => (x, flag x)) := by
  induction n with
  | zero =>
    intro loopFuel lo hi s h1 _ h3 _
    obtain ⟨k, rfl⟩ : ∃ k, loopFuel = k + 1 := ⟨loopFuel - 1, by omega⟩
    have hlt : ¬ lo ≤ hi := by omega
    unfold forSlots
    simp [hlt, exportCalls, stateAfterExports]
  | succ n ih =>
    intro loopFuel lo hi s h1 h2 h3 hsucc
    obtain ⟨k, rfl⟩ : ∃ k, loopFuel = k + 1 := ⟨loopFuel - 1, by omega⟩
    have hle : lo ≤ hi := by omega
    have hadd : addU64 lo 1 = lo + 1 := addU64_one lo (by omega)
    rw [List.range'_succ] at hsucc ⊢
    simp only [exportsSucceed, Bool.and_eq_true, returnsNil_iff] at hsucc
    obtain ⟨hfirst, hrest⟩ := hsucc
    have hw := exportSlot_wrapped_ok d fuel lo (flag lo) s hfirst
    obtain ⟨r1, r2, r3⟩ := ih k (lo + 1) hi (ExportSlot d fuel lo (flag lo) s).state
      (by omega) h2 (by omega) hrest
    unfold forSlots
    simp only [hle, if_true]
    rw [bind_run_ok _ _ _ () hw, hadd, wrapError_state]
    refine ⟨r1, r2, ?_⟩
    show exportCalls (_ ++ _) = _
    rw [exportCalls_append, exportSlot_wrapped_exportCalls, r3]
    rfl

/-- The loop over the adjacent pairs exports the slots of the gaps, in order,
when every one of these exports succeeds. -/
theorem exportGaps_exports {σ : Type} (d : Deps σ) (fuel : Nat)
    (dbSlots : List DbSlot) : ∀ (s : σ),
      (dbSlots.map (fun x => x.Slot)).Pairwise (fun a b => a < b) →
      (∀ x ∈ dbSlots, x.Slot < twoPow64) → (∀ x ∈ dbSlots, x.Slot < fuel) →
      exportsSucceed d fuel (fun _ => false) (gapSlots (dbSlots.map (fun x => x.Slot))) s = true →
      (exportGaps d fuel dbSlots s).result = .ok () ∧
      exportCalls (exportGaps d fuel dbSlots s).calls =
        (gapSlots (dbSlots.map (fun x => x.Slot))).map (fun x => (x, false)) := by
  induction dbSlots with
  | nil =>
    intro s _ _ _ _
    unfold exportGaps
    simp [gapSlots, exportCalls]
  | cons a rest ih =>
    intro s hasc hbound hfuel hsucc
    cases rest with
    | nil =>
      unfold exportGaps
      simp [gapSlots, exportCalls]
    | cons b rest =>
      simp only [List.map_cons] at hasc hsucc
      have hab : a.Slot < b.Slot := List.rel_of_pairwise_cons hasc (List.mem_cons_self _ _)
      have hb64 : b.Slot < twoPow64 := hbound b (by simp)
      have hbf : b.Slot < fuel := hfuel b (by simp)
      have hsub : subU64 b.Slot 1 = b.Slot - 1 := subU64_one _ (by omega) hb64
      have hadd : addU64 a.Slot 1 = a.Slot + 1 := addU64_one _ (by omega)
      have hsplit : exportsSucceed d fuel (fun _ => false)
            (List.range' (a.Slot + 1) (b.Slot - (a.Slot + 1))) s = true ∧
          exportsSucceed d fuel (fun _ => false) (gapSlots (b.Slot :: rest.map (fun x => x.Slot)))
            (stateAfterExports d fuel (fun _ => false)
              (List.range' (a.Slot + 1) (b.Slot - (a.Slot + 1))) s) = true := by
        have h := hsucc
        unfold gapSlots at h
        rw [exportsSucceed_append, Bool.and_eq_true] at h
        exact h
      unfold exportGaps
      simp only [hsub, hadd]
      have hfirst :
          ((if a.Slot ≠ b.Slot - 1 then
              forSlots fuel (a.Slot + 1) (b.Slot - 1) (fun slot =>
                wrapError "error exporting slot: " (ExportSlot d fuel slot false))
            else pure ()) s).result = .ok () ∧
          ((if a.Slot ≠ b.Slot - 1 then
              forSlots fuel (a.Slot + 1) (b.Slot - 1) (fun slot =>
                wrapError "error exporting slot: " (ExportSlot d fuel slot false))
            else pure ()) s).state =
            stateAfterExports d fuel (fun _ => false)
              (List.range' (a.Slot + 1) (b.Slot - (a.Slot + 1))) s ∧
          exportCalls ((if a.Slot ≠ b.Slot - 1 then
              forSlots fuel (a.Slot + 1) (b.Slot - 1) (fun slot =>
                wrapError "error exporting slot: " (ExportSlot d fuel slot false))
            else pure ()) s).calls =
            (List.range' (a.Slot + 1) (b.Slot - (a.Slot + 1))).map (fun x => (x, false)) := by
        by_cases hgap : a.Slot ≠ b.Slot - 1
        · rw [if_pos hgap]
          exact forSlots_exports d fuel (fun _ => false)
            (b.Slot - (a.Slot + 1)) fuel (a.Slot + 1) (b.Slot - 1) s (by omega) (by omega) (by omega)
            hsplit.1
        · have h0 : b.Slot - (a.Slot + 1) = 0 := by omega
          rw [if_neg hgap, h0]
          simp [exportCalls, stateAfterExports]
      obtain ⟨f1, f2, f3⟩ := hfirst
      rw [bind_run_ok _ _ _ () f1]
      have htail := ih ((if a.Slot ≠ b.Slot - 1 then
              forSlots fuel (a.Slot + 1) (b.Slot - 1) (fun slot =>
                wrapError "error exporting slot: " (ExportSlot d fuel slot false))
            else pure ()) s).state (List.Pairwise.of_cons hasc)
        (fun x hx => hbound x (List.mem_cons_of_mem _ hx)) (fun x hx => hfuel x (List.mem_cons_of_mem _ hx))
        (by rw [f2]; exact hsplit.2)
      obtain ⟨t1, t2⟩ := htail
      refine ⟨t1, ?_⟩
      show exportCalls (_ ++ _) = _
      rw [exportCalls_append, f3, t2]
      simp [gapSlots]

theorem le_lastOf (rest : List Nat) : ∀ (first : Nat),
    (first :: rest).Pairwise (fun a b => a < b) → ∀ x ∈ first :: rest, x ≤ lastOf rest first := by
  induction rest with
  | nil =>
    intro first _ x hx
    rw [List.mem_singleton] at hx
    subst hx
    exact Nat.le_refl _
  | cons next more ih =>
    intro first hasc x hx
    have hfn : first < next := List.rel_of_pairwise_cons hasc (List.mem_cons_self _ _)
    have h1 := ih next (List.Pairwise.of_cons hasc)
    show x ≤ lastOf more next
    rcases List.mem_cons.mp hx with rfl | hx
    · exact Nat.le_trans (Nat.le_of_lt hfn) (h1 next (List.mem_cons_self _ _))
    · exact h1 x hx

theorem mem_gapSlots (rest : List Nat) : ∀ (first : Nat),
    (first :: rest).Pairwise (fun a b => a < b) →
    ∀ x, x ∈ gapSlots (first :: rest) ↔ first < x ∧ x < lastOf rest first ∧ x ∉ first :: rest := by
  induction rest with
  | nil =>
    intro first _ x
    simp only [gapSlots, lastOf, List.not_mem_nil, false_iff]
    omega
  | cons next more ih =>
    intro first hasc x
    have hfn : first < next := List.rel_of_pairwise_cons hasc (List.mem_cons_self _ _)
    have htail := List.Pairwise.of_cons hasc
    have hle := le_lastOf more next htail
    have hgt : ∀ y ∈ more, next < y := fun y hy => List.rel_of_pairwise_cons htail hy
    have h1 := ih next htail x
    show x ∈ List.range' (first + 1) (next - (first + 1)) ++ gapSlots (next :: more) ↔
      first < x ∧ x < lastOf more next ∧ x ∉ first :: next :: more
    rw [List.mem_append, h1, List.mem_range'_1]
    have hlast := hle next (List.mem_cons_self _ _)
    constructor
    · rintro (⟨h2, h3⟩ | ⟨h2, h3, h4⟩)
      · refine ⟨by omega, by omega, ?_⟩
        intro hmem
        rcases List.mem_cons.mp hmem with rfl | hmem
        · omega
        · rcases List.mem_cons.mp hmem with rfl | hmem
          · omega
          · have := hgt x hmem
            omega
      · refine ⟨by omega, h3, ?_⟩
        intro hmem
        rcases List.mem_cons.mp hmem with rfl | hmem
        · omega
        · exact h4 hmem
    · rintro ⟨h2, h3, h4⟩
      have h5 : x ∉ next :: more := fun hmem => h4 (List.mem_cons_of_mem _ hmem)
      have h6 : x ≠ next := fun h => h5 (h ▸ List.mem_cons_self _ _)
      rcases Nat.lt_or_gt_of_ne h6 with hlt | hgt2
      · left
        omega
      · right
        exact ⟨hgt2, h3, h5⟩

theorem gapSlots_sorted (rest : List Nat) : ∀ (first : Nat),
    (first :: rest).Pairwise (fun a b => a < b) →
    (gapSlots (first :: rest)).Pairwise (fun a b => a < b) := by
  induction rest with
  | nil =>
    intro first _
    simp [gapSlots]
  | cons next more ih =>
    intro first hasc
    have htail := List.Pairwise.of_cons hasc
    show (List.range' (first + 1) (next - (first + 1)) ++ gapSlots (next :: more)).Pairwise _
    rw [List.pairwise_append]
    refine ⟨List.pairwise_lt_range' _ _, ih next htail, ?_⟩
    intro x hx y hy
    rw [List.mem_range'_1] at hx
    rw [mem_gapSlots more next htail] at hy
    omega

/-- On a strictly ascending list, the slots of the gaps are the missing slots. -/
theorem gapSlots_eq_missingSlots (slots : List Nat) (hasc : slots.Pairwise (fun a b => a < b)) :
    gapSlots slots = missingSlots slots := by
  cases slots with
  | nil => rfl
  | cons first rest =>
    have hs1 := gapSlots_sorted rest first hasc
    have hs2 : (missingSlots (first :: rest)).Pairwise (fun a b => a < b) :=
      List.Pairwise.filter _ (List.pairwise_lt_range _)
    refine List.eq_of_perm_of_sorted ?_ hs1 hs2
    rw [List.perm_ext_iff_of_nodup (List.Sorted.nodup hs1) (List.Sorted.nodup hs2)]
    intro x
    rw [mem_gapSlots rest first hasc]
    simp only [missingSlots, List.mem_filter, List.mem_range, Bool.and_eq_true, decide_eq_true_eq,
      Bool.not_eq_true', List.contains_eq_any_beq, List.any_eq_false, beq_iff_eq]
    constructor
    · rintro ⟨h1, h2, h3⟩
      refine ⟨h2, h1, ?_⟩
      intro y hy hxy
      exact h3 (hxy ▸ hy)
    · rintro ⟨h2, h1, h3⟩
      exact ⟨h1, h2, fun hmem => h3 x hmem rfl⟩

/-! ### The calls of the phases -/

/-- The calls of an export: its entry or one of its steps. -/
def Call.isExport (c : Call) : Bool :=
  match c with
  | .ExportSlot _ _ => true
  | other => other.isExportStep

section PhaseIssues

variable {σ : Type} (d : Deps σ) (fuel : Nat) (P : Call → Prop) (hexp : ∀ c, c.isExport = true → P c)
include hexp

theorem exportSlot_issues (slot : Nat) (isHeadEpoch : Bool) :
    Issues P (ExportSlot d fuel slot isHeadEpoch) := by
  refine (exportSlot_body_issues d fuel slot isHeadEpoch).mono (fun c hc => hexp c ?_)
  rcases hc with rfl | hc
  · rfl
  · cases c <;> first | rfl | exact hc

theorem exportGaps_issues (dbSlots : List DbSlot) : Issues P (exportGaps d fuel dbSlots) := by
  induction dbSlots with
  | nil => exact Issues.pure _
  | cons a rest ih =>
    cases rest with
    | nil => exact Issues.pure _
    | cons b rest =>
      unfold exportGaps
      refine Issues.bind ?_ (fun _ => ih)
      split
      · exact Issues.forSlots _ _ _ (fun slot => Issues.wrapError _ (exportSlot_issues d fuel P hexp slot false))
      · exact Issues.pure _

theorem backfillGaps_issues (firstRun : Bool) (h : P .GetAllSlots) :
    Issues P (backfillGaps d fuel firstRun) := by
  unfold backfillGaps
  split
  · refine Issues.bind (Issues.call _ _ h) (fun r => ?_)
    cases r with
    | error e => exact Issues.fail _
    | ok dbSlots => exact exportGaps_issues d fuel P hexp dbSlots
  · exact Issues.pure _

theorem catchUpHead_issues (head : ChainHead) (h : P .GetLastSlot) :
    Issues P (catchUpHead d fuel head) := by
  unfold catchUpHead
  refine Issues.bind ?_ (fun lastDbSlot => ?_)
  · refine Issues.bind (Issues.call _ _ h) (fun r => ?_)
    cases r with
    | found slot => exact Issues.pure _
    | noRows =>
      exact Issues.bind (Issues.wrapError _ (exportSlot_issues d fuel P hexp _ _)) (fun _ => Issues.pure _)
    | failed e => exact Issues.fail _
  · split
    · exact Issues.forSlots _ _ _ (fun slot => Issues.wrapError _ (exportSlot_issues d fuel P hexp slot _))
    · exact Issues.pure _

omit hexp in
theorem headerRootEquals_issues (header : Option Header) (blockRoot : Bytes) :
    Issues P (headerRootEquals d header blockRoot) := by
  unfold headerRootEquals
  split
  · exact Issues.pure _
  · split
    · exact Issues.raise _
    · exact Issues.pure _

theorem markFinalized_issues (head : ChainHead) (row : DbSlot) (header : Option Header) (nf : Bool)
    (hset : ∀ slot finalized status, P (.SetSlotFinalizationAndStatus slot finalized status)) :
    Issues P (markFinalized d fuel head row header nf) := by
  have hupd : ∀ status (k : Except String Unit → Exec σ Unit), (∀ r, Issues P (k r)) →
      Issues P (call (.SetSlotFinalizationAndStatus row.Slot nf status)
        (d.SetSlotFinalizationAndStatus row.Slot nf status) >>= k) :=
    fun status k hk => Issues.bind (Issues.call _ _ (hset _ _ _)) hk
  unfold markFinalized
  refine Issues.bind (headerRootEquals_issues d P header row.BlockRoot) (fun b => ?_)
  split
  · refine hupd _ _ (fun r => ?_)
    cases r with
    | error e => exact Issues.fail _
    | ok u => exact Issues.pure _
  · split
    · refine hupd _ _ (fun r => ?_)
      cases r with
      | error e => exact Issues.fail _
      | ok u => exact Issues.pure _
    · split
      · refine hupd _ _ (fun r => ?_)
        cases r with
        | error e => exact Issues.fail _
        | ok u => exact Issues.pure _
      · refine Issues.bind (headerRootEquals_issues d P header row.BlockRoot) (fun b => ?_)
        split
        · refine hupd _ _ (fun r => ?_)
          cases r with
          | error e => exact Issues.fail _
          | ok u => exact Issues.wrapError _ (exportSlot_issues d fuel P hexp _ _)
        · exact Issues.pure _

theorem reconcileSlot_issues (head : ChainHead) (row : DbSlot)
    (hset : ∀ slot finalized status, P (.SetSlotFinalizationAndStatus slot finalized status))
    (hhdr : ∀ slot, P (.GetBlockHeader slot)) :
    Issues P (reconcileSlot d fuel head row) := by
  unfold reconcileSlot
  refine Issues.bind (Issues.call _ _ (hhdr _)) (fun r => ?_)
  cases r with
  | error e => exact Issues.fail _
  | ok header =>
    dsimp only
    split
    · refine Issues.bind (markFinalized_issues d fuel P hexp head row header _ hset) (fun _ => ?_)
      exact (updateEpochOnTransition_issues d row).mono (fun c hc => hexp c (by
        cases c <;> first | rfl | exact hc))
    · split
      · exact Issues.wrapError _ (exportSlot_issues d fuel P hexp _ _)
      · exact Issues.pure _

theorem reconcileNonFinalized_issues (head : ChainHead)
    (hset : ∀ slot finalized status, P (.SetSlotFinalizationAndStatus slot finalized status))
    (hhdr : ∀ slot, P (.GetBlockHeader slot)) (hall : P .GetAllNonFinalizedSlots) :
    Issues P (reconcileNonFinalized d fuel head) := by
  unfold reconcileNonFinalized
  refine Issues.bind (Issues.call _ _ hall) (fun r => ?_)
  cases r with
  | error e => exact Issues.fail _
  | ok rows => exact Issues.forRange _ (fun row => reconcileSlot_issues d fuel P hexp head row hset hhdr)

end PhaseIssues

/-- A tick that is not the first run never reads `GetAllSlots`. -/
theorem runSlotExporter_steady_issues {σ : Type} (d : Deps σ) (fuel : Nat) :
    Issues (fun c => c ≠ .GetAllSlots) (RunSlotExporter d fuel false) := by
  have hexp : ∀ c : Call, c.isExport = true → c ≠ .GetAllSlots := by
    intro c hc h
    subst h
    cases hc
  unfold RunSlotExporter
  refine Issues.bind ?_ (fun _ => ?_)
  · unfold backfillGaps
    simp only [Bool.false_eq_true, if_false]
    exact Issues.pure _
  · refine Issues.bind (Issues.call _ _ (by simp)) (fun r => ?_)
    cases r with
    | error e => exact Issues.fail _
    | ok head =>
      refine Issues.bind (catchUpHead_issues d fuel _ hexp head (by simp)) (fun _ => ?_)
      exact reconcileNonFinalized_issues d fuel _ hexp head (by simp) (by simp) (by simp)

/-- When the gap back-fill returns `nil`, the chain head is fetched next. -/
theorem runSlotExporter_calls_of_backfill {σ : Type} (d : Deps σ) (fuel : Nat) (firstRun : Bool) (s : σ)
    (h : (backfillGaps d fuel firstRun s).result = .ok ()) :
    ∃ rest, (RunSlotExporter d fuel firstRun s).calls =
      (backfillGaps d fuel firstRun s).calls ++ .GetChainHead :: rest := by
  unfold RunSlotExporter
  rw [bind_run_ok _ _ _ () h]
  rw [bind_run]
  simp only [call_run]
  exact ⟨_, rfl⟩

/-- The gap back-fill of a first run over a strictly ascending list of rows. -/
theorem backfillGaps_first_run {σ : Type} (d : Deps σ) (fuel : Nat) (s : σ) (dbSlots : List DbSlot)
    (hread : (d.GetAllSlots s).1 = .ok dbSlots)
    (hasc : (dbSlots.map (fun x => x.Slot)).Pairwise (fun a b => a < b))
    (hbound : ∀ x ∈ dbSlots, x.Slot < twoPow64)
    (hfuel : ∀ x ∈ dbSlots, x.Slot < fuel)
    (hsucc : exportsSucceed d fuel (fun _ => false) (missingSlots (dbSlots.map (fun x => x.Slot)))
      (d.GetAllSlots s).2 = true) :
    (backfillGaps d fuel true s).result = .ok () ∧
      exportCalls (backfillGaps d fuel true s).calls =
        (missingSlots (dbSlots.map (fun x => x.Slot))).map (fun x => (x, false)) := by
  rw [← gapSlots_eq_missingSlots _ hasc] at hsucc ⊢
  obtain ⟨h1, h2⟩ := exportGaps_exports d fuel dbSlots (d.GetAllSlots s).2 hasc hbound hfuel hsucc
  unfold backfillGaps
  simp only [if_true, bind_run, call_run, hread]
  refine ⟨h1, ?_⟩
  rw [← h2]
  rfl

theorem takeWhile_before_chainHead (before rest : List Call) (h : ∀ c ∈ before, c ≠ .GetChainHead) :
    (before ++ .GetChainHead :: rest).takeWhile (fun c => c != .GetChainHead) = before := by
  rw [List.takeWhile_append_of_pos (fun c hc => by simpa using h c hc)]
  simp

/-- C6. Gap back-fill: on a first run over a strictly ascending list of rows
returned by `GetAllSlots`, when every export of the missing slots succeeds, the
chain head is fetched and the `ExportSlot` calls issued before that are, in
order, exactly the slots strictly between the first and the last row that are
absent from the list, each with `is_head_epoch = false`; on a later run no call
at all is issued before the chain head is fetched and `GetAllSlots` is not
read. -/
theorem gap_backfill {σ : Type} (d : Deps σ) (fuel : Nat) (s : σ) (dbSlots : List DbSlot)
    (hread : (d.GetAllSlots s).1 = .ok dbSlots)
    (hasc : (dbSlots.map (fun x => x.Slot)).Pairwise (fun a b => a < b))
    (hbound : ∀ x ∈ dbSlots, x.Slot < twoPow64)
    (hfuel : ∀ x ∈ dbSlots, x.Slot < fuel)
    (hsucc : exportsSucceed d fuel (fun _ => false) (missingSlots (dbSlots.map (fun x => x.Slot)))
      (d.GetAllSlots s).2 = true) :
    (Call.GetChainHead ∈ (RunSlotExporter d fuel true s).calls ∧
      exportCalls ((RunSlotExporter d fuel true s).calls.takeWhile (fun c => c != .GetChainHead)) =
        (missingSlots (dbSlots.map (fun x => x.Slot))).map (fun x => (x, false))) ∧
    (∀ s1, (RunSlotExporter d fuel false s1).calls.takeWhile (fun c => c != .GetChainHead) = [] ∧
      Call.GetAllSlots ∉ (RunSlotExporter d fuel false s1).calls) := by
  constructor
  · obtain ⟨h1, h2⟩ := backfillGaps_first_run d fuel s dbSlots hread hasc hbound hfuel hsucc
    obtain ⟨rest, hrest⟩ := runSlotExporter_calls_of_backfill d fuel true s h1
    have hno : ∀ c ∈ (backfillGaps d fuel true s).calls, c ≠ .GetChainHead :=
      backfillGaps_issues d fuel (fun c => c ≠ .GetChainHead)
        (fun c hc h => by subst h; cases hc) true (by simp) s
    rw [hrest, takeWhile_before_chainHead _ _ hno]
    exact ⟨List.mem_append_right _ (List.mem_cons_self _ _), h2⟩
  · intro s1
    have h1 : (backfillGaps d fuel false s1).result = .ok () := rfl
    obtain ⟨rest, hrest⟩ := runSlotExporter_calls_of_backfill d fuel false s1 h1
    refine ⟨?_, fun hmem => runSlotExporter_steady_issues d fuel s1 _ hmem rfl⟩
    rw [hrest]
    have h2 : (backfillGaps d fuel false s1).calls = [] := rfl
    rw [h2]
    simp

/-- Scenario S2 for C6: with the rows 0, 1, 2, 4, 5 the first run exports slot 3
before it fetches the chain head. -/
theorem gap_backfill_witness :
    (Call.GetChainHead ∈ (RunSlotExporter scriptS2.deps 6 true ()).calls ∧
      exportCalls ((RunSlotExporter scriptS2.deps 6 true ()).calls.takeWhile (fun c => c != .GetChainHead)) =
        [(3, false)]) ∧
    (∀ s1, (RunSlotExporter scriptS2.deps 6 false s1).calls.takeWhile (fun c => c != .GetChainHead) = [] ∧
      Call.GetAllSlots ∉ (RunSlotExporter scriptS2.deps 6 false s1).calls) :=
  gap_backfill scriptS2.deps 6 () [rowAt 0, rowAt 1, rowAt 2, rowAt 4, rowAt 5] rfl (by decide)
    (by decide) (by decide) rfl

/-! ### Head catch-up -/

/-- A loop whose lower bound exceeds its upper bound does nothing. -/
theorem forSlots_empty {σ : Type} (body : Nat → Exec σ Unit) (fuel lo hi : Nat) (s : σ)
    (hfuel : 0 < fuel) (h : hi < lo) : forSlots fuel lo hi body s = ⟨.ok (), s, []⟩ := by
  obtain ⟨k, rfl⟩ : ∃ k, fuel = k + 1 := ⟨fuel - 1, by omega⟩
  have hlt : ¬ lo ≤ hi := by omega
  unfold forSlots
  simp [hlt]

/-- The loop of lines 72-79 from the last slot `last` of the database. -/
theorem catchUpLoop_exports {σ : Type} (d : Deps σ) (fuel : Nat) (head : ChainHead) (last : Nat) (s : σ)
    (hH : head.HeadSlot + 1 < twoPow64) (hL : last + 1 < twoPow64) (hfuel : head.HeadSlot < fuel)
    (hsucc : exportsSucceed d fuel (fun slot => d.EpochOfSlot slot == head.HeadEpoch)
      (List.range' (last + 1) (head.HeadSlot - last)) s = true) :
    ((if last ≠ head.HeadSlot then
        forSlots fuel (addU64 last 1) head.HeadSlot (fun slot =>
          wrapError "error exporting slot: " (ExportSlot d fuel slot (d.EpochOfSlot slot == head.HeadEpoch)))
      else pure ()) s).result = .ok () ∧
    exportCalls ((if last ≠ head.HeadSlot then
        forSlots fuel (addU64 last 1) head.HeadSlot (fun slot =>
          wrapError "error exporting slot: " (ExportSlot d fuel slot (d.EpochOfSlot slot == head.HeadEpoch)))
      else pure ()) s).calls =
      (List.range' (last + 1) (head.HeadSlot - last)).map
        (fun x => (x, d.EpochOfSlot x == head.HeadEpoch)) := by
  rw [addU64_one last hL]
  by_cases hne : last ≠ head.HeadSlot
  · rw [if_pos hne]
    by_cases hlt : last < head.HeadSlot
    · obtain ⟨h1, -, h3⟩ := forSlots_exports d fuel (fun x => d.EpochOfSlot x == head.HeadEpoch)
        (head.HeadSlot - last) fuel (last + 1) head.HeadSlot s (by omega) hH (by omega) hsucc
      exact ⟨h1, h3⟩
    · have h0 : head.HeadSlot - last = 0 := by omega
      rw [forSlots_empty _ fuel (last + 1) head.HeadSlot s (by omega) (by omega), h0]
      exact ⟨rfl, rfl⟩
  · have h0 : head.HeadSlot - last = 0 := by omega
    rw [if_neg hne, h0]
    exact ⟨rfl, rfl⟩

/-- C7, refuted as stated: with `last_db_slot = 2 ^ 64 - 1` and the head at slot
0 the tick exports slot 0, although `last_db_slot ≥ head_slot`. -/
theorem head_catch_up_counterexample :
    scriptWrap.deps.GetLastSlot () = (.found 18446744073709551615, ()) ∧
      scriptWrap.head.HeadSlot ≤ 18446744073709551615 ∧
      exportCalls (RunSlotExporter scriptWrap.deps 2 false ()).calls = [(0, true)] :=
  ⟨rfl, by decide, by rfl⟩

/-- The head catch-up of a tick runs from the state that the fetch of the
chain head left, and its calls follow that fetch. -/
theorem runSlotExporter_calls_of_catchUp {σ : Type} (d : Deps σ) (fuel : Nat) (firstRun : Bool)
    (head : ChainHead) (s0 s : σ) (hback : (backfillGaps d fuel firstRun s0).result = .ok ())
    (hhead : d.GetChainHead (backfillGaps d fuel firstRun s0).state = (.ok head, s)) :
    ∃ rest, (RunSlotExporter d fuel firstRun s0).calls =
      (backfillGaps d fuel firstRun s0).calls ++ .GetChainHead ::
        ((catchUpHead d fuel head s).calls ++ rest) := by
  unfold RunSlotExporter
  rw [bind_run_ok _ _ _ () hback, bind_run]
  simp only [call_run, hhead]
  rw [bind_run]
  cases hcatch : (catchUpHead d fuel head s).result with
  | error e => exact ⟨[], by simp⟩
  | ok u => exact ⟨(reconcileNonFinalized d fuel head (catchUpHead d fuel head s).state).calls, by simp⟩

/-- C7, amended: for every last slot `L < 2 ^ 64 - 1` of the database and every
head with `head_slot = H < 2 ^ 64 - 1`, when every export of the slots
`L + 1, ..., H` succeeds, the head catch-up returns `nil` and calls
`ExportSlot(s, epoch_of(s) == head.head_epoch)` for exactly the slots
`s = L + 1, ..., H` in ascending order (no call when `L ≥ H`); when the blocks
table is empty and every export of the slots `0, 1, ..., H` succeeds, it first
calls `ExportSlot(0, epoch_of(0) == head.head_epoch)` and proceeds with `L = 0`.
In a tick whose gap back-fill returned `nil` and whose fetch of the chain head
returned `head`, the calls of `RunSlotExporter` after that fetch start with the
calls of the head catch-up. -/
theorem head_catch_up {σ : Type} (d : Deps σ) (fuel : Nat) (head : ChainHead) (s : σ)
    (hH : head.HeadSlot + 1 < twoPow64) (hfuel : head.HeadSlot < fuel) :
    (∀ last, (d.GetLastSlot s).1 = .found last → last + 1 < twoPow64 →
      exportsSucceed d fuel (fun slot => d.EpochOfSlot slot == head.HeadEpoch)
        (List.range' (last + 1) (head.HeadSlot - last)) (d.GetLastSlot s).2 = true →
      (catchUpHead d fuel head s).result = .ok () ∧
      exportCalls (catchUpHead d fuel head s).calls =
        (List.range' (last + 1) (head.HeadSlot - last)).map
          (fun x => (x, d.EpochOfSlot x == head.HeadEpoch))) ∧
    ((d.GetLastSlot s).1 = .noRows →
      exportsSucceed d fuel (fun slot => d.EpochOfSlot slot == head.HeadEpoch)
        (0 :: List.range' 1 head.HeadSlot) (d.GetLastSlot s).2 = true →
      (catchUpHead d fuel head s).result = .ok () ∧
      exportCalls (catchUpHead d fuel head s).calls =
        (0, d.EpochOfSlot 0 == head.HeadEpoch) ::
          (List.range' 1 head.HeadSlot).map (fun x => (x, d.EpochOfSlot x == head.HeadEpoch))) ∧
    (∀ firstRun s0, (backfillGaps d fuel firstRun s0).result = .ok () →
      d.GetChainHead (backfillGaps d fuel firstRun s0).state = (.ok head, s) →
      ∃ rest, (RunSlotExporter d fuel firstRun s0).calls =
        (backfillGaps d fuel firstRun s0).calls ++ .GetChainHead ::
          ((catchUpHead d fuel head s).calls ++ rest)) := by
  refine ⟨?_, ?_, fun firstRun s0 hback hhead =>
    runSlotExporter_calls_of_catchUp d fuel firstRun head s0 s hback hhead⟩
  · intro last hlast hL hsucc
    unfold catchUpHead
    simp only [bind_run, call_run, hlast, pure_run, List.append_nil]
    obtain ⟨h1, h2⟩ := catchUpLoop_exports d fuel head last (d.GetLastSlot s).2 hH hL hfuel hsucc
    refine ⟨h1, ?_⟩
    rw [← h2]
    rfl
  · intro hnone hsucc
    simp only [exportsSucceed, Bool.and_eq_true, returnsNil_iff] at hsucc
    obtain ⟨hzero, hrest⟩ := hsucc
    unfold catchUpHead
    have hw := exportSlot_wrapped_ok d fuel 0 _ (d.GetLastSlot s).2 hzero
    simp only [bind_run, call_run, hnone, pure_run, List.append_nil, hw]
    obtain ⟨h1, h2⟩ := catchUpLoop_exports d fuel head 0
      (wrapError "error exporting slot: " (ExportSlot d fuel 0 (d.EpochOfSlot 0 == head.HeadEpoch))
        (d.GetLastSlot s).2).state hH (by unfold twoPow64; omega) hfuel
      (by rw [wrapError_state]; exact hrest)
    refine ⟨h1, ?_⟩
    rw [exportCalls_append, exportCalls_append, h2, exportSlot_wrapped_exportCalls]
    rfl

/-- The database ends at slot 2 and the head is at slot 5: the slots 3, 4, 5
are exported, right after the fetch of the chain head.  The database is empty
and the head is at slot 2: the slots 0, 1, 2 are exported. -/
theorem head_catch_up_witness :
    ((catchUpHead scriptCatchUp.deps 6 ⟨5, 0, 0⟩ ()).result = .ok () ∧
      exportCalls (catchUpHead scriptCatchUp.deps 6 ⟨5, 0, 0⟩ ()).calls =
        [(3, true), (4, true), (5, true)]) ∧
    ((catchUpHead scriptEmptyTable.deps 3 ⟨2, 0, 0⟩ ()).result = .ok () ∧
      exportCalls (catchUpHead scriptEmptyTable.deps 3 ⟨2, 0, 0⟩ ()).calls =
        [(0, true), (1, true), (2, true)]) ∧
    (∃ rest, (RunSlotExporter scriptCatchUp.deps 6 false ()).calls =
      (backfillGaps scriptCatchUp.deps 6 false ()).calls ++ .GetChainHead ::
        ((catchUpHead scriptCatchUp.deps 6 ⟨5, 0, 0⟩ ()).calls ++ rest)) :=
  ⟨(head_catch_up scriptCatchUp.deps 6 ⟨5, 0, 0⟩ () (by decide) (by decide)).1 2 rfl (by decide) rfl,
    (head_catch_up scriptEmptyTable.deps 3 ⟨2, 0, 0⟩ () (by decide) (by decide)).2.1 rfl rfl,
    (head_catch_up scriptCatchUp.deps 6 ⟨5, 0, 0⟩ () (by decide) (by decide)).2.2 false () rfl rfl⟩

/-! ### Unparseable attestor-assignment keys -/

/-- The loop of lines 181-188 returns when its upper bound is below `2 ^ 64 - 1`. -/
theorem syncDutiesEpochLoop_some (syncAssignments : List Nat) (n : Nat) :
    ∀ (fuel lo hi : Nat) (m : GoMap Nat (GoMap Nat Bool)), hi + 1 = lo + n → hi + 1 < twoPow64 → n < fuel →
      ∃ m1, syncDutiesEpochLoop fuel lo hi syncAssignments m = some m1 := by
  induction n with
  | zero =>
    intro fuel lo hi m h1 _ h3
    obtain ⟨k, rfl⟩ : ∃ k, fuel = k + 1 := ⟨fuel - 1, by omega⟩
    have hlt : ¬ lo ≤ hi := by omega
    unfold syncDutiesEpochLoop
    simp [hlt]
  | succ n ih =>
    intro fuel lo hi m h1 h2 h3
    obtain ⟨k, rfl⟩ : ∃ k, fuel = k + 1 := ⟨fuel - 1, by omega⟩
    have hle : lo ≤ hi := by omega
    have hadd : addU64 lo 1 = lo + 1 := addU64_one lo (by omega)
    unfold syncDutiesEpochLoop
    simp only [hle, if_true, hadd]
    exact ih k (lo + 1) hi _ (by omega) h2 (by omega)

/-- The loop of lines 181-188 does nothing when its bounds are crossed. -/
theorem syncDutiesEpochLoop_empty (syncAssignments : List Nat) (fuel lo hi : Nat)
    (m : GoMap Nat (GoMap Nat Bool)) (hfuel : 0 < fuel) (h : hi < lo) :
    syncDutiesEpochLoop fuel lo hi syncAssignments m = some m := by
  obtain ⟨k, rfl⟩ : ∃ k, fuel = k + 1 := ⟨fuel - 1, by omega⟩
  have hlt : ¬ lo ≤ hi := by omega
  unfold syncDutiesEpochLoop
  simp [hlt]

/-- The loop of lines 181-188 never returns when its upper bound is `2 ^ 64 - 1`. -/
theorem syncDutiesEpochLoop_diverges (syncAssignments : List Nat) (fuel : Nat) :
    ∀ (lo : Nat) (m : GoMap Nat (GoMap Nat Bool)), lo < twoPow64 →
      syncDutiesEpochLoop fuel lo 18446744073709551615 syncAssignments m = none := by
  induction fuel with
  | zero =>
    intro lo m _
    rfl
  | succ k ih =>
    intro lo m hlo
    have hle : lo ≤ 18446744073709551615 := by
      unfold twoPow64 at hlo
      omega
    unfold syncDutiesEpochLoop
    simp only [hle, if_true]
    exact ih _ _ (Nat.mod_lt _ (by unfold twoPow64; omega))

/-- The bounds of the loop of lines 181-188, for an epoch that does not end at slot `2 ^ 64 - 1`. -/
theorem syncDutiesEpochLoop_returns (syncAssignments : List Nat) (fuel slot spe : Nat)
    (hspe : 0 < spe) (hspe64 : spe < twoPow64) (hslot : slot < twoPow64)
    (hend : (slot / spe + 1) * spe ≠ twoPow64) (hfuel : spe < fuel) :
    ∃ m1, syncDutiesEpochLoop fuel (mulU64 (slot / spe) spe)
      (subU64 (mulU64 (addU64 (slot / spe) 1) spe) 1) syncAssignments [] = some m1 := by
  have hlo : slot / spe * spe ≤ slot := Nat.div_mul_le_self slot spe
  have hmul : (slot / spe + 1) * spe = slot / spe * spe + spe := by ring
  have h1 : mulU64 (slot / spe) spe = slot / spe * spe := by
    unfold mulU64
    exact Nat.mod_eq_of_lt (by omega)
  have h2 : mulU64 (addU64 (slot / spe) 1) spe = ((slot / spe + 1) * spe) % twoPow64 := by
    unfold mulU64 addU64
    exact Nat.mod_mul_mod
  rw [h1, h2]
  rcases Nat.lt_or_gt_of_ne hend with hlt | hgt
  · rw [Nat.mod_eq_of_lt hlt, subU64_one _ (by omega) hlt]
    exact syncDutiesEpochLoop_some _ spe fuel _ _ _ (by omega) (by omega) hfuel
  · have hw : ((slot / spe + 1) * spe) % twoPow64 = (slot / spe + 1) * spe - twoPow64 := by
      rw [Nat.mod_eq_sub_mod (Nat.le_of_lt hgt)]
      exact Nat.mod_eq_of_lt (by omega)
    rw [hw, subU64_one _ (by omega) (by omega)]
    exact ⟨_, syncDutiesEpochLoop_empty _ fuel _ _ _ (by omega) (by omega)⟩

/-- The loop of lines 190-203 returns an error when some key does not parse,
whatever the order of the entries. -/
theorem attDutiesEpochLoop_error (attestorAssignments : GoMap String Nat)
    (hbad : ∃ entry ∈ attestorAssignments, ParseUint (firstField entry.1) = none) :
    ∀ m, ∃ e, attDutiesEpochLoop attestorAssignments m = .error e := by
  induction attestorAssignments with
  | nil =>
    obtain ⟨entry, hmem, -⟩ := hbad
    cases hmem
  | cons first rest ih =>
    intro m
    obtain ⟨key, validatorIndex⟩ := first
    unfold attDutiesEpochLoop
    cases hparse : ParseUint (firstField key) with
    | none => exact ⟨_, rfl⟩
    | some attestedSlot =>
      obtain ⟨entry, hmem, hentry⟩ := hbad
      rcases List.mem_cons.mp hmem with rfl | hmem
      · rw [hparse] at hentry
        cases hentry
      · exact ih ⟨entry, hmem, hentry⟩ _

/-- A fault of the export of the epoch assignments ends `ExportSlot`. -/
theorem exportSlot_assignments_fault {σ : Type} (d : Deps σ) (fuel slot : Nat) (isHeadEpoch : Bool) (s : σ)
    (block : Block) (assignments : EpochAssignments) (f : Fault)
    (hblock : (d.GetBlockBySlot slot s).1 = .ok block)
    (hassign : block.EpochAssignments = some assignments)
    (hfault : (exportEpochAssignments d fuel slot isHeadEpoch block assignments
      (d.GetBlockBySlot slot s).2).result = .error f) :
    ExportSlot d fuel slot isHeadEpoch s =
      ⟨.error f,
        (exportEpochAssignments d fuel slot isHeadEpoch block assignments (d.GetBlockBySlot slot s).2).state,
        .ExportSlot slot isHeadEpoch :: .GetBlockBySlot slot ::
          (exportEpochAssignments d fuel slot isHeadEpoch block assignments
            (d.GetBlockBySlot slot s).2).calls⟩ := by
  unfold ExportSlot
  simp only [bind_run, enter_run, call_run, hblock, hassign, hfault, List.singleton_append,
    List.cons_append, List.nil_append]

theorem checkDivisor_pos {σ : Type} (divisor : Nat) (h : 0 < divisor) (s : σ) :
    (checkDivisor divisor : Exec σ Unit) s = ⟨.ok (), s, []⟩ := by
  unfold checkDivisor
  rw [if_neg (by omega)]
  rfl

/-- The export of the epoch assignments when the loop of lines 181-188 does not return. -/
theorem exportEpochAssignments_diverges {σ : Type} (d : Deps σ) (fuel slot : Nat) (isHeadEpoch : Bool)
    (block : Block) (assignments : EpochAssignments) (s : σ) (hspe : 0 < d.SlotsPerEpoch)
    (hloop : syncDutiesEpochLoop fuel (mulU64 (slot / d.SlotsPerEpoch) d.SlotsPerEpoch)
      (subU64 (mulU64 (addU64 (slot / d.SlotsPerEpoch) 1) d.SlotsPerEpoch) 1)
      assignments.SyncAssignments [] = none) :
    exportEpochAssignments d fuel slot isHeadEpoch block assignments s = ⟨.error .outOfFuel, s, []⟩ := by
  unfold exportEpochAssignments
  rw [bind_run, checkDivisor_pos _ hspe]
  simp only [hloop, raise_run, List.append_nil]

/-- The export of the epoch assignments when a key does not parse. -/
theorem exportEpochAssignments_parse_error {σ : Type} (d : Deps σ) (fuel slot : Nat) (isHeadEpoch : Bool)
    (block : Block) (assignments : EpochAssignments) (s : σ) (hspe : 0 < d.SlotsPerEpoch)
    (m1 : GoMap Nat (GoMap Nat Bool)) (e : String)
    (hloop : syncDutiesEpochLoop fuel (mulU64 (slot / d.SlotsPerEpoch) d.SlotsPerEpoch)
      (subU64 (mulU64 (addU64 (slot / d.SlotsPerEpoch) 1) d.SlotsPerEpoch) 1)
      assignments.SyncAssignments [] = some m1)
    (hparse : attDutiesEpochLoop assignments.AttestorAssignments [] = .error e) :
    exportEpochAssignments d fuel slot isHeadEpoch block assignments s = ⟨.error (.error e), s, []⟩ := by
  unfold exportEpochAssignments
  rw [bind_run, checkDivisor_pos _ hspe]
  simp only [hloop, hparse, fail_run, List.append_nil]

/-- C10, refuted as stated: with 32 slots per epoch, the export of slot
`2 ^ 64 - 32`, whose block carries the unparseable key `"abc-2"`, returns no
error, whatever the fuel: the loop of lines 181-188 has the upper bound
`2 ^ 64 - 1` and does not end. -/
theorem unparseable_key_counterexample :
    (∃ entry ∈ (["0-1", "abc-2"].map (fun key => (key, 7)) : GoMap String Nat),
      ParseUint (firstField entry.1) = none) ∧
    ∀ fuel, (ExportSlot scriptBadKey.deps fuel 18446744073709551584 false ()).result = .error .outOfFuel ∧
      (ExportSlot scriptBadKey.deps fuel 18446744073709551584 false ()).returnsError = false := by
  refine ⟨⟨("abc-2", 7), by decide, by decide⟩, fun fuel => ?_⟩
  have hloop : syncDutiesEpochLoop fuel
      (mulU64 (18446744073709551584 / scriptBadKey.deps.SlotsPerEpoch) scriptBadKey.deps.SlotsPerEpoch)
      (subU64 (mulU64 (addU64 (18446744073709551584 / scriptBadKey.deps.SlotsPerEpoch) 1)
        scriptBadKey.deps.SlotsPerEpoch) 1)
      [1, 2] [] = none :=
    syncDutiesEpochLoop_diverges [1, 2] fuel 18446744073709551584 [] (by decide)
  have hrun := exportSlot_assignments_fault scriptBadKey.deps fuel 18446744073709551584 false ()
    (assignmentBlock 18446744073709551584 ["0-1", "abc-2"])
    ⟨[], ["0-1", "abc-2"].map (fun key => (key, 7)), [1, 2]⟩ .outOfFuel rfl rfl
    (by rw [exportEpochAssignments_diverges _ _ _ _ _ _ _ (by decide) hloop])
  rw [hrun]
  exact ⟨rfl, rfl⟩

/-- C10, amended: with a positive number of slots per epoch, for every slot
whose epoch does not end at slot `2 ^ 64 - 1` and every block that carries
epoch assignments in which at least one attestor-assignment key has a first
`"-"`-separated field that is not a decimal unsigned 64-bit integer,
`ExportSlot` returns an error and its only calls are its entry and the fetch of
the block: it issues no write at all, whatever the order of the entries. -/
theorem unparseable_key_fatal {σ : Type} (d : Deps σ) (fuel slot : Nat) (isHeadEpoch : Bool) (s : σ)
    (block : Block) (assignments : EpochAssignments)
    (hblock : (d.GetBlockBySlot slot s).1 = .ok block)
    (hassign : block.EpochAssignments = some assignments)
    (hbad : ∃ entry ∈ assignments.AttestorAssignments, ParseUint (firstField entry.1) = none)
    (hspe : 0 < d.SlotsPerEpoch) (hspe64 : d.SlotsPerEpoch < twoPow64) (hslot : slot < twoPow64)
    (hend : (slot / d.SlotsPerEpoch + 1) * d.SlotsPerEpoch ≠ twoPow64)
    (hfuel : d.SlotsPerEpoch < fuel) :
    (ExportSlot d fuel slot isHeadEpoch s).returnsError = true ∧
      (ExportSlot d fuel slot isHeadEpoch s).calls = [.ExportSlot slot isHeadEpoch, .GetBlockBySlot slot] := by
  obtain ⟨m1, hloop⟩ := syncDutiesEpochLoop_returns assignments.SyncAssignments fuel slot d.SlotsPerEpoch
    hspe hspe64 hslot hend hfuel
  obtain ⟨e, hparse⟩ := attDutiesEpochLoop_error assignments.AttestorAssignments hbad []
  have hrun := exportEpochAssignments_parse_error d fuel slot isHeadEpoch block assignments
    (d.GetBlockBySlot slot s).2 hspe m1 e hloop hparse
  rw [exportSlot_assignments_fault d fuel slot isHeadEpoch s block assignments (.error e) hblock hassign
    (by rw [hrun]), hrun]
  exact ⟨rfl, rfl⟩

/-- The export of slot 0 with the keys `"0-1"` and `"abc-2"` returns an error after the fetch of the block. -/
theorem unparseable_key_fatal_witness :
    (ExportSlot scriptBadKey.deps 33 0 true ()).returnsError = true ∧
      (ExportSlot scriptBadKey.deps 33 0 true ()).calls = [.ExportSlot 0 true, .GetBlockBySlot 0] :=
  unparseable_key_fatal scriptBadKey.deps 33 0 true () (assignmentBlock 0 ["0-1", "abc-2"])
    ⟨[], ["0-1", "abc-2"].map (fun key => (key, 7)), [1, 2]⟩ rfl rfl
    ⟨("abc-2", 7), by decide, by decide⟩ (by decide) (by decide) (by decide) (by decide) (by decide)

/-! ### Contiguity of the blocks table -/

/-- C8, the defect: a tick that is not the first run starts from the table with
the slots 0, 1, 2 and the head at slot 5; `SaveBlock` fails for slot 4 only.
`ExportSlot` only logs that failure (lines 322-325) and returns `nil`, the
catch-up goes on to slot 5 and the tick returns `nil`, after a `SaveBlock` for
each of the slots 3, 4, 5, with the rows 0, 1, 2, 3, 5: the slots that have a row are no range `{0, ..., max}`, where the comment of
line 81 says that all data up to the chain head is in the database.  A next
tick in which nothing fails leaves the hole at slot 4. -/
theorem contiguity_broken_by_failed_save :
    (RunSlotExporter (storeDeps saveBlockFailsOnce) 6 false tableThreeRows).result = .ok () ∧
      exportCalls (RunSlotExporter (storeDeps saveBlockFailsOnce) 6 false tableThreeRows).calls =
        [(3, true), (4, true), (5, true)] ∧
      (RunSlotExporter (storeDeps saveBlockFailsOnce) 6 false tableThreeRows).calls.filterMap
          (fun c => match c with
            | .SaveBlock block => some block.Slot
            | _ => none) = [3, 4, 5] ∧
      (RunSlotExporter (storeDeps saveBlockFailsOnce) 6 false tableThreeRows).state.slots =
        [0, 1, 2, 3, 5] ∧
      (¬ ∃ max, ∀ x,
        x ∈ (RunSlotExporter (storeDeps saveBlockFailsOnce) 6 false tableThreeRows).state.slots ↔
          x ≤ max) ∧
      (RunSlotExporter (storeDeps (calmOutcomes ⟨5, 0, 0⟩)) 6 false
        (RunSlotExporter (storeDeps saveBlockFailsOnce) 6 false tableThreeRows).state).result = .ok () ∧
      (RunSlotExporter (storeDeps (calmOutcomes ⟨5, 0, 0⟩)) 6 false
        (RunSlotExporter (storeDeps saveBlockFailsOnce) 6 false tableThreeRows).state).state.slots =
        [0, 1, 2, 3, 5] := by
  have hslots : (RunSlotExporter (storeDeps saveBlockFailsOnce) 6 false tableThreeRows).state.slots =
      [0, 1, 2, 3, 5] := by rfl
  refine ⟨by rfl, by rfl, by rfl, hslots, ?_, by rfl, by rfl⟩
  rintro ⟨max, hmax⟩
  rw [hslots] at hmax
  have h5 : 5 ≤ max := (hmax 5).mp (by simp)
  have h4 : 4 ∈ [0, 1, 2, 3, 5] := (hmax 4).mpr (by omega)
  simp at h4

/-- The gap back-fill runs on the first run only (line 21): a tick that is not
the first run, over the table with the slots 0, 1, 2, 4, 5 and the head at slot
5, returns `nil` and leaves the hole at slot 3, where the comment of line 46
says that the list of slots in the database has no gaps. -/
theorem contiguity_hole_survives_later_run :
    (RunSlotExporter (storeDeps (calmOutcomes ⟨5, 0, 0⟩)) 6 false tableS2).result = .ok () ∧
      (RunSlotExporter (storeDeps (calmOutcomes ⟨5, 0, 0⟩)) 6 false tableS2).state.slots = [0, 1, 2, 4, 5] ∧
      ¬ ∃ max, ∀ x, x ∈ (RunSlotExporter (storeDeps (calmOutcomes ⟨5, 0, 0⟩)) 6 false tableS2).state.slots ↔
        x ≤ max := by
  have hslots : (RunSlotExporter (storeDeps (calmOutcomes ⟨5, 0, 0⟩)) 6 false tableS2).state.slots =
      [0, 1, 2, 4, 5] := by rfl
  refine ⟨by rfl, hslots, ?_⟩
  rintro ⟨max, hmax⟩
  rw [hslots] at hmax
  have h5 : 5 ≤ max := (hmax 5).mp (by simp)
  have h3 : 3 ∈ [0, 1, 2, 4, 5] := (hmax 3).mpr (by omega)
  simp at h3

section GrowsLaws

variable {α β : Type}

theorem grows_pure (a : α) (may : List Nat) : Grows (Pure.pure a : Exec Store α) [] may := by
  intro st hwf b _
  exact ⟨hwf, fun x hx => hx.elim id (fun h => by cases h), fun x hx => Or.inl hx⟩

theorem grows_raise (f : Fault) (sure may : List Nat) : Grows (Exec.raise f : Exec Store α) sure may := by
  intro st _ b hb
  cases hb

theorem grows_fail (msg : String) (sure may : List Nat) : Grows (Exec.fail msg : Exec Store α) sure may := by
  intro st _ b hb
  cases hb

theorem grows_weaken {m : Exec Store α} {s1 m1 s2 m2 : List Nat} (h : Grows m s1 m1)
    (hs : ∀ x ∈ s2, x ∈ s1) (hm : ∀ x ∈ m1, x ∈ m2) : Grows m s2 m2 := by
  intro st hwf a ha
  obtain ⟨h1, h2, h3⟩ := h st hwf a ha
  refine ⟨h1, fun x hx => h2 x (hx.imp id (hs x)), fun x hx => (h3 x hx).imp id (hm x)⟩

theorem grows_bind {m : Exec Store α} {f : α → Exec Store β} {s1 m1 s2 m2 : List Nat}
    (hm : Grows m s1 m1) (hf : ∀ a, Grows (f a) s2 m2) : Grows (m >>= f) (s1 ++ s2) (m1 ++ m2) := by
  intro st hwf b hb
  cases h : (m st).result with
  | error e =>
    rw [bind_run_error _ _ _ e h] at hb
    cases hb
  | ok a =>
    rw [bind_run_ok _ _ _ a h] at hb ⊢
    obtain ⟨h1, h2, h3⟩ := hm st hwf a h
    obtain ⟨k1, k2, k3⟩ := hf a (m st).state h1 b hb
    refine ⟨k1, ?_, ?_⟩
    · rintro x (hx | hx)
      · exact k2 x (Or.inl (h2 x (Or.inl hx)))
      · rcases List.mem_append.mp hx with hx | hx
        · exact k2 x (Or.inl (h2 x (Or.inr hx)))
        · exact k2 x (Or.inr hx)
    · intro x hx
      rcases k3 x hx with hx | hx
      · rcases h3 x hx with hx | hx
        · exact Or.inl hx
        · exact Or.inr (List.mem_append_left _ hx)
      · exact Or.inr (List.mem_append_right _ hx)

theorem grows_bind_keep {m : Exec Store α} {f : α → Exec Store β} {sure may : List Nat}
    (hm : Grows m [] []) (hf : ∀ a, Grows (f a) sure may) : Grows (m >>= f) sure may :=
  grows_bind hm hf

theorem grows_bind_then_keep {m : Exec Store α} {f : α → Exec Store β} {sure may : List Nat}
    (hm : Grows m sure may) (hf : ∀ a, Grows (f a) [] []) : Grows (m >>= f) sure may :=
  grows_weaken (grows_bind hm hf) (fun _ hx => List.mem_append_left _ hx)
    (fun x hx => by simpa using hx)

theorem grows_call (c : Call) (f : Store → α × Store) (hkeep : ∀ st, (f st).2.slots = st.slots) :
    Grows (Exec.call c f) [] [] := by
  intro st hwf a _
  have hs : (Exec.call c f st).state.slots = st.slots := hkeep st
  refine ⟨?_, ?_, ?_⟩
  · unfold Store.WellFormed
    rw [hs]
    exact hwf
  · rintro x (hx | hx)
    · rw [hs]
      exact hx
    · cases hx
  · intro x hx
    rw [hs] at hx
    exact Or.inl hx

/-- A call that keeps the slots, followed by a continuation of its actual result. -/
theorem grows_call_bind (c : Call) (f : Store → α × Store) (k : α → Exec Store β) (sure may : List Nat)
    (hkeep : ∀ st, (f st).2.slots = st.slots) (hk : ∀ st, Grows (k (f st).1) sure may) :
    Grows (Exec.call c f >>= k) sure may := by
  intro st hwf b hb
  rw [bind_run] at hb ⊢
  simp only [call_run] at hb ⊢
  have hs : (f st).2.slots = st.slots := hkeep st
  have hwf2 : (f st).2.WellFormed := by
    unfold Store.WellFormed
    rw [hs]
    exact hwf
  obtain ⟨k1, k2, k3⟩ := hk st (f st).2 hwf2 b hb
  refine ⟨k1, fun x hx => k2 x ?_, fun x hx => ?_⟩
  · rw [hs]
    exact hx
  · have := k3 x hx
    rw [hs] at this
    exact this

theorem grows_enter (c : Call) : Grows (Exec.enter c : Exec Store Unit) [] [] := by
  intro st hwf a _
  exact ⟨hwf, fun x hx => hx.elim id (fun h => by cases h), fun x hx => Or.inl hx⟩

theorem grows_wrapError (ctx : String) {m : Exec Store α} {sure may : List Nat} (h : Grows m sure may) :
    Grows (SlotExporter.wrapError ctx m) sure may := by
  intro st hwf a ha
  rw [wrapError_result_ok] at ha
  rw [wrapError_state]
  exact h st hwf a ha

theorem checkDivisor_keeps (divisor : Nat) : Grows (checkDivisor divisor : Exec Store Unit) [] [] := by
  unfold checkDivisor
  split
  · exact grows_raise _ _ _
  · exact grows_pure _ _

end GrowsLaws

section StoreSteps

variable (o : Outcomes)

theorem updateEpochParticipation_keeps (epoch : Nat) :
    Grows (updateEpochParticipation (storeDeps o) epoch) [] [] := by
  unfold updateEpochParticipation
  refine grows_bind_keep (grows_call _ _ (fun st => rfl)) (fun r => ?_)
  cases r with
  | error e => exact grows_pure _ _
  | ok stats =>
    refine grows_bind_keep (grows_call _ _ (fun st => rfl)) (fun r => ?_)
    cases r with
    | error e => exact grows_fail _ _ _
    | ok u => exact grows_pure _ _

theorem saveValidatorsTask_keeps (epoch : Nat) (validators : List Nat) :
    Grows (saveValidatorsTask (storeDeps o) epoch validators) [] [] := by
  unfold saveValidatorsTask
  refine grows_bind_keep (grows_call _ _ (fun st => rfl)) (fun r => ?_)
  cases r with
  | error e => exact grows_pure _ _
  | ok u =>
    refine grows_bind_keep (grows_call _ _ (fun st => rfl)) (fun r => ?_)
    cases r with
    | error e => exact grows_pure _ _
    | ok u => exact grows_pure _ _

theorem exportEpochAssignments_keeps (fuel slot : Nat) (isHeadEpoch : Bool)
    (block : Block) (assignments : EpochAssignments) :
    Grows (exportEpochAssignments (storeDeps o) fuel slot isHeadEpoch block assignments) [] [] := by
  unfold exportEpochAssignments
  refine grows_bind_keep (checkDivisor_keeps _) (fun _ => ?_)
  dsimp only
  split
  · exact grows_raise _ _ _
  · split
    · exact grows_fail _ _ _
    · refine grows_bind_keep (grows_call _ _ (fun st => rfl)) (fun r1 => ?_)
      refine grows_bind_keep (grows_call _ _ (fun st => rfl)) (fun r2 => ?_)
      refine grows_bind_keep (grows_call _ _ (fun st => rfl)) (fun r3 => ?_)
      refine grows_bind_keep (grows_call _ _ (fun st => rfl)) (fun r4 => ?_)
      refine grows_bind_keep ?_ (fun r5 => ?_)
      · split
        · exact saveValidatorsTask_keeps o _ _
        · exact grows_pure _ _
      · split
        · exact grows_fail _ _ _
        · refine grows_bind_keep (grows_call _ _ (fun st => rfl)) (fun r => ?_)
          cases r with
          | error e => exact grows_fail _ _ _
          | ok u =>
            dsimp only
            split
            · exact updateEpochParticipation_keeps o _
            · exact grows_pure _ _

theorem updateEpochOnTransition_keeps (row : DbSlot) :
    Grows (updateEpochOnTransition (storeDeps o) row) [] [] := by
  unfold updateEpochOnTransition
  refine grows_bind_keep (checkDivisor_keeps _) (fun _ => ?_)
  split
  · exact updateEpochParticipation_keeps o _
  · exact grows_pure _ _

theorem headerRootEquals_keeps (header : Option Header) (blockRoot : Bytes) :
    Grows (headerRootEquals (storeDeps o) header blockRoot) [] [] := by
  unfold headerRootEquals
  split
  · exact grows_pure _ _
  · split
    · exact grows_raise _ _ _
    · exact grows_pure _ _

end StoreSteps

section TableLaws

theorem upsertRow_mem_slots (row : DbSlot) (rows : List DbSlot) (x : Nat) :
    x ∈ (upsertRow row rows).map (fun r => r.Slot) ↔ x = row.Slot ∨ x ∈ rows.map (fun r => r.Slot) := by
  induction rows with
  | nil => simp [upsertRow]
  | cons first rest ih =>
    unfold upsertRow
    by_cases h1 : row.Slot < first.Slot
    · rw [if_pos h1]
      simp only [List.map_cons, List.mem_cons]
    · rw [if_neg h1]
      by_cases h2 : row.Slot = first.Slot
      · rw [if_pos h2]
        by_cases h3 : first.Finalized = true
        · rw [if_pos h3]
          simp only [List.map_cons, List.mem_cons]
          rw [← h2]
          tauto
        · rw [if_neg h3]
          simp only [List.map_cons, List.mem_cons]
          rw [← h2]
          tauto
      · rw [if_neg h2]
        simp only [List.map_cons, List.mem_cons, ih]
        tauto

theorem upsertRow_sorted (row : DbSlot) (rows : List DbSlot)
    (h : (rows.map (fun r => r.Slot)).Pairwise (fun a b => a < b)) :
    ((upsertRow row rows).map (fun r => r.Slot)).Pairwise (fun a b => a < b) := by
  induction rows with
  | nil => simp [upsertRow]
  | cons first rest ih =>
    simp only [List.map_cons, List.pairwise_cons] at h
    obtain ⟨hfirst, hrest⟩ := h
    unfold upsertRow
    by_cases h1 : row.Slot < first.Slot
    · rw [if_pos h1]
      simp only [List.map_cons, List.pairwise_cons]
      refine ⟨?_, hfirst, hrest⟩
      intro y hy
      rcases List.mem_cons.mp hy with rfl | hy
      · exact h1
      · exact Nat.lt_trans h1 (hfirst y hy)
    · rw [if_neg h1]
      by_cases h2 : row.Slot = first.Slot
      · rw [if_pos h2]
        by_cases h3 : first.Finalized = true
        · rw [if_pos h3]
          simp only [List.map_cons, List.pairwise_cons]
          exact ⟨hfirst, hrest⟩
        · rw [if_neg h3]
          simp only [List.map_cons, List.pairwise_cons]
          exact ⟨fun y hy => h2 ▸ hfirst y hy, hrest⟩
      · rw [if_neg h2]
        simp only [List.map_cons, List.pairwise_cons]
        refine ⟨?_, ih hrest⟩
        intro y hy
        rcases (upsertRow_mem_slots row rest y).mp hy with rfl | hy
        · omega
        · exact hfirst y hy

theorem setRowStatus_slots (slot : Nat) (finalized : Bool) (status : String) (rows : List DbSlot) :
    (setRowStatus slot finalized status rows).map (fun r => r.Slot) = rows.map (fun r => r.Slot) := by
  unfold setRowStatus
  rw [List.map_map]
  apply List.map_congr_left
  intro r _
  simp only [Function.comp]
  split <;> rfl

theorem lastOf_mem (rest : List Nat) : ∀ first, lastOf rest first ∈ first :: rest := by
  induction rest with
  | nil =>
    intro first
    exact List.mem_cons_self _ _
  | cons next more ih =>
    intro first
    exact List.mem_cons_of_mem _ (ih next)

theorem lastSlotOf_cons (first : DbSlot) (rest : List DbSlot) :
    lastSlotOf (first :: rest) = .found (lastOf (rest.map (fun r => r.Slot)) first.Slot) := by
  induction rest generalizing first with
  | nil => rfl
  | cons next more ih =>
    show lastSlotOf (next :: more) = _
    rw [ih next]
    rfl

end TableLaws

section StoreWrites

variable (o : Outcomes)

theorem setSlotFinalizationAndStatus_keeps (slot : Nat) (finalized : Bool) (status : String) (st : Store) :
    ((storeDeps o).SetSlotFinalizationAndStatus slot finalized status st).2.slots = st.slots := by
  show (match o.writeError st.clock with
    | some e => ((Except.error e : Except String Unit), st.next)
    | none => (.ok (), ⟨setRowStatus slot finalized status st.blocks, st.clock + 1⟩)).2.slots = st.slots
  cases o.writeError st.clock with
  | some e => rfl
  | none => exact setRowStatus_slots slot finalized status st.blocks

theorem saveBlock_grows (hsave : ∀ t, o.saveBlockError t = none) (block : Block) :
    Grows (call (.SaveBlock block) ((storeDeps o).SaveBlock block)) [block.Slot] [block.Slot] := by
  intro st hwf a _
  have hst : (call (.SaveBlock block) ((storeDeps o).SaveBlock block) st).state =
      ⟨upsertRow ⟨block.Slot, block.BlockRoot, o.defaultStatus, false⟩ st.blocks, st.clock + 1⟩ := by
    show (match o.saveBlockError st.clock with
      | some e => ((Except.error e : Except String Unit), st.next)
      | none => (.ok (), ⟨upsertRow ⟨block.Slot, block.BlockRoot, o.defaultStatus, false⟩ st.blocks,
          st.clock + 1⟩)).2 = _
    rw [hsave]
  rw [hst]
  refine ⟨upsertRow_sorted _ _ hwf, ?_, ?_⟩
  · intro x hx
    apply (upsertRow_mem_slots _ _ x).mpr
    rcases hx with hx | hx
    · exact Or.inr hx
    · exact Or.inl (List.mem_singleton.mp hx)
  · intro x hx
    rcases (upsertRow_mem_slots _ _ x).mp hx with hx | hx
    · exact Or.inr (List.mem_singleton.mpr hx)
    · exact Or.inl hx

theorem exportSlotData_grows (hsave : ∀ t, o.saveBlockError t = none) (block : Block) :
    Grows (exportSlotData (storeDeps o) block) [block.Slot] [block.Slot] := by
  unfold exportSlotData
  refine grows_bind_keep (grows_call _ _ (fun st => rfl)) (fun r => ?_)
  cases r with
  | error e => exact grows_fail _ _ _
  | ok u =>
    refine grows_bind_keep (grows_call _ _ (fun st => rfl)) (fun r => ?_)
    cases r with
    | error e => exact grows_fail _ _ _
    | ok u =>
      refine grows_bind_keep (grows_call _ _ (fun st => rfl)) (fun r => ?_)
      cases r with
      | error e => exact grows_fail _ _ _
      | ok u => exact grows_bind_then_keep (saveBlock_grows o hsave block) (fun _ => grows_pure _ _)

/-- An export that returns `nil` leaves a row for its slot and adds no other slot. -/
theorem exportSlot_grows (hsave : ∀ t, o.saveBlockError t = none)
    (hnode : ∀ t slot block, o.block t slot = .ok block → block.Slot = slot)
    (fuel slot : Nat) (isHeadEpoch : Bool) :
    Grows (ExportSlot (storeDeps o) fuel slot isHeadEpoch) [slot] [slot] := by
  unfold ExportSlot
  refine grows_bind_keep (grows_enter _) (fun _ => ?_)
  refine grows_call_bind _ _ _ _ _ (fun st => rfl) (fun st => ?_)
  show Grows (match o.block st.clock slot with
    | .error e => fail ("error retrieving data for slot: " ++ e)
    | .ok block => _) [slot] [slot]
  cases hb : o.block st.clock slot with
  | error e => exact grows_fail _ _ _
  | ok block =>
    have hslot := hnode _ _ _ hb
    subst hslot
    refine grows_bind_keep ?_ (fun _ => exportSlotData_grows o hsave block)
    split
    · exact exportEpochAssignments_keeps o fuel _ isHeadEpoch block _
    · exact grows_pure _ _

end StoreWrites

section StoreLoops

variable (o : Outcomes)

/-- A loop whose upper bound is at least `2 ^ 64 - 1` returns no value. -/
theorem forSlots_never_ok {σ : Type} (body : Nat → Exec σ Unit) (hi : Nat) (hhi : twoPow64 ≤ hi + 1)
    (fuel : Nat) : ∀ (lo : Nat) (s : σ), lo < twoPow64 → ∀ a, (forSlots fuel lo hi body s).result ≠ .ok a := by
  induction fuel with
  | zero =>
    intro lo s _ a h
    cases h
  | succ k ih =>
    intro lo s hlo a h
    have hle : lo ≤ hi := by omega
    unfold forSlots at h
    rw [if_pos hle] at h
    cases hb : (body lo s).result with
    | error e =>
      rw [bind_run_error _ _ _ e hb] at h
      cases h
    | ok u =>
      rw [bind_run_ok _ _ _ u hb] at h
      exact ih (addU64 lo 1) _ (Nat.mod_lt _ (by unfold twoPow64; omega)) a h

/-- A loop over `lo, ..., hi` whose body leaves a row for its slot leaves a row for each of them. -/
theorem forSlots_grows (body : Nat → Exec Store Unit) (hbody : ∀ x, Grows (body x) [x] [x]) (hi : Nat)
    (fuel : Nat) : ∀ lo, lo < twoPow64 →
      Grows (forSlots fuel lo hi body) (List.range' lo (hi + 1 - lo)) (List.range' lo (hi + 1 - lo)) := by
  induction fuel with
  | zero =>
    intro lo _
    exact grows_raise _ _ _
  | succ k ih =>
    intro lo hlo
    by_cases hle : lo ≤ hi
    · by_cases hwrap : twoPow64 ≤ hi + 1
      · intro st _ a ha
        exact absurd ha (forSlots_never_ok body hi hwrap (k + 1) lo st hlo a)
      · have hadd : addU64 lo 1 = lo + 1 := addU64_one lo (by omega)
        have hlen : hi + 1 - lo = (hi + 1 - (lo + 1)) + 1 := by omega
        unfold forSlots
        rw [if_pos hle, hadd, hlen, List.range'_succ]
        exact grows_bind (hbody lo) (fun _ => ih (lo + 1) (by omega))
    · have hlen : hi + 1 - lo = 0 := by omega
      unfold forSlots
      rw [if_neg hle, hlen]
      exact grows_pure _ _

theorem exportSlot_wrapped_grows (hsave : ∀ t, o.saveBlockError t = none)
    (hnode : ∀ t slot block, o.block t slot = .ok block → block.Slot = slot)
    (fuel slot : Nat) (isHeadEpoch : Bool) :
    Grows (wrapError "error exporting slot: " (ExportSlot (storeDeps o) fuel slot isHeadEpoch)) [slot] [slot] :=
  grows_wrapError _ (exportSlot_grows o hsave hnode fuel slot isHeadEpoch)

/-- The loop over the adjacent pairs leaves a row for every slot of the gaps. -/
theorem exportGaps_grows (hsave : ∀ t, o.saveBlockError t = none)
    (hnode : ∀ t slot block, o.block t slot = .ok block → block.Slot = slot)
    (fuel : Nat) (dbSlots : List DbSlot) :
    (dbSlots.map (fun x => x.Slot)).Pairwise (fun a b => a < b) →
    (∀ x ∈ dbSlots, x.Slot < twoPow64) →
    Grows (exportGaps (storeDeps o) fuel dbSlots) (gapSlots (dbSlots.map (fun x => x.Slot)))
      (gapSlots (dbSlots.map (fun x => x.Slot))) := by
  induction dbSlots with
  | nil =>
    intro _ _
    exact grows_pure _ _
  | cons a rest ih =>
    intro hasc hbound
    cases rest with
    | nil => exact grows_pure _ _
    | cons b rest =>
      simp only [List.map_cons] at hasc
      have hab : a.Slot < b.Slot := List.rel_of_pairwise_cons hasc (List.mem_cons_self _ _)
      have hb64 : b.Slot < twoPow64 := hbound b (by simp)
      have hsub : subU64 b.Slot 1 = b.Slot - 1 := subU64_one _ (by omega) hb64
      have hadd : addU64 a.Slot 1 = a.Slot + 1 := addU64_one _ (by omega)
      have htail := ih (List.Pairwise.of_cons hasc) (fun x hx => hbound x (List.mem_cons_of_mem _ hx))
      unfold exportGaps
      simp only [hsub, hadd]
      show Grows _ (List.range' (a.Slot + 1) (b.Slot - (a.Slot + 1)) ++ gapSlots (List.map (fun x => x.Slot) (b :: rest)))
        (List.range' (a.Slot + 1) (b.Slot - (a.Slot + 1)) ++ gapSlots (List.map (fun x => x.Slot) (b :: rest)))
      refine grows_bind ?_ (fun _ => htail)
      by_cases hgap : a.Slot ≠ b.Slot - 1
      · rw [if_pos hgap]
        have hlen : b.Slot - (a.Slot + 1) = b.Slot - 1 + 1 - (a.Slot + 1) := by omega
        rw [hlen]
        exact forSlots_grows _ (fun x => exportSlot_wrapped_grows o hsave hnode fuel x false) _ fuel _
          (by omega)
      · have h0 : b.Slot - (a.Slot + 1) = 0 := by omega
        rw [if_neg hgap, h0]
        exact grows_pure _ _

end StoreLoops

section TickPhases

variable (o : Outcomes) (hsave : ∀ t, o.saveBlockError t = none)
  (hnode : ∀ t slot block, o.block t slot = .ok block → block.Slot = slot)
include hsave hnode

/-- The table after a gap back-fill that returns `nil`. -/
theorem backfillGaps_table (fuel : Nat) (firstRun : Bool) (st : Store)
    (hwf : st.WellFormed) (hbound : ∀ x ∈ st.slots, x < twoPow64)
    (hholes : firstRun = true ∨ missingSlots st.slots = [])
    (hok : (backfillGaps (storeDeps o) fuel firstRun st).result = .ok ()) :
    (backfillGaps (storeDeps o) fuel firstRun st).state.WellFormed ∧
      ∀ x, x ∈ (backfillGaps (storeDeps o) fuel firstRun st).state.slots ↔
        x ∈ st.slots ∨ x ∈ gapSlots st.slots := by
  cases firstRun with
  | false =>
    have hrun : backfillGaps (storeDeps o) fuel false st = ⟨.ok (), st, []⟩ := rfl
    have hnone : gapSlots st.slots = [] := by
      rw [gapSlots_eq_missingSlots _ hwf]
      rcases hholes with h | h
      · cases h
      · exact h
    rw [hrun, hnone]
    exact ⟨hwf, fun x => by simp⟩
  | true =>
    have hread : (storeDeps o).GetAllSlots st =
        (match o.readError st.clock with
          | some e => .error e
          | none => .ok st.blocks, st.next) := rfl
    unfold backfillGaps at hok ⊢
    simp only [if_true, bind_run, call_run, hread] at hok ⊢
    cases hre : o.readError st.clock with
    | some e =>
      rw [hre] at hok
      cases hok
    | none =>
      rw [hre] at hok
      dsimp only at hok ⊢
      have hb2 : ∀ x ∈ st.blocks, x.Slot < twoPow64 :=
        fun x hx => hbound x.Slot (List.mem_map.mpr ⟨x, hx, rfl⟩)
      obtain ⟨h1, h2, h3⟩ := exportGaps_grows o hsave hnode fuel st.blocks hwf hb2 st.next hwf () hok
      exact ⟨h1, fun x => ⟨h3 x, h2 x⟩⟩

/-- The table after the loop of lines 72-79, from a table with the slots `0, ..., last`. -/
theorem catchUpLoop_table (fuel : Nat) (head : ChainHead) (last : Nat) (st : Store)
    (hwf : st.WellFormed) (hlast : last < twoPow64) (hmem : ∀ x, x ∈ st.slots ↔ x ≤ last)
    (hok : ((if last ≠ head.HeadSlot then
        forSlots fuel (addU64 last 1) head.HeadSlot (fun slot =>
          wrapError "error exporting slot: "
            (ExportSlot (storeDeps o) fuel slot ((storeDeps o).EpochOfSlot slot == head.HeadEpoch)))
      else pure ()) st).result = .ok ()) :
    ((if last ≠ head.HeadSlot then
        forSlots fuel (addU64 last 1) head.HeadSlot (fun slot =>
          wrapError "error exporting slot: "
            (ExportSlot (storeDeps o) fuel slot ((storeDeps o).EpochOfSlot slot == head.HeadEpoch)))
      else pure ()) st).state.WellFormed ∧
    ∀ x, x ∈ ((if last ≠ head.HeadSlot then
        forSlots fuel (addU64 last 1) head.HeadSlot (fun slot =>
          wrapError "error exporting slot: "
            (ExportSlot (storeDeps o) fuel slot ((storeDeps o).EpochOfSlot slot == head.HeadEpoch)))
      else pure ()) st).state.slots ↔ x ≤ max last head.HeadSlot := by
  by_cases hne : last ≠ head.HeadSlot
  · rw [if_pos hne] at hok ⊢
    have hlo : addU64 last 1 < twoPow64 := Nat.mod_lt _ (by unfold twoPow64; omega)
    obtain ⟨h1, h2, h3⟩ := forSlots_grows _
      (fun x => exportSlot_wrapped_grows o hsave hnode fuel x ((storeDeps o).EpochOfSlot x == head.HeadEpoch))
      head.HeadSlot fuel (addU64 last 1) hlo st hwf () hok
    refine ⟨h1, fun x => ⟨fun hx => ?_, fun hx => h2 x ?_⟩⟩
    · rcases h3 x hx with hx | hx
      · have := (hmem x).mp hx
        omega
      · rw [List.mem_range'_1] at hx
        have hcases : addU64 last 1 = last + 1 ∨ addU64 last 1 = 0 := by
          unfold addU64 twoPow64 at *
          omega
        omega
    · rw [hmem, List.mem_range'_1]
      have hcases : addU64 last 1 = last + 1 ∨ (addU64 last 1 = 0 ∧ last + 1 = twoPow64) := by
        unfold addU64 twoPow64 at *
        omega
      omega
  · have heq : last = head.HeadSlot := by omega
    rw [if_neg hne]
    refine ⟨hwf, fun x => ?_⟩
    show x ∈ st.slots ↔ _
    rw [hmem]
    omega

/-- The table after a head catch-up that returns `nil`, from a table with the slots `0, ..., last`. -/
theorem catchUpHead_table (fuel : Nat) (head : ChainHead) (last : Nat) (st : Store)
    (hwf : st.WellFormed) (hlast : last < twoPow64) (hmem : ∀ x, x ∈ st.slots ↔ x ≤ last)
    (hok : (catchUpHead (storeDeps o) fuel head st).result = .ok ()) :
    (catchUpHead (storeDeps o) fuel head st).state.WellFormed ∧
      ∀ x, x ∈ (catchUpHead (storeDeps o) fuel head st).state.slots ↔ x ≤ max last head.HeadSlot := by
  have hfound : lastSlotOf st.blocks = .found last := by
    cases hb : st.blocks with
    | nil =>
      have h0 : (0 : Nat) ∈ st.slots := (hmem 0).mpr (Nat.zero_le _)
      unfold Store.slots at h0
      rw [hb] at h0
      cases h0
    | cons first rest =>
      rw [lastSlotOf_cons]
      have hs : st.slots = first.Slot :: rest.map (fun r => r.Slot) := by
        unfold Store.slots
        rw [hb]
        rfl
      have hwf2 : (first.Slot :: rest.map (fun r => r.Slot)).Pairwise (fun a b => a < b) := by
        rw [← hs]
        exact hwf
      have h1 := lastOf_mem (rest.map (fun r => r.Slot)) first.Slot
      rw [← hs] at h1
      have h2 := le_lastOf _ _ hwf2 last (by rw [← hs]; exact (hmem last).mpr (Nat.le_refl _))
      have h3 := (hmem _).mp h1
      congr 1
      omega
  have hget : ((storeDeps o).GetLastSlot st) =
      (match o.readError st.clock with
        | some e => .failed e
        | none => lastSlotOf st.blocks, st.next) := rfl
  have hwf2 : st.next.WellFormed := hwf
  have hmem2 : ∀ x, x ∈ st.next.slots ↔ x ≤ last := hmem
  unfold catchUpHead at hok ⊢
  cases hre : o.readError st.clock with
  | some e =>
    simp only [bind_run, call_run, hget, hre, fail_run] at hok
    cases hok
  | none =>
    simp only [bind_run, call_run, hget, hre, hfound, pure_run, List.append_nil] at hok ⊢
    exact catchUpLoop_table o hsave hnode fuel head last st.next hwf2 hlast hmem2 hok

/-- The table after a head catch-up that returns `nil`, from the empty table. -/
theorem catchUpHead_table_empty (fuel : Nat) (head : ChainHead) (st : Store)
    (hempty : st.blocks = [])
    (hok : (catchUpHead (storeDeps o) fuel head st).result = .ok ()) :
    (catchUpHead (storeDeps o) fuel head st).state.WellFormed ∧
      ∀ x, x ∈ (catchUpHead (storeDeps o) fuel head st).state.slots ↔ x ≤ max 0 head.HeadSlot := by
  have hget : ((storeDeps o).GetLastSlot st) =
      (match o.readError st.clock with
        | some e => .failed e
        | none => .noRows, st.next) := by
    show (_, _) = _
    rw [hempty]
    rfl
  have hwf2 : st.next.WellFormed := by
    unfold Store.WellFormed Store.slots Store.next
    rw [hempty]
    exact List.Pairwise.nil
  have hnil : st.next.slots = [] := by
    unfold Store.slots Store.next
    rw [hempty]
    rfl
  unfold catchUpHead at hok ⊢
  cases hre : o.readError st.clock with
  | some e =>
    simp only [bind_run, call_run, hget, hre, fail_run] at hok
    cases hok
  | none =>
    cases hw : (wrapError "error exporting slot: "
        (ExportSlot (storeDeps o) fuel 0 ((storeDeps o).EpochOfSlot 0 == head.HeadEpoch)) st.next).result with
    | error e =>
      simp only [bind_run, call_run, hget, hre, hw] at hok
      cases hok
    | ok u =>
      simp only [bind_run, call_run, hget, hre, hw, pure_run, List.append_nil] at hok ⊢
      obtain ⟨h1, h2, h3⟩ := exportSlot_wrapped_grows o hsave hnode fuel 0
        ((storeDeps o).EpochOfSlot 0 == head.HeadEpoch) st.next hwf2 u hw
      refine catchUpLoop_table o hsave hnode fuel head 0 _ h1 (by unfold twoPow64; omega) ?_ hok
      intro x
      constructor
      · intro hx
        rcases h3 x hx with hx | hx
        · rw [hnil] at hx
          cases hx
        · rw [List.mem_singleton] at hx
          omega
      · intro hx
        exact h2 x (Or.inr (List.mem_singleton.mpr (by omega)))

theorem markFinalized_grows (fuel : Nat) (head : ChainHead) (row : DbSlot) (header : Option Header)
    (nf : Bool) : Grows (markFinalized (storeDeps o) fuel head row header nf) [] [row.Slot] := by
  have hupd : ∀ status (k : Except String Unit → Exec Store Unit), (∀ r, Grows (k r) [] [row.Slot]) →
      Grows (call (.SetSlotFinalizationAndStatus row.Slot nf status)
        ((storeDeps o).SetSlotFinalizationAndStatus row.Slot nf status) >>= k) [] [row.Slot] :=
    fun status k hk =>
      grows_bind_keep (grows_call _ _ (setSlotFinalizationAndStatus_keeps o row.Slot nf status)) hk
  unfold markFinalized
  refine grows_bind_keep (headerRootEquals_keeps o header row.BlockRoot) (fun b => ?_)
  split
  · refine hupd _ _ (fun r => ?_)
    cases r with
    | error e => exact grows_fail _ _ _
    | ok u => exact grows_pure _ _
  · split
    · refine hupd _ _ (fun r => ?_)
      cases r with
      | error e => exact grows_fail _ _ _
      | ok u => exact grows_pure _ _
    · split
      · refine hupd _ _ (fun r => ?_)
        cases r with
        | error e => exact grows_fail _ _ _
        | ok u => exact grows_pure _ _
      · refine grows_bind_keep (headerRootEquals_keeps o header row.BlockRoot) (fun b => ?_)
        split
        · refine hupd _ _ (fun r => ?_)
          cases r with
          | error e => exact grows_fail _ _ _
          | ok u =>
            exact grows_weaken (exportSlot_wrapped_grows o hsave hnode fuel row.Slot _)
              (fun _ hx => by cases hx) (fun _ hx => hx)
        · exact grows_pure _ _

theorem reconcileSlot_grows (fuel : Nat) (head : ChainHead) (row : DbSlot) :
    Grows (reconcileSlot (storeDeps o) fuel head row) [] [row.Slot] := by
  unfold reconcileSlot
  refine grows_bind_keep (grows_call _ _ (fun st => rfl)) (fun r => ?_)
  cases r with
  | error e => exact grows_fail _ _ _
  | ok header =>
    dsimp only
    split
    · exact grows_bind_then_keep (markFinalized_grows o hsave hnode fuel head row header _)
        (fun _ => updateEpochOnTransition_keeps o row)
    · split
      · exact grows_weaken (exportSlot_wrapped_grows o hsave hnode fuel row.Slot _)
          (fun _ hx => by cases hx) (fun _ hx => hx)
      · exact grows_pure _ _

omit hsave hnode in
theorem forRange_grows {α : Type} (body : α → Exec Store Unit) (slotOf : α → Nat)
    (hbody : ∀ x, Grows (body x) [] [slotOf x]) (xs : List α) :
    Grows (forRange xs body) [] (xs.map slotOf) := by
  induction xs with
  | nil => exact grows_pure _ _
  | cons x rest ih =>
    unfold forRange
    exact grows_bind (hbody x) (fun _ => ih)

/-- The reconciliation keeps the slots of the table. -/
theorem reconcileNonFinalized_table (fuel : Nat) (head : ChainHead) (st : Store) (hwf : st.WellFormed)
    (hok : (reconcileNonFinalized (storeDeps o) fuel head st).result = .ok ()) :
    ∀ x, x ∈ (reconcileNonFinalized (storeDeps o) fuel head st).state.slots ↔ x ∈ st.slots := by
  have hread : (storeDeps o).GetAllNonFinalizedSlots st =
      (match o.readError st.clock with
        | some e => .error e
        | none => .ok (st.blocks.filter (fun row => !row.Finalized)), st.next) := rfl
  unfold reconcileNonFinalized at hok ⊢
  simp only [bind_run, call_run, hread] at hok ⊢
  cases hre : o.readError st.clock with
  | some e =>
    rw [hre] at hok
    cases hok
  | none =>
    rw [hre] at hok
    dsimp only at hok ⊢
    obtain ⟨-, h2, h3⟩ := forRange_grows (reconcileSlot (storeDeps o) fuel head) (fun row => row.Slot)
      (fun row => reconcileSlot_grows o hsave hnode fuel head row)
      (st.blocks.filter (fun row => !row.Finalized)) st.next hwf () hok
    intro x
    constructor
    · intro hx
      rcases h3 x hx with hx | hx
      · exact hx
      · obtain ⟨row, hrow, rfl⟩ := List.mem_map.mp hx
        exact List.mem_map.mpr ⟨row, (List.mem_filter.mp hrow).1, rfl⟩
    · intro hx
      exact h2 x (Or.inl hx)

end TickPhases

/-- On a strictly ascending list, the entries and the slots of the gaps are the
slots from the first to the last entry. -/
theorem mem_or_gapSlots (first : Nat) (rest : List Nat)
    (hasc : (first :: rest).Pairwise (fun a b => a < b)) (x : Nat) :
    (x ∈ first :: rest ∨ x ∈ gapSlots (first :: rest)) ↔ first ≤ x ∧ x ≤ lastOf rest first := by
  have hle := le_lastOf rest first hasc
  have hlast := lastOf_mem rest first
  have hfirst : ∀ y ∈ first :: rest, first ≤ y := by
    intro y hy
    rcases List.mem_cons.mp hy with rfl | hy
    · exact Nat.le_refl _
    · exact Nat.le_of_lt (List.rel_of_pairwise_cons hasc hy)
  rw [mem_gapSlots rest first hasc]
  constructor
  · rintro (h | ⟨h1, h2, -⟩)
    · exact ⟨hfirst x h, hle x h⟩
    · exact ⟨Nat.le_of_lt h1, Nat.le_of_lt h2⟩
  · rintro ⟨h1, h2⟩
    by_cases hmem : x ∈ first :: rest
    · exact Or.inl hmem
    · right
      have hne1 : x ≠ first := fun h => hmem (h ▸ List.mem_cons_self _ _)
      have hne2 : x ≠ lastOf rest first := fun h => hmem (h ▸ hlast)
      exact ⟨by omega, by omega, hmem⟩

/-- The contiguity that a tick does establish: after a tick that returns
`nil`, when the blocks table at the start is empty or has a row for slot 0, the
tick is a first run or the table at the start has no holes, every `SaveBlock`
succeeds and the node answers `GetBlockBySlot(s)` with a block of slot `s`, the
set of the slots that have a row is exactly `{0, 1, ..., max}`, where `max` is
the larger of the last slot of the table at the start and of `head.head_slot`;
the outcomes of the other writes are arbitrary. -/
theorem contiguity_of_clean_tick (o : Outcomes) (fuel : Nat) (firstRun : Bool) (st : Store) (head : ChainHead)
    (hwf : st.WellFormed) (hbound : ∀ x ∈ st.slots, x < twoPow64)
    (hzero : st.slots = [] ∨ 0 ∈ st.slots)
    (hholes : firstRun = true ∨ missingSlots st.slots = [])
    (hsave : ∀ t, o.saveBlockError t = none)
    (hnode : ∀ t slot block, o.block t slot = .ok block → block.Slot = slot)
    (hok : (RunSlotExporter (storeDeps o) fuel firstRun st).result = .ok ())
    (hhead : ((storeDeps o).GetChainHead (backfillGaps (storeDeps o) fuel firstRun st).state).1 = .ok head) :
    ∀ x, x ∈ (RunSlotExporter (storeDeps o) fuel firstRun st).state.slots ↔
      x ≤ max (lastSlotOrZero st.slots) head.HeadSlot := by
  obtain ⟨hback, head1, hh, hcatch, hrec, -, hstate⟩ := runSlotExporter_ok (storeDeps o) fuel firstRun st hok
  rw [hhead] at hh
  cases hh
  obtain ⟨hwf1, hmem1⟩ := backfillGaps_table o hsave hnode fuel firstRun st hwf hbound hholes hback
  have hwf2 : ((storeDeps o).GetChainHead (backfillGaps (storeDeps o) fuel firstRun st).state).2.WellFormed :=
    hwf1
  have hmem2 : ∀ x, x ∈ ((storeDeps o).GetChainHead
      (backfillGaps (storeDeps o) fuel firstRun st).state).2.slots ↔ x ∈ st.slots ∨ x ∈ gapSlots st.slots :=
    hmem1
  rw [hstate]
  suffices h3 : (catchUpHead (storeDeps o) fuel head ((storeDeps o).GetChainHead
        (backfillGaps (storeDeps o) fuel firstRun st).state).2).state.WellFormed ∧
      ∀ x, x ∈ (catchUpHead (storeDeps o) fuel head ((storeDeps o).GetChainHead
        (backfillGaps (storeDeps o) fuel firstRun st).state).2).state.slots ↔
        x ≤ max (lastSlotOrZero st.slots) head.HeadSlot by
    intro x
    rw [reconcileNonFinalized_table o hsave hnode fuel head _ h3.1 hrec x]
    exact h3.2 x
  cases hs : st.slots with
  | nil =>
    rw [hs] at hmem2
    have hempty : ((storeDeps o).GetChainHead
        (backfillGaps (storeDeps o) fuel firstRun st).state).2.blocks = [] := by
      have hnil : ((storeDeps o).GetChainHead
          (backfillGaps (storeDeps o) fuel firstRun st).state).2.slots = [] := by
        rw [List.eq_nil_iff_forall_not_mem]
        intro x hx
        rcases (hmem2 x).mp hx with h | h
        · cases h
        · cases h
      exact List.map_eq_nil_iff.mp hnil
    exact catchUpHead_table_empty o hsave hnode fuel head _ hempty hcatch
  | cons first rest =>
    have hasc : (first :: rest).Pairwise (fun a b => a < b) := by
      rw [← hs]
      exact hwf
    have hfirst : first = 0 := by
      rcases hzero with h | h
      · rw [hs] at h
        cases h
      · rw [hs] at h
        rcases List.mem_cons.mp h with h | h
        · exact h.symm
        · have := List.rel_of_pairwise_cons hasc h
          omega
    have hlast : lastOf rest first < twoPow64 :=
      hbound _ (by rw [hs]; exact lastOf_mem rest first)
    rw [hs] at hmem2
    refine catchUpHead_table o hsave hnode fuel head (lastOf rest first) _ hwf2 hlast ?_ hcatch
    intro x
    rw [hmem2 x, mem_or_gapSlots first rest hasc x, hfirst]
    omega

/-- Scenario S2: the first run over the table with the slots 0, 1, 2, 4, 5 and
the head at slot 5 leaves the slots 0 to 5. -/
theorem contiguity_of_clean_tick_S2 :
    (3 ∈ (RunSlotExporter (storeDeps (calmOutcomes ⟨5, 0, 0⟩)) 6 true tableS2).state.slots ↔
      3 ≤ max (lastSlotOrZero tableS2.slots) 5) ∧
    (6 ∈ (RunSlotExporter (storeDeps (calmOutcomes ⟨5, 0, 0⟩)) 6 true tableS2).state.slots ↔
      6 ≤ max (lastSlotOrZero tableS2.slots) 5) :=
  ⟨contiguity_of_clean_tick (calmOutcomes ⟨5, 0, 0⟩) 6 true tableS2 ⟨5, 0, 0⟩
      (by unfold Store.WellFormed; decide) (by decide)
      (Or.inr (by decide)) (Or.inl rfl) (fun _ => rfl)
      (fun _ _ _ h => by cases h; rfl) (by rfl) (by rfl) 3,
    contiguity_of_clean_tick (calmOutcomes ⟨5, 0, 0⟩) 6 true tableS2 ⟨5, 0, 0⟩
      (by unfold Store.WellFormed; decide) (by decide)
      (Or.inr (by decide)) (Or.inl rfl) (fun _ => rfl)
      (fun _ _ _ h => by cases h; rfl) (by rfl) (by rfl) 6⟩

/-! ### The writes of a slot -/

/-- C11. Per-slot write order and error policy: for a slot whose block is
fetched successfully and carries no epoch assignments, `ExportSlot` issues
`SaveAttestationDuties`, `SaveSyncComitteeDuties`, `SaveProposal` and
`SaveBlock` in this order and stops at the first of the three C3 writes that
fails; it returns an error exactly when one of these three writes fails,
`SaveBlock` is invoked exactly when the three succeeded, and the result is then
`nil` whatever `SaveBlock` returns. -/
theorem slot_write_order {σ : Type} (d : Deps σ) (fuel slot : Nat) (isHeadEpoch : Bool) (s : σ)
    (block : Block)
    (hblock : (d.GetBlockBySlot slot s).1 = .ok block)
    (hassign : block.EpochAssignments = none) :
    (ExportSlot d fuel slot isHeadEpoch s).calls =
        [.ExportSlot slot isHeadEpoch, .GetBlockBySlot slot, .SaveAttestationDuties (slotAttDuties block)] ++
          (if succeeded (d.SaveAttestationDuties (slotAttDuties block) (d.GetBlockBySlot slot s).2).1 then
            .SaveSyncComitteeDuties (slotSyncDuties block) ::
              (if succeeded (d.SaveSyncComitteeDuties (slotSyncDuties block)
                  (d.SaveAttestationDuties (slotAttDuties block) (d.GetBlockBySlot slot s).2).2).1 then
                .SaveProposal block ::
                  (if succeeded (d.SaveProposal block
                      (d.SaveSyncComitteeDuties (slotSyncDuties block)
                        (d.SaveAttestationDuties (slotAttDuties block) (d.GetBlockBySlot slot s).2).2).2).1
                    then [.SaveBlock block]
                    else [])
              else [])
          else []) ∧
      (ExportSlot d fuel slot isHeadEpoch s).returnsError =
        !(succeeded (d.SaveAttestationDuties (slotAttDuties block) (d.GetBlockBySlot slot s).2).1 &&
          succeeded (d.SaveSyncComitteeDuties (slotSyncDuties block)
            (d.SaveAttestationDuties (slotAttDuties block) (d.GetBlockBySlot slot s).2).2).1 &&
          succeeded (d.SaveProposal block
            (d.SaveSyncComitteeDuties (slotSyncDuties block)
              (d.SaveAttestationDuties (slotAttDuties block) (d.GetBlockBySlot slot s).2).2).2).1) ∧
      (ExportSlot d fuel slot isHeadEpoch s).returnsNil =
        (succeeded (d.SaveAttestationDuties (slotAttDuties block) (d.GetBlockBySlot slot s).2).1 &&
          succeeded (d.SaveSyncComitteeDuties (slotSyncDuties block)
            (d.SaveAttestationDuties (slotAttDuties block) (d.GetBlockBySlot slot s).2).2).1 &&
          succeeded (d.SaveProposal block
            (d.SaveSyncComitteeDuties (slotSyncDuties block)
              (d.SaveAttestationDuties (slotAttDuties block) (d.GetBlockBySlot slot s).2).2).2).1) := by
  unfold ExportSlot exportSlotData
  simp only [bind_run, enter_run, call_run, hblock, hassign, pure_run]
  cases ha : (d.SaveAttestationDuties (slotAttDuties block) (d.GetBlockBySlot slot s).2).1 with
  | error e => simp [succeeded, Run.returnsError, Run.returnsNil]
  | ok u1 =>
    simp only [bind_run, call_run]
    cases hs : (d.SaveSyncComitteeDuties (slotSyncDuties block)
        (d.SaveAttestationDuties (slotAttDuties block) (d.GetBlockBySlot slot s).2).2).1 with
    | error e => simp [succeeded, Run.returnsError, Run.returnsNil]
    | ok u2 =>
      simp only [bind_run, call_run]
      cases hp : (d.SaveProposal block
          (d.SaveSyncComitteeDuties (slotSyncDuties block)
            (d.SaveAttestationDuties (slotAttDuties block) (d.GetBlockBySlot slot s).2).2).2).1 with
      | error e => simp [succeeded, Run.returnsError, Run.returnsNil]
      | ok u3 => simp [bind_run, succeeded, Run.returnsError, Run.returnsNil]

/-- The export of slot 3 into a blocks table that rejects `SaveBlock`: the four
writes are issued in order and the result is `nil`. -/
theorem slot_write_order_witness :
    (ExportSlot (storeDeps saveBlockDown) 0 3 false tableS2).calls =
        [.ExportSlot 3 false, .GetBlockBySlot 3, .SaveAttestationDuties [],
          .SaveSyncComitteeDuties [(3, [])], .SaveProposal (plainBlock 3 rootR1),
          .SaveBlock (plainBlock 3 rootR1)] ∧
      (ExportSlot (storeDeps saveBlockDown) 0 3 false tableS2).returnsError = false ∧
      (ExportSlot (storeDeps saveBlockDown) 0 3 false tableS2).returnsNil = true :=
  slot_write_order (storeDeps saveBlockDown) 0 3 false tableS2 (plainBlock 3 rootR1) rfl rfl

/-! ### The attestation duties of a slot -/

section GoMapLaws

variable {κ ν : Type} [DecidableEq κ]

theorem GoMap.get_set_self (m : GoMap κ ν) (k : κ) (v : ν) : GoMap.get (GoMap.set m k v) k = some v := by
  induction m with
  | nil => simp [GoMap.set, GoMap.get]
  | cons first rest ih =>
    obtain ⟨k1, v1⟩ := first
    unfold GoMap.set
    by_cases h : k1 = k
    · rw [if_pos h]
      simp [GoMap.get]
    · rw [if_neg h]
      unfold GoMap.get
      rw [if_neg h]
      exact ih

theorem GoMap.get_set_of_ne (m : GoMap κ ν) (k : κ) (v : ν) (k2 : κ) (hne : k2 ≠ k) :
    GoMap.get (GoMap.set m k v) k2 = GoMap.get m k2 := by
  induction m with
  | nil =>
    have h : ¬ k = k2 := fun h => hne h.symm
    simp [GoMap.set, GoMap.get, h]
  | cons first rest ih =>
    obtain ⟨k1, v1⟩ := first
    unfold GoMap.set
    by_cases h : k1 = k
    · rw [if_pos h]
      have h2 : ¬ k = k2 := fun h => hne h.symm
      have h3 : ¬ k1 = k2 := fun h3 => h2 (h ▸ h3)
      simp [GoMap.get, h2, h3]
    · rw [if_neg h]
      unfold GoMap.get
      by_cases h4 : k1 = k2
      · rw [if_pos h4, if_pos h4]
      · rw [if_neg h4, if_neg h4]
        exact ih

theorem GoMap.get_of_not_mem_keys (m : GoMap κ ν) (k : κ) (h : k ∉ m.map Prod.fst) :
    GoMap.get m k = none := by
  induction m with
  | nil => rfl
  | cons first rest ih =>
    obtain ⟨k1, v1⟩ := first
    simp only [List.map_cons, List.mem_cons, not_or] at h
    unfold GoMap.get
    rw [if_neg (fun h1 => h.1 h1.symm)]
    exact ih h.2

/-- In a map with distinct keys, a read returns the value of the entry of the key. -/
theorem GoMap.get_eq_some_iff (m : GoMap κ ν) (hkeys : (m.map Prod.fst).Nodup) (k : κ) (v : ν) :
    GoMap.get m k = some v ↔ (k, v) ∈ m := by
  induction m with
  | nil => simp [GoMap.get]
  | cons first rest ih =>
    obtain ⟨k1, v1⟩ := first
    simp only [List.map_cons, List.nodup_cons] at hkeys
    unfold GoMap.get
    by_cases h : k1 = k
    · subst h
      rw [if_pos rfl]
      constructor
      · intro hv
        cases hv
        exact List.mem_cons_self _ _
      · intro hmem
        rcases List.mem_cons.mp hmem with heq | hmem
        · cases heq
          rfl
        · exact absurd (List.mem_map.mpr ⟨(k1, v), hmem, rfl⟩) hkeys.1
    · rw [if_neg h, ih hkeys.2]
      constructor
      · exact fun hmem => List.mem_cons_of_mem _ hmem
      · intro hmem
        rcases List.mem_cons.mp hmem with heq | hmem
        · cases heq
          exact absurd rfl h
        · exact hmem

/-- The reads of a map with distinct keys do not depend on the order of its entries. -/
theorem GoMap.get_eq_of_perm (m1 m2 : GoMap κ ν) (hperm : List.Perm m1 m2)
    (hkeys : (m2.map Prod.fst).Nodup) (k : κ) : GoMap.get m1 k = GoMap.get m2 k := by
  have hkeys1 : (m1.map Prod.fst).Nodup := (hperm.map Prod.fst).nodup_iff.mpr hkeys
  apply Option.ext
  intro v
  rw [Option.mem_def, Option.mem_def, GoMap.get_eq_some_iff m1 hkeys1, GoMap.get_eq_some_iff m2 hkeys]
  exact hperm.mem_iff

end GoMapLaws

section DutyEntries

/-- One round of the loop of lines 294-302: the entry of `(attestedSlot, validator)` gains the slot of the block. -/
theorem dutyEntry_step (blockSlot validator attestedSlot : Nat) (m : GoMap Nat (GoMap Nat (List Nat)))
    (a v : Nat) :
    dutyEntry (slotAttDutiesOf blockSlot validator [attestedSlot] m) a v =
      if a = attestedSlot ∧ v = validator then
        some ((dutyEntry m attestedSlot validator).getD [] ++ [blockSlot])
      else dutyEntry m a v := by
  unfold slotAttDutiesOf
  simp only [List.foldl_cons, List.foldl_nil]
  by_cases ha : a = attestedSlot
  · subst ha
    by_cases hv : v = validator
    · subst hv
      cases hm : GoMap.get m a with
      | none => simp [dutyEntry, hm, GoMap.get_set_self, GoMap.get, GoMap.set]
      | some inner =>
        cases hi : GoMap.get inner v with
        | none => simp [dutyEntry, hm, hi, GoMap.get_set_self]
        | some old => simp [dutyEntry, hm, hi, GoMap.get_set_self]
    · cases hm : GoMap.get m a with
      | none =>
        have hv2 : ¬ validator = v := fun h => hv h.symm
        simp [dutyEntry, hm, hv, hv2, GoMap.get_set_self, GoMap.get, GoMap.set]
      | some inner =>
        cases hi : GoMap.get inner validator with
        | none => simp [dutyEntry, hm, hi, hv, GoMap.get_set_self, GoMap.get_set_of_ne _ _ _ _ hv]
        | some old => simp [dutyEntry, hm, hi, hv, GoMap.get_set_self, GoMap.get_set_of_ne _ _ _ _ hv]
  · cases hm : GoMap.get m attestedSlot with
    | none => simp [dutyEntry, hm, ha, GoMap.get_set_of_ne _ _ _ _ ha]
    | some inner => simp [dutyEntry, hm, ha, GoMap.get_set_of_ne _ _ _ _ ha]

theorem slotAttDutiesOf_cons (blockSlot validator attestedSlot : Nat) (rest : List Nat)
    (m : GoMap Nat (GoMap Nat (List Nat))) :
    slotAttDutiesOf blockSlot validator (attestedSlot :: rest) m =
      slotAttDutiesOf blockSlot validator rest (slotAttDutiesOf blockSlot validator [attestedSlot] m) := rfl

/-- The loop of lines 294-302 over the attested slots of one validator. -/
theorem dutyEntry_slotAttDutiesOf (blockSlot validator : Nat) (attestedSlots : List Nat) :
    ∀ (m : GoMap Nat (GoMap Nat (List Nat))) (a v : Nat),
      dutyEntry (slotAttDutiesOf blockSlot validator attestedSlots m) a v =
        if v = validator ∧ a ∈ attestedSlots then
          some ((dutyEntry m a validator).getD [] ++ List.replicate (attestedSlots.count a) blockSlot)
        else dutyEntry m a v := by
  induction attestedSlots with
  | nil =>
    intro m a v
    simp [slotAttDutiesOf]
  | cons x rest ih =>
    intro m a v
    rw [slotAttDutiesOf_cons, ih, dutyEntry_step, dutyEntry_step]
    by_cases hv : v = validator
    · subst hv
      by_cases hx : a = x
      · subst hx
        by_cases hr : a ∈ rest
        · simp [hr, List.count_cons, List.replicate_succ]
        · simp [hr, List.count_eq_zero_of_not_mem hr]
      · have hx2 : ¬ x = a := fun h => hx h.symm
        by_cases hr : a ∈ rest
        · simp [hr, hx, hx2, List.count_cons]
        · simp [hr, hx, hx2]
    · simp [hv]

/-- The loop of lines 292-303 over the entries of `block.AttestationDuties`, from the map `m`. -/
theorem dutyEntry_entries (blockSlot : Nat) (entries : GoMap Nat (List Nat)) :
    (entries.map Prod.fst).Nodup →
    ∀ (m : GoMap Nat (GoMap Nat (List Nat))) (a v : Nat),
      dutyEntry (entries.foldl (fun acc entry => slotAttDutiesOf blockSlot entry.1 entry.2 acc) m) a v =
        if a ∈ (GoMap.get entries v).getD [] then
          some ((dutyEntry m a v).getD [] ++
            List.replicate (((GoMap.get entries v).getD []).count a) blockSlot)
        else dutyEntry m a v := by
  induction entries with
  | nil =>
    intro _ m a v
    simp [GoMap.get]
  | cons first rest ih =>
    intro hkeys m a v
    obtain ⟨validator, attestedSlots⟩ := first
    simp only [List.map_cons, List.nodup_cons] at hkeys
    rw [List.foldl_cons, ih hkeys.2, dutyEntry_slotAttDutiesOf]
    by_cases hv : validator = v
    · subst hv
      have hnone : GoMap.get rest validator = none := GoMap.get_of_not_mem_keys rest validator hkeys.1
      simp [GoMap.get, hnone]
    · have hv2 : ¬ v = validator := fun h => hv h.symm
      simp [GoMap.get, hv, hv2]

end DutyEntries

/-- The entries of the attestation duties of the slot. -/
theorem dutyEntry_slotAttDuties (block : Block) (hkeys : (block.AttestationDuties.map Prod.fst).Nodup)
    (a v : Nat) :
    dutyEntry (slotAttDuties block) a v =
      if a ∈ attestedSlotsOf block v then
        some (List.replicate ((attestedSlotsOf block v).count a) block.Slot)
      else none := by
  unfold slotAttDuties attestedSlotsOf
  rw [dutyEntry_entries block.Slot block.AttestationDuties hkeys]
  simp [dutyEntry, GoMap.get]

/-- The first call of the export of the slot itself passes the attestation duties of the slot. -/
theorem exportSlotData_first_call {σ : Type} (d : Deps σ) (block : Block) (s : σ) :
    ∃ rest, (exportSlotData d block s).calls = .SaveAttestationDuties (slotAttDuties block) :: rest := by
  unfold exportSlotData
  rw [bind_run]
  simp only [call_run, List.singleton_append]
  exact ⟨_, rfl⟩

/-- C12. Per-slot attestation duties record the inclusion slot: the map that
`ExportSlot` passes to the per-slot `SaveAttestationDuties` has an entry for
`(attested_slot a, validator v)` if and only if `a` occurs in
`block.attestation_duties[v]`, and that entry is `block.slot` repeated once per
occurrence of `a`; every recorded slot is the slot of the block, so an attested
slot other than the slot of the block is never recorded, and the entries do
not depend on the order in which the map of the block is iterated. -/
theorem attestation_duties_inclusion_slot (block : Block)
    (hkeys : (block.AttestationDuties.map Prod.fst).Nodup) :
    (∀ (σ : Type) (d : Deps σ) (s : σ),
      ∃ rest, (exportSlotData d block s).calls = .SaveAttestationDuties (slotAttDuties block) :: rest) ∧
    (∀ a v, dutyEntry (slotAttDuties block) a v =
      if a ∈ attestedSlotsOf block v then
        some (List.replicate ((attestedSlotsOf block v).count a) block.Slot)
      else none) ∧
    (∀ a v entry, dutyEntry (slotAttDuties block) a v = some entry →
      (∀ x ∈ entry, x = block.Slot) ∧ (a ≠ block.Slot → a ∉ entry)) ∧
    (∀ other : Block, other.Slot = block.Slot →
      List.Perm other.AttestationDuties block.AttestationDuties →
      ∀ a v, dutyEntry (slotAttDuties other) a v = dutyEntry (slotAttDuties block) a v) := by
  refine ⟨fun σ d s => exportSlotData_first_call d block s, dutyEntry_slotAttDuties block hkeys, ?_, ?_⟩
  · intro a v entry hentry
    rw [dutyEntry_slotAttDuties block hkeys] at hentry
    have hall : ∀ x ∈ entry, x = block.Slot := by
      intro x hx
      split at hentry
      · cases hentry
        exact List.eq_of_mem_replicate hx
      · cases hentry
    exact ⟨hall, fun hne hmem => hne (hall a hmem)⟩
  · intro other hslot hperm a v
    have hkeys2 : (other.AttestationDuties.map Prod.fst).Nodup :=
      (hperm.map Prod.fst).nodup_iff.mpr hkeys
    have hsame : attestedSlotsOf other v = attestedSlotsOf block v := by
      unfold attestedSlotsOf
      rw [GoMap.get_eq_of_perm _ _ hperm hkeys]
    rw [dutyEntry_slotAttDuties other hkeys2, dutyEntry_slotAttDuties block hkeys, hsame, hslot]

/-- The block of slot 7 in which validator 1 attested the slots 5, 6, 5: the
entry of `(5, 1)` is `[7, 7]` and there is no entry for `(7, 1)`. -/
theorem attestation_duties_inclusion_slot_witness :
    dutyEntry (slotAttDuties dutyBlock) 5 1 = some [7, 7] ∧
      dutyEntry (slotAttDuties dutyBlock) 7 1 = none :=
  ⟨(attestation_duties_inclusion_slot dutyBlock (by decide)).2.1 5 1,
    (attestation_duties_inclusion_slot dutyBlock (by decide)).2.1 7 1⟩

end SlotExporter
